import Mathlib

/-!
# UniVibe recommendation engine: a shallow embedding of `backend/rlEngine.js`

The engine's JavaScript numbers are modelled as exact rationals (`ℚ`), its
integers as `Int`/`Nat`, its SQLite tables as lists of rows, and the calls to
`Math.random()` as successive reads of a stream `Nat → ℚ`.  The definitions
follow the source function by function and keep its names.  Where a property
of repeated value updates depends on the rounding of the arithmetic,
`updateQValueDouble` computes on doubles: rationals rounded to the nearest
double after every operation (`roundDouble`).
-/

namespace UniVibe

/-! ## Hyperparameters (`CONFIG`, rlEngine.js 17-34) -/

namespace CONFIG

def epsilon : ℚ := 0.15
def epsilonDecay : ℚ := 0.999
def epsilonMin : ℚ := 0.05
def learningRate : ℚ := 0.1
def discountFactor : ℚ := 0.95

namespace rewardWeights

def click : ℚ := 1.0
def view : ℚ := 0.5
def search : ℚ := 0.3
def rating_positive : ℚ := 2.0
def rating_neutral : ℚ := 0.5
def rating_negative : ℚ := -1.0
def recommend_click : ℚ := 1.5
def dwell : ℚ := 0.8
def ignore : ℚ := -0.2

end rewardWeights

end CONFIG

/-! ## The value store (`rl_qtable`, database.js 64-75 and 160-172) -/

/-- One row of `rl_qtable`.  The surrogate `id` and the `updated_at` timestamp
are not modelled: the engine never reads them. -/
structure QRow where
  user_uid : String
  state_key : String
  movie_id : Int
  q_value : ℚ
  visit_count : Nat
  last_reward : ℚ
deriving DecidableEq

/-- The table `rl_qtable`, in row order. -/
abbrev QTable := List QRow

/-- The row belongs to the triple `(user, state, movie)`. -/
def QRow.hasKey (e : QRow) (u s : String) (m : Int) : Prop :=
  e.user_uid = u ∧ e.state_key = s ∧ e.movie_id = m

instance (e : QRow) (u s : String) (m : Int) : Decidable (e.hasKey u s m) := by
  unfold QRow.hasKey; infer_instance

/-- The row belongs to the pair `(user, state)`. -/
def QRow.inState (e : QRow) (u s : String) : Prop :=
  e.user_uid = u ∧ e.state_key = s

instance (e : QRow) (u s : String) : Decidable (e.inState u s) := by
  unfold QRow.inState; infer_instance

/-- The constraint `UNIQUE(user_uid, state_key, movie_id)` of the schema:
two rows at different positions never carry the same triple. -/
def UniqueKeys (t : QTable) : Prop :=
  t.Pairwise (fun a b => ¬ b.hasKey a.user_uid a.state_key a.movie_id)

instance (t : QTable) : Decidable (UniqueKeys t) := by
  unfold UniqueKeys; infer_instance

/-- The order `ORDER BY q_value DESC`. -/
def qDesc (a b : QRow) : Prop := b.q_value ≤ a.q_value

instance : DecidableRel qDesc := fun a b => by unfold qDesc; infer_instance

instance : IsTotal QRow qDesc := ⟨fun a b => by unfold qDesc; exact le_total _ _⟩

instance : IsTrans QRow qDesc := ⟨fun a b c hab hbc => by unfold qDesc at *; exact le_trans hbc hab⟩

namespace stmts

/-- Statement `SELECT * FROM rl_qtable WHERE user_uid = ? AND state_key = ? AND movie_id = ?`
read with `.get`: the first matching row, if any. -/
def getQValue (t : QTable) (u s : String) (m : Int) : Option QRow :=
  t.find? (fun e => decide (e.hasKey u s m))

/-- Statement `SELECT * FROM rl_qtable WHERE user_uid = ? AND state_key = ?
ORDER BY q_value DESC LIMIT ?`.  Rows of equal value are kept in table order
(SQL leaves their order open). -/
def getTopQValues (t : QTable) (u s : String) (limit : Nat) : List QRow :=
  ((t.filter (fun e => decide (e.inState u s))).insertionSort qDesc).take limit

/-- Statement `INSERT INTO rl_qtable ... ON CONFLICT(user_uid, state_key, movie_id)
DO UPDATE SET q_value = .., visit_count = .., last_reward = ..`. -/
def upsertQValue (t : QTable) (row : QRow) : QTable :=
  if t.any (fun e => decide (e.hasKey row.user_uid row.state_key row.movie_id)) then
    t.map (fun e =>
      if e.hasKey row.user_uid row.state_key row.movie_id then
        { e with q_value := row.q_value, visit_count := row.visit_count,
                 last_reward := row.last_reward }
      else e)
  else
    t ++ [row]

end stmts

/-! ## Q-value update (`updateQValue`, rlEngine.js 143-168) -/

/-- The record `{ oldQ, newQ, tdError, reward }` returned by `updateQValue`. -/
structure QUpdate where
  oldQ : ℚ
  newQ : ℚ
  tdError : ℚ
  reward : ℚ
deriving DecidableEq

/-- The function `updateQValue(userUid, stateKey, movieId, reward)`: the
returned record together with the value store after the call. -/
def updateQValue (t : QTable) (userUid stateKey : String) (movieId : Int) (reward : ℚ) :
    QUpdate × QTable :=
  let existing := stmts.getQValue t userUid stateKey movieId
  let currentQ : ℚ := match existing with
    | some e => e.q_value
    | none => 0.0
  let visitCount : Nat := match existing with
    | some e => e.visit_count
    | none => 0
  let bestFuture := stmts.getTopQValues t userUid stateKey 1
  let maxFutureQ : ℚ := match bestFuture with
    | e :: _ => e.q_value
    | [] => 0
  let tdTarget := reward + CONFIG.discountFactor * maxFutureQ
  let tdError := tdTarget - currentQ
  let newQ := currentQ + CONFIG.learningRate * tdError
  ({ oldQ := currentQ, newQ := newQ, tdError := tdError, reward := reward },
   stmts.upsertQValue t
     { user_uid := userUid, state_key := stateKey, movie_id := movieId,
       q_value := newQ, visit_count := visitCount + 1, last_reward := reward })

/-! ## Double-precision arithmetic (the numbers of JavaScript) -/

/-- Round to the nearest integer, ties to the even one. -/
def roundHalfEven (z : ℚ) : Int :=
  if z - ⌊z⌋ < 1 / 2 then ⌊z⌋
  else if 1 / 2 < z - ⌊z⌋ then ⌊z⌋ + 1
  else if ⌊z⌋ % 2 = 0 then ⌊z⌋ else ⌊z⌋ + 1

/-- Binary search for the largest exponent `k + j`, `j < 2 ^ i`, with `2 ^ (k + j) ≤ n`. -/
def log2Aux (n : Nat) : Nat → Nat → Nat
  | 0, k => k
  | i + 1, k => if 2 ^ (k + 2 ^ i) ≤ n then log2Aux n i (k + 2 ^ i) else log2Aux n i k

/-- The spacing of the doubles around `X ≥ 0`, both in units of 2^-1074. -/
def quantum (X : ℚ) : Nat :=
  2 ^ (max (log2Aux ⌊X⌋₊ 12 0) 52 - 52)

/-- The double nearest to `X ≥ 0`, both in units of 2^-1074. -/
def roundUnits (X : ℚ) : ℚ :=
  (roundHalfEven (X / quantum X) : ℚ) * quantum X

/-- The number of units 2^-1074, the smallest positive double, in 1. -/
@[irreducible]
def unitsPerOne : ℚ := 2 ^ 1074

/-- The double nearest to `x`, ties to the even significand: the rounding of
IEEE 754 binary64, in which JavaScript computes, with its subnormal numbers.
The overflow to an infinity, which starts below 2^1024, is not represented:
the theorems keep every magnitude below 2^1007. -/
def roundDouble (x : ℚ) : ℚ :=
  if 0 ≤ x then roundUnits (x * unitsPerOne) / unitsPerOne
  else -(roundUnits (-x * unitsPerOne) / unitsPerOne)

/-- The rational `x` is a double. -/
def IsDouble (x : ℚ) : Prop := roundDouble x = x

instance (x : ℚ) : Decidable (IsDouble x) := by unfold IsDouble; infer_instance

/-- A bound on the magnitudes that the lemmas on `roundDouble` cover. -/
@[irreducible]
def overflowBound : ℚ := 2 ^ 1024

/-- Half a unit: the largest rounding error of a subnormal double. -/
@[irreducible]
def halfUnit : ℚ := 1 / (2 * unitsPerOne)

/-- A bound, in units of 2^-1074, far above every double. -/
@[irreducible]
def unitsBound : ℚ := 2 ^ 4096

/-! ## Q-value update on doubles (`updateQValue`, rlEngine.js 143-168) -/

/-- The function `updateQValue(userUid, stateKey, movieId, reward)` as the
program computes it: the constants of `CONFIG` and the result of every
arithmetic operation are rounded to a double.  The reward and the stored
values are doubles. -/
def updateQValueDouble (t : QTable) (userUid stateKey : String) (movieId : Int) (reward : ℚ) :
    QUpdate × QTable :=
  let existing := stmts.getQValue t userUid stateKey movieId
  let currentQ : ℚ := match existing with
    | some e => e.q_value
    | none => 0.0
  let visitCount : Nat := match existing with
    | some e => e.visit_count
    | none => 0
  let bestFuture := stmts.getTopQValues t userUid stateKey 1
  let maxFutureQ : ℚ := match bestFuture with
    | e :: _ => e.q_value
    | [] => 0
  let tdTarget :=
    roundDouble (reward + roundDouble (roundDouble CONFIG.discountFactor * maxFutureQ))
  let tdError := roundDouble (tdTarget - currentQ)
  let newQ := roundDouble (currentQ + roundDouble (roundDouble CONFIG.learningRate * tdError))
  ({ oldQ := currentQ, newQ := newQ, tdError := tdError, reward := reward },
   stmts.upsertQValue t
     { user_uid := userUid, state_key := stateKey, movie_id := movieId,
       q_value := newQ, visit_count := visitCount + 1, last_reward := reward })

/-! ## Reward calculation (`calculateReward`, rlEngine.js 105-126) -/

/-- The characters `parseInt` skips at the start of its argument: the white
space and line terminator code points of ECMAScript. -/
def isStrWhiteSpaceChar (c : Char) : Bool :=
  let n := c.toNat
  n = 0x09 || n = 0x0A || n = 0x0B || n = 0x0C || n = 0x0D || n = 0x20 || n = 0xA0 ||
  n = 0x1680 || (0x2000 ≤ n && n ≤ 0x200A) || n = 0x2028 || n = 0x2029 || n = 0x202F ||
  n = 0x205F || n = 0x3000 || n = 0xFEFF

/-- Value of a character as a digit of the given radix (10 or 16), if it is one. -/
def digitValue (radix : Nat) (c : Char) : Option Nat :=
  if c.isDigit then some (c.toNat - 48)
  else if radix = 16 ∧ 97 ≤ c.toNat ∧ c.toNat ≤ 102 then some (c.toNat - 87)
  else if radix = 16 ∧ 65 ≤ c.toNat ∧ c.toNat ≤ 70 then some (c.toNat - 55)
  else none

/-- Reads the longest run of radix digits at the head of `cs`: `none` when the
run is empty, otherwise the number it denotes after the digits already read. -/
def readDigits (radix : Nat) : List Char → Option Nat → Option Nat
  | [], acc => acc
  | c :: cs, acc =>
    match digitValue radix c with
    | some d => readDigits radix cs (some (acc.getD 0 * radix + d))
    | none => acc

/-- The sign step of `parseInt`: a leading `-` or `+` is removed and fixes the sign. -/
def parseSign : List Char → Int × List Char
  | '-' :: rest => (-1, rest)
  | '+' :: rest => (1, rest)
  | S => (1, S)

/-- The radix step of `parseInt` without a radix argument: a leading `0x` or
`0X` is removed and selects radix 16, otherwise the radix is 10. -/
def parseRadix : List Char → Nat × List Char
  | '0' :: 'x' :: rest => (16, rest)
  | '0' :: 'X' :: rest => (16, rest)
  | S => (10, S)

/-- The built-in `parseInt(string)` called without a radix: leading white space
is skipped, then an optional sign, then an optional `0x`/`0X` (radix 16), then
the longest run of digits; `none` stands for `NaN` (no digit).  The result is
the exact integer: the rounding of long numerals to a double changes none of
the comparisons made with it. -/
def parseInt (s : String) : Option Int :=
  let S := s.toList.dropWhile isStrWhiteSpaceChar
  let signed := parseSign S
  let based := parseRadix signed.2
  match readDigits based.1 based.2 none with
  | some n => some (signed.1 * (n : Int))
  | none => none

/-- The function `calculateReward(eventType, eventValue = '')`. -/
def calculateReward (eventType : String) (eventValue : String := "") : ℚ :=
  if eventType = "click" then CONFIG.rewardWeights.click
  else if eventType = "view" then CONFIG.rewardWeights.view
  else if eventType = "search" then CONFIG.rewardWeights.search
  else if eventType = "recommend_click" then CONFIG.rewardWeights.recommend_click
  else if eventType = "dwell" then CONFIG.rewardWeights.dwell
  else if eventType = "rating" then
    match parseInt eventValue with
    | some rating =>
      if rating ≥ 4 then CONFIG.rewardWeights.rating_positive
      else if rating = 3 then CONFIG.rewardWeights.rating_neutral
      else CONFIG.rewardWeights.rating_negative
    | none => CONFIG.rewardWeights.rating_negative
  else 0

/-! ## Profiles, events, ratings and the catalogue (database.js 19-87, movieData.js) -/

/-- An entry of a stored JSON array, or the property `0` of a stored JSON
object, as far as the engine can tell: a string, or a value of another kind, of
which the engine only ever takes the text `String(value)` (`null` for null,
`1.5` for that number, the empty text for an empty array, `[object Object]` for
an object).  An entry that has no such text is not represented: an object
whose own property `toString` is no function, on which the template literal of
`encodeState` throws. -/
inductive JsonItem where
  | str (s : String)
  | other (text : String)
deriving DecidableEq

/-- The text that a template literal makes of the entry. -/
def JsonItem.text : JsonItem → String
  | JsonItem.str s => s
  | JsonItem.other text => text

/-- What `JSON.parse` makes of the text column `users.preferred_genres`, as
far as the engine can tell.  `absent` is a missing or empty text (falsy, never
parsed) and `malformed` a text that `JSON.parse` rejects (the engine swallows
the error).  Every other text denotes a JSON value: `list gs` an array of
strings, `array items` an array with an entry that is no string, `text s` a
string (taken to start with a character of the Basic Multilingual Plane: of a
character beyond it the engine would take the first half), `object` an object,
of which the engine sees whether its property `length` compares greater than 0
and its property `0`, and `scalar` a number, a boolean or null, which have no
`length` above 0 and no method `includes`. -/
inductive PrefGenres where
  | absent
  | malformed
  | list (gs : List String)
  | array (items : List JsonItem)
  | text (s : String)
  | object (lengthPositive : Bool) (zero : Option JsonItem)
  | scalar
deriving DecidableEq

/-- The method `preferredGenres.includes` of the parsed value, where it has
one: membership for a stored array (only a string entry equals a genre),
containment for a stored string.  On any other value the call throws. -/
def PrefGenres.includes? : PrefGenres → Option (String → Bool)
  | PrefGenres.list gs => some (fun g => decide (g ∈ gs))
  | PrefGenres.array items => some (fun g => decide (JsonItem.str g ∈ items))
  | PrefGenres.text s => some (fun g => decide (g.toList <:+: s.toList))
  | _ => none

/-- The columns of a row of `users` that the engine reads.  `age` is `none`
for SQL `NULL`; an unset `preferred_experience` is the empty text. -/
structure User where
  user_uid : String
  age : Option Nat
  preferred_genres : PrefGenres
  preferred_experience : String
deriving DecidableEq

/-- One row of `interactions`; `created_at` is the insertion time in seconds. -/
structure Interaction where
  user_uid : String
  movie_id : Int
  event_type : String
  event_value : String
  context_genre : String
  context_experience : String
  context_source : String
  duration_ms : Int
  created_at : Nat
deriving DecidableEq

/-- One row of `ratings`. -/
structure Rating where
  user_uid : String
  movie_id : Int
  rating : Int
deriving DecidableEq

/-- The fields of a catalogue entry (movieData.js) that the engine reads. -/
structure Movie where
  movie_id : Int
  genre : List String
  experience_type : String
  rating_percent : ℚ
  popularity_score : ℚ
  age_limit : Nat
deriving DecidableEq

/-- The tables of the database that the engine reads and writes. -/
structure Db where
  users : List User
  interactions : List Interaction
  rl_qtable : QTable
  ratings : List Rating

/-- One result row of `getMovieInteractionCounts`. -/
structure InteractionCount where
  movie_id : Int
  event_type : String
  count : Nat
deriving DecidableEq

/-- The order `ORDER BY created_at DESC`. -/
def createdDesc (a b : Interaction) : Prop := b.created_at ≤ a.created_at

instance : DecidableRel createdDesc := fun a b => by unfold createdDesc; infer_instance

instance : IsTotal Interaction createdDesc :=
  ⟨fun a b => by unfold createdDesc; exact le_total _ _⟩

instance : IsTrans Interaction createdDesc :=
  ⟨fun a b c hab hbc => by unfold createdDesc at *; exact le_trans hbc hab⟩

namespace stmts

/-- Statement `SELECT * FROM users WHERE user_uid = ?` read with `.get`. -/
def getUserByUid (db : Db) (uid : String) : Option User :=
  db.users.find? (fun u => decide (u.user_uid = uid))

/-- Statement `SELECT * FROM interactions WHERE user_uid = ? ORDER BY created_at DESC LIMIT ?`.
Rows of equal time are kept in table order (SQL leaves their order open). -/
def getUserInteractions (db : Db) (uid : String) (limit : Nat) : List Interaction :=
  ((db.interactions.filter (fun i => decide (i.user_uid = uid))).insertionSort createdDesc).take
    limit

/-- Statement `SELECT * FROM ratings WHERE user_uid = ?`. -/
def getUserRatings (db : Db) (uid : String) : List Rating :=
  db.ratings.filter (fun r => decide (r.user_uid = uid))

/-- Statement `SELECT movie_id, event_type, COUNT(*) as count FROM interactions
WHERE user_uid = ? GROUP BY movie_id, event_type`. -/
def getMovieInteractionCounts (db : Db) (uid : String) : List InteractionCount :=
  let rows := db.interactions.filter (fun i => decide (i.user_uid = uid))
  let groups := (rows.map (fun i => (i.movie_id, i.event_type))).dedup
  groups.map (fun g =>
    { movie_id := g.1, event_type := g.2,
      count := rows.countP (fun i => decide (i.movie_id = g.1 ∧ i.event_type = g.2)) })

end stmts

/-! ## State encoding (`encodeState`, rlEngine.js 45-94) -/

/-- A value held by the object used as a tally: a count, or the text that
`+ 1` makes of a value that is no number. -/
inductive TallyVal where
  | num (n : Nat)
  | str (s : String)
deriving DecidableEq

/-- The number a tally value reads as in `b[1] - a[1]`; `none` stands for
`NaN`: the texts that arise start with `function` and read as no number. -/
def TallyVal.toNumber : TallyVal → Option Nat
  | TallyVal.num n => some n
  | TallyVal.str _ => none

/-- The expression `(value || 0) + 1` for a value of the tally. -/
def TallyVal.succ : TallyVal → TallyVal
  | TallyVal.num n => TallyVal.num (n + 1)
  | TallyVal.str s => if s = "" then TallyVal.num 1 else TallyVal.str (s ++ "1")

/-- The names of the functions that every plain object inherits from
`Object.prototype`. -/
def inheritedFunctions : List String :=
  ["constructor", "__defineGetter__", "__defineSetter__", "hasOwnProperty",
    "__lookupGetter__", "__lookupSetter__", "isPrototypeOf", "propertyIsEnumerable",
    "toString", "valueOf", "toLocaleString"]

/-- The names a plain object inherits from `Object.prototype`: its functions
and the accessor `__proto__`. -/
def objectPrototypeNames : List String := "__proto__" :: inheritedFunctions

/-- The text `String(f)` of the inherited function read under the name `key`,
as the engine of Node prints a built-in function. -/
def nativeText (key : String) : String :=
  "function " ++ (if key = "constructor" then "Object" else key) ++ "() \x7b [native code] \x7d"

/-- The statement `counts[key] = (counts[key] || 0) + 1` on the plain object
`counts` used as a tally, kept as its own properties in creation order.  An own
property is counted up.  Otherwise the value read is the inherited one: under
the name `__proto__` the assignment reaches the inherited setter, which ignores
a text, and the tally keeps its properties; under the name of an inherited
function the text of the function followed by `1` becomes an own property; any
other name starts at 1. -/
def tallyAdd (counts : List (String × TallyVal)) (key : String) : List (String × TallyVal) :=
  if counts.any (fun p => decide (p.1 = key)) then
    counts.map (fun p => if p.1 = key then (p.1, p.2.succ) else p)
  else if key = "__proto__" then counts
  else if key ∈ inheritedFunctions then
    counts ++ [(key, TallyVal.str (nativeText key ++ "1"))]
  else
    counts ++ [(key, TallyVal.num 1)]

/-- The number a property key denotes when it is an array index: a canonical
decimal numeral (no leading zero) below `2^32 - 1`. -/
def arrayIndex (key : String) : Option Nat :=
  let cs := key.toList
  if cs ≠ [] ∧ cs.all Char.isDigit = true ∧ (cs.head? = some '0' → cs.length = 1) then
    match readDigits 10 cs none with
    | some n => if n < 4294967295 then some n else none
    | none => none
  else none

/-- The order of array-index keys in `Object.entries`: ascending number. -/
def indexAsc {α : Type} (a b : String × α) : Prop :=
  (arrayIndex a.1).getD 0 ≤ (arrayIndex b.1).getD 0

instance {α : Type} : DecidableRel (indexAsc : String × α → String × α → Prop) :=
  fun a b => by unfold indexAsc; infer_instance

/-- The built-in `Object.entries(counts)`: the array-index keys first, in
ascending numeric order, then the other keys in creation order. -/
def objectEntries {α : Type} (counts : List (String × α)) : List (String × α) :=
  (counts.filter (fun p => (arrayIndex p.1).isSome)).insertionSort indexAsc ++
    counts.filter (fun p => !(arrayIndex p.1).isSome)

/-- The comparator `(a, b) => b[1] - a[1]`: `a` may stay before `b`.  When one
of the two values reads as `NaN` the difference is `NaN`, which the sort takes
for 0. -/
def countDesc (a b : String × TallyVal) : Prop :=
  match a.2.toNumber, b.2.toNumber with
  | some x, some y => y ≤ x
  | _, _ => True

instance : DecidableRel countDesc := fun a b => by
  unfold countDesc; split <;> infer_instance

/-- The expression `Object.entries(counts).sort((a, b) => b[1] - a[1])[0]`.
The sort is stable; it is taken as the insertion of each entry, from the last
to the first, before the first entry it may stay before, which is the stable
order whenever all values are numbers (with a `NaN` among the differences the
language leaves the order to the engine). -/
def topEntry (counts : List (String × TallyVal)) : Option (String × TallyVal) :=
  ((objectEntries counts).insertionSort countDesc).head?

/-- The time slot of an hour of the day (rlEngine.js 86-91). -/
def timeSlot (hour : Nat) : String :=
  if hour ≥ 5 ∧ hour < 12 then "morning"
  else if hour ≥ 12 ∧ hour < 17 then "afternoon"
  else if hour ≥ 17 ∧ hour < 21 then "evening"
  else "night"

namespace encodeState

/-- The object `genreCounts` after the tally pass (rlEngine.js 52-62). -/
def genreCounts (recentInteractions : List Interaction) : List (String × TallyVal) :=
  recentInteractions.foldl
    (fun counts interaction =>
      if interaction.context_genre ≠ "" then tallyAdd counts interaction.context_genre
      else counts) []

/-- The object `expCounts` after the tally pass (rlEngine.js 53-62). -/
def expCounts (recentInteractions : List Interaction) : List (String × TallyVal) :=
  recentInteractions.foldl
    (fun counts interaction =>
      if interaction.context_experience ≠ "" then
        tallyAdd counts interaction.context_experience
      else counts) []

/-- The local `dominantGenre` when the key is built (rlEngine.js 47-79). -/
def dominantGenre (userProfile : User) (recentInteractions : List Interaction) : String :=
  let dominantGenre := "general"
  let dominantGenre :=
    if recentInteractions.length > 0 then
      match topEntry (genreCounts recentInteractions) with
      | some topGenre => topGenre.1
      | none => dominantGenre
    else dominantGenre
  if dominantGenre = "general" then
    match userProfile.preferred_genres with
    | PrefGenres.list (g :: _) => g
    | PrefGenres.array (item :: _) => item.text
    | PrefGenres.text s =>
      (match s.toList with
        | c :: _ => String.singleton c
        | [] => dominantGenre)
    | PrefGenres.object true (some item) => item.text
    | PrefGenres.object true none => "undefined"
    | _ => dominantGenre
  else dominantGenre

/-- The local `dominantExperience` when the key is built (rlEngine.js 48-83). -/
def dominantExperience (userProfile : User) (recentInteractions : List Interaction) : String :=
  let dominantExperience := "any"
  let dominantExperience :=
    if recentInteractions.length > 0 then
      match topEntry (expCounts recentInteractions) with
      | some topExp => topExp.1
      | none => dominantExperience
    else dominantExperience
  if dominantExperience = "any" ∧ userProfile.preferred_experience ≠ "" then
    userProfile.preferred_experience
  else dominantExperience

end encodeState

/-- The function `encodeState(userProfile, recentInteractions = [])`; `hour` is
the value of `new Date().getHours()`. -/
def encodeState (userProfile : User) (recentInteractions : List Interaction) (hour : Nat) :
    String :=
  encodeState.dominantGenre userProfile recentInteractions ++ "|" ++
    encodeState.dominantExperience userProfile recentInteractions ++ "|" ++ timeSlot hour

/-! ## Recommendation generation (`getRecommendations`, rlEngine.js 188-334) -/

/-- The object built for one candidate by the scoring callback. -/
structure Scored where
  movie : Movie
  score : ℚ
  source : String
  reason : String
  allReasons : List String
  qValue : Option ℚ
  visitCount : Nat
deriving DecidableEq

/-- The local variables `score`, `reasons` and `source` of the scoring callback. -/
structure ScoreAcc where
  score : ℚ
  reasons : List String
  source : String

/-- The lookup `qMap.get(id)` in the map filled by
`learnedValues.forEach(v => qMap.set(v.movie_id, v))`: the last row set for the id. -/
def qMapGet (learnedValues : List QRow) (id : Int) : Option QRow :=
  learnedValues.reverse.find? (fun v => decide (v.movie_id = id))

/-- The callback of `positiveRatedMovies.some(...)` (rlEngine.js 254-259). -/
def similarTo (allMovies : List Movie) (movie : Movie) (ratedId : Int) : Bool :=
  match allMovies.find? (fun m => decide (m.movie_id = ratedId)) with
  | none => false
  | some rated =>
    rated.genre.any (fun g => decide (g ∈ movie.genre)) &&
      decide (rated.experience_type = movie.experience_type)

/-- Step 1 of the scoring callback, the RL Q-value component (rlEngine.js 227-233). -/
def qValueComponent (qEntry : Option QRow) (acc : ScoreAcc) : ScoreAcc :=
  match qEntry with
  | some e =>
    if e.visit_count > 0 then
      { score := acc.score + e.q_value * 3,
        reasons := acc.reasons ++ ["learned from your behavior"], source := "rl" }
    else acc
  | none => acc

/-- Step 2 of the scoring callback, first half: the genre affinity
(rlEngine.js 236-245).  Where the parsed value has no method `includes`, the
first call of the filter throws, or the item has no genre and nothing is
called: either way score and reasons stay as they are. -/
def genreAffinity (userProfile : User) (movie : Movie) (acc : ScoreAcc) : ScoreAcc :=
  match userProfile.preferred_genres.includes? with
  | some includes =>
    let sharedGenres := movie.genre.filter includes
    if sharedGenres.length > 0 then
      { acc with
        score := acc.score + (sharedGenres.length : ℚ) * 0.8,
        reasons := acc.reasons ++
          ["matches your taste (" ++ ", ".intercalate sharedGenres ++ ")"] }
    else acc
  | none => acc

/-- Step 2 of the scoring callback, second half: the experience affinity
(rlEngine.js 247-250). -/
def experienceAffinity (userProfile : User) (movie : Movie) (acc : ScoreAcc) : ScoreAcc :=
  if userProfile.preferred_experience ≠ "" ∧
      movie.experience_type = userProfile.preferred_experience then
    { acc with
      score := acc.score + 0.6,
      reasons := acc.reasons ++
        ["matches your preferred vibe (" ++ movie.experience_type ++ ")"] }
  else acc

/-- Step 3 of the scoring callback, the collaborative signal (rlEngine.js 253-264). -/
def collaborativeSignal (allMovies : List Movie) (ratedMovies positiveRatedMovies : List Int)
    (movie : Movie) (acc : ScoreAcc) : ScoreAcc :=
  if positiveRatedMovies.length > 0 then
    let similarToRated := positiveRatedMovies.any (similarTo allMovies movie)
    if similarToRated = true ∧ movie.movie_id ∉ ratedMovies then
      { acc with
        score := acc.score + 1.2,
        reasons := acc.reasons ++ ["similar to movies you rated highly"] }
    else acc
  else acc

/-- Step 4 of the scoring callback, the quality baseline (rlEngine.js 267). -/
def qualityBaseline (movie : Movie) (acc : ScoreAcc) : ScoreAcc :=
  { acc with
    score := acc.score + ((movie.popularity_score * 0.3) + (movie.rating_percent / 100 * 0.3)) }

/-- Step 5 of the scoring callback, the novelty bonus (rlEngine.js 270-272). -/
def noveltyBonus (viewedMovies : List Int) (movie : Movie) (acc : ScoreAcc) : ScoreAcc :=
  if movie.movie_id ∉ viewedMovies then { acc with score := acc.score + 0.2 } else acc

/-- Step 6 of the scoring callback, the penalty of rated movies (rlEngine.js 275-277). -/
def ratedPenalty (ratedMovies : List Int) (movie : Movie) (acc : ScoreAcc) : ScoreAcc :=
  if movie.movie_id ∈ ratedMovies then { acc with score := acc.score - 0.5 } else acc

/-- The callback of `candidates.map(...)` (rlEngine.js 222-292): the scored
object of one candidate. -/
def scoreMovie (userProfile : User) (allMovies : List Movie) (learnedValues : List QRow)
    (ratedMovies positiveRatedMovies viewedMovies : List Int) (movie : Movie) : Scored :=
  let acc : ScoreAcc := { score := 0, reasons := [], source := "hybrid" }
  let qEntry := qMapGet learnedValues movie.movie_id
  let acc := qValueComponent qEntry acc
  let acc := genreAffinity userProfile movie acc
  let acc := experienceAffinity userProfile movie acc
  let acc := collaborativeSignal allMovies ratedMovies positiveRatedMovies movie acc
  let acc := qualityBaseline movie acc
  let acc := noveltyBonus viewedMovies movie acc
  let acc := ratedPenalty ratedMovies movie acc
  let reasons := if acc.reasons.length = 0 then ["trending and highly rated"] else acc.reasons
  { movie := movie,
    score := acc.score,
    source := acc.source,
    reason := "🤖 " ++ (reasons.headD "").capitalize,
    allReasons := reasons,
    qValue := qEntry.map (fun e => e.q_value),
    visitCount := match qEntry with
      | some e => e.visit_count
      | none => 0 }

/-- The adaptive exploration rate (rlEngine.js 300-304). -/
def adaptiveEpsilon (learnedValues : List QRow) : ℚ :=
  let totalVisits := learnedValues.foldl (fun sum v => sum + v.visit_count) 0
  max CONFIG.epsilonMin (CONFIG.epsilon * CONFIG.epsilonDecay ^ totalVisits)

/-- The assignments `pick.reason = ...; pick.source = 'explore'`. -/
def markExplore (pick : Scored) : Scored :=
  { pick with reason := "🔮 Exploring new territory for you", source := "explore" }

/-- The effect of `pick.reason = ...; pick.source = 'explore'` on the shared
objects when `pick` is the object at position `pick`. -/
def setExplore (objs : List Scored) (pick : Nat) : List Scored :=
  match objs[pick]? with
  | some o => objs.set pick (markExplore o)
  | none => objs

/-- The state of the selection loop.  The objects made by the scoring callback
live in `objs` and are shared by reference: the arrays `scored` and `results`
hold positions in `objs`.  `draws` counts the calls of `Math.random()` so far. -/
structure Selection where
  objs : List Scored
  scored : List Nat
  results : List Nat
  draws : Nat

/-- The order of the comparator `(a, b) => b.score - a.score` on references. -/
def scoreDesc (objs : List Scored) (i j : Nat) : Prop :=
  (objs.map (fun o => o.score)).getD j 0 ≤ (objs.map (fun o => o.score)).getD i 0

instance (objs : List Scored) : DecidableRel (scoreDesc objs) :=
  fun i j => by unfold scoreDesc; infer_instance

/-- The array `sortedByScore = [...scored].sort((a, b) => b.score - a.score)`
as references (the sort is stable). -/
def sortedByScore (objs : List Scored) : List Nat :=
  (List.range objs.length).insertionSort (scoreDesc objs)

/-- The index `Math.floor(Math.random() * Math.min(scored.length, 30))` drawn
by an explore pass taken from state `st`. -/
def randIdx (rand : Nat → ℚ) (st : Selection) : Nat :=
  (Int.floor (rand (st.draws + 1) * (min st.scored.length 30 : Nat))).toNat

/-- One pass of the body of the loop `for (let i = 0; i < totalCount; i++)`
(rlEngine.js 307-322).  `rand k` is the value of the `k`-th call of
`Math.random()`, a number of `[0, 1)`. -/
def selectStep (rand : Nat → ℚ) (eps : ℚ) (sorted : List Nat) (st : Selection) : Selection :=
  if rand st.draws < eps ∧ st.scored.length > 0 then
    -- EXPLORE
    let randIdx := randIdx rand st
    match st.scored[randIdx]? with
    | some pick =>
      { objs := setExplore st.objs pick
        scored := st.scored.eraseIdx randIdx
        results := st.results ++ [pick]
        draws := st.draws + 2 }
    | none => { st with draws := st.draws + 2 }
  else if sorted.length > 0 then
    -- EXPLOIT
    match sorted.find? (fun s => decide (s ∉ st.results)) with
    | some pick => { st with results := st.results ++ [pick], draws := st.draws + 1 }
    | none => { st with draws := st.draws + 1 }
  else { st with draws := st.draws + 1 }

/-- The loop `for (let i = 0; i < totalCount; i++)`. -/
def selectLoop (rand : Nat → ℚ) (eps : ℚ) (sorted : List Nat) : Nat → Selection → Selection
  | 0, st => st
  | n + 1, st => selectLoop rand eps sorted n (selectStep rand eps sorted st)

/-- The filter `results.filter(r => ...)` with the set `seen` (rlEngine.js
326-331): the first result of each `movie_id` is kept. -/
def uniqueById : List Scored → List Int → List Scored
  | [], _ => []
  | r :: rs, seen =>
    if r.movie.movie_id ∈ seen then uniqueById rs seen
    else r :: uniqueById rs (r.movie.movie_id :: seen)

/-- The pass of the loop taken from state `st` is an explore draw. -/
def explores (rand : Nat → ℚ) (eps : ℚ) (st : Selection) : Prop :=
  rand st.draws < eps ∧ st.scored.length > 0

instance (rand : Nat → ℚ) (eps : ℚ) (st : Selection) : Decidable (explores rand eps st) := by
  unfold explores; infer_instance

/-- What the selection loop keeps true of its state, `objs0` being the objects
as first scored: the objects keep their movie and score, `scored` holds, in
catalogue order, the positions no explore draw has taken, `results` holds
positions of objects, every position taken by an explore draw is in `results`
with source `explore`, and an object still in `scored` is as first scored. -/
structure SelInv (objs0 : List Scored) (st : Selection) : Prop where
  movies : st.objs.map (fun o => o.movie) = objs0.map (fun o => o.movie)
  scores : st.objs.map (fun o => o.score) = objs0.map (fun o => o.score)
  scored_sub : st.scored.Sublist (List.range objs0.length)
  results_lt : ∀ i ∈ st.results, i < objs0.length
  explored : ∀ i, i < objs0.length → i ∉ st.scored →
    i ∈ st.results ∧ (st.objs[i]?).map (fun o => o.source) = some "explore"
  kept : ∀ i ∈ st.scored, st.objs[i]? = objs0[i]?

namespace getRecommendations

/-- The local `learnedValues` (rlEngine.js 195-199): the 100 highest rows
of the value store for the user and the state key of the moment. -/
def learnedValues (db : Db) (hour : Nat) (userUid : String) (userProfile : User) : List QRow :=
  let recentInteractions := stmts.getUserInteractions db userUid 50
  let stateKey := encodeState userProfile recentInteractions hour
  stmts.getTopQValues db.rl_qtable userUid stateKey 100

/-- The local `ratedMovies` (rlEngine.js 204-205), a set kept as a list. -/
def ratedMovies (db : Db) (userUid : String) : List Int :=
  (stmts.getUserRatings db userUid).map (fun r => r.movie_id)

/-- The local `positiveRatedMovies` (rlEngine.js 206). -/
def positiveRatedMovies (db : Db) (userUid : String) : List Int :=
  ((stmts.getUserRatings db userUid).filter (fun r => decide (r.rating ≥ 4))).map
    (fun r => r.movie_id)

/-- The local `viewedMovies` (rlEngine.js 209-215), a set kept as a list. -/
def viewedMovies (db : Db) (userUid : String) : List Int :=
  ((stmts.getMovieInteractionCounts db userUid).filter
    (fun ic => decide (ic.event_type = "view" ∨ ic.event_type = "click"))).map
    (fun ic => ic.movie_id)

/-- The local `userAge = userProfile.age || 99` (rlEngine.js 218). -/
def userAge (userProfile : User) : Nat :=
  match userProfile.age with
  | some 0 => 99
  | some age => age
  | none => 99

/-- The local `candidates` (rlEngine.js 219). -/
def candidates (allMovies : List Movie) (userProfile : User) : List Movie :=
  allMovies.filter (fun m => decide (userAge userProfile ≥ m.age_limit))

/-- The local `scored` as first built (rlEngine.js 222-292). -/
def scored (db : Db) (hour : Nat) (userUid : String) (allMovies : List Movie)
    (userProfile : User) : List Scored :=
  (candidates allMovies userProfile).map
    (scoreMovie userProfile allMovies (learnedValues db hour userUid userProfile)
      (ratedMovies db userUid) (positiveRatedMovies db userUid) (viewedMovies db userUid))

/-- The state of the selection loop after `passes` passes (rlEngine.js 295-323). -/
def selection (db : Db) (hour : Nat) (rand : Nat → ℚ) (userUid : String)
    (allMovies : List Movie) (userProfile : User) (passes : Nat) : Selection :=
  let scored := scored db hour userUid allMovies userProfile
  selectLoop rand (adaptiveEpsilon (learnedValues db hour userUid userProfile))
    (sortedByScore scored) passes
    { objs := scored, scored := List.range scored.length, results := [], draws := 0 }

/-- The profile used: the argument, or else the row of the user (rlEngine.js 189-191). -/
def profile (db : Db) (userUid : String) (userProfile : Option User) : Option User :=
  match userProfile with
  | some p => some p
  | none => stmts.getUserByUid db userUid

end getRecommendations

/-- The function `getRecommendations(userUid, allMovies, count = 8,
userProfile = null)`; `hour` is the hour of the clock and `rand` the stream of
values of `Math.random()`.  The count is a natural number: for a negative count
the source runs no pass and returns the empty list, as it does for 0. -/
def getRecommendations (db : Db) (hour : Nat) (rand : Nat → ℚ) (userUid : String)
    (allMovies : List Movie) (count : Nat := 8) (userProfile : Option User := none) :
    List Scored :=
  match getRecommendations.profile db userUid userProfile with
  | none => []
  | some userProfile =>
    let scored := getRecommendations.scored db hour userUid allMovies userProfile
    let totalCount := min count scored.length
    let final := getRecommendations.selection db hour rand userUid allMovies userProfile totalCount
    let results := final.results.filterMap (fun i => final.objs[i]?)
    let unique := uniqueById results []
    unique.take count

/-! ## Learning from interactions (`learn`, rlEngine.js 344-374) -/

/-- The argument `context` of `learn`; a field that is not given is `none`. -/
structure Context where
  genre : Option String := none
  experience : Option String := none
  source : Option String := none
  duration : Option Int := none
deriving DecidableEq

/-- The prepared statements that `learn` runs, in the order it runs them. -/
inductive Stmt where
  | getUserByUid
  | logInteraction
  | getUserInteractions
  | getQValue
  | getTopQValues
  | upsertQValue
deriving DecidableEq

/-- The event kinds admitted by the constraint
`CHECK(event_type IN ('view', 'click', 'search', 'rating', 'recommend_click', 'dwell'))`
of the table `interactions` (database.js 39). -/
def eventTypes : List String :=
  ["view", "click", "search", "rating", "recommend_click", "dwell"]

namespace stmts

/-- Statement `INSERT INTO interactions (...) VALUES (...)` run at time `now`:
the row is appended with `created_at = now`; `none` when the `CHECK` constraint
on `event_type` rejects the row (the statement raises and writes nothing). -/
def logInteraction (db : Db) (now : Nat) (user_uid : String) (movie_id : Int)
    (event_type event_value context_genre context_experience context_source : String)
    (duration_ms : Int) : Option Db :=
  if event_type ∈ eventTypes then
    some { db with
      interactions := db.interactions ++
        [{ user_uid := user_uid, movie_id := movie_id, event_type := event_type,
           event_value := event_value, context_genre := context_genre,
           context_experience := context_experience, context_source := context_source,
           duration_ms := duration_ms, created_at := now }] }
  else none

end stmts

/-- The object `{ stateKey, movieId, reward, ...update }` returned by `learn`. -/
structure LearnResult where
  stateKey : String
  movieId : Int
  reward : ℚ
  oldQ : ℚ
  newQ : ℚ
  tdError : ℚ
deriving DecidableEq

/-- How a call of `learn` ends: with a result object, with `null`, or with an
exception raised by a statement of the persistence layer. -/
inductive LearnOutcome where
  | result (r : LearnResult)
  | null
  | raised
deriving DecidableEq

/-- The function `learn(userUid, movieId, eventType, eventValue = '', context = {})`
run on database `db` at time `now` (hour of the clock `hour`): how the call ends
and the database after it.  An expression `context.genre || ''` is the given
text, or the empty text when none is given; likewise `context.duration || 0`.  `fault` names the statement, if any, on which the
persistence layer fails in this call: that statement raises without effect, the
exception leaves `learn` (which has no handler), and the statements run before
it keep their effect (each statement commits by itself; the source opens no
transaction). -/
def learn (db : Db) (now hour : Nat) (fault : Option Stmt) (userUid : String) (movieId : Int)
    (eventType : String) (eventValue : String := "") (context : Context := {}) :
    LearnOutcome × Db :=
  if fault = some Stmt.getUserByUid then (LearnOutcome.raised, db)
  else
    match stmts.getUserByUid db userUid with
    | none => (LearnOutcome.null, db)
    | some userProfile =>
      -- Log the interaction
      if fault = some Stmt.logInteraction then (LearnOutcome.raised, db)
      else
        match stmts.logInteraction db now userUid movieId eventType eventValue
            (context.genre.getD "")
            (context.experience.getD "")
            (context.source.getD "")
            (context.duration.getD 0) with
        | none => (LearnOutcome.raised, db)
        | some db1 =>
          -- Calculate reward
          let reward := calculateReward eventType eventValue
          -- Get state and update Q-value
          if fault = some Stmt.getUserInteractions then (LearnOutcome.raised, db1)
          else
            let recentInteractions := stmts.getUserInteractions db1 userUid 50
            let stateKey := encodeState userProfile recentInteractions hour
            if fault = some Stmt.getQValue ∨ fault = some Stmt.getTopQValues ∨
                fault = some Stmt.upsertQValue then (LearnOutcome.raised, db1)
            else
              let update := updateQValue db1.rl_qtable userUid stateKey movieId reward
              (LearnOutcome.result
                { stateKey := stateKey, movieId := movieId, reward := update.1.reward,
                  oldQ := update.1.oldQ, newQ := update.1.newQ, tdError := update.1.tdError },
               { db1 with rl_qtable := update.2 })

/-- The value store after `n` successive calls
`updateQValue(userUid, stateKey, movieId, reward)` with the same arguments. -/
def updateQValueTimes (t : QTable) (userUid stateKey : String) (movieId : Int) (reward : ℚ) :
    Nat → QTable
  | 0 => t
  | n + 1 =>
    (updateQValue (updateQValueTimes t userUid stateKey movieId reward n) userUid stateKey
      movieId reward).2

/-- The local `maxFutureQ` of `updateQValue` (rlEngine.js 150-151). -/
def maxFutureQ (t : QTable) (userUid stateKey : String) : ℚ :=
  match stmts.getTopQValues t userUid stateKey 1 with
  | e :: _ => e.q_value
  | [] => 0

/-- The stored value of a triple: that of its row, 0 when it has none. -/
def storedValue (t : QTable) (userUid stateKey : String) (movieId : Int) : ℚ :=
  match stmts.getQValue t userUid stateKey movieId with
  | some e => e.q_value
  | none => 0

/-- The value store after `n` successive calls
`updateQValue(userUid, stateKey, movieId, reward)` with the same arguments,
computed on doubles. -/
def updateQValueDoubleTimes (t : QTable) (userUid stateKey : String) (movieId : Int)
    (reward : ℚ) : Nat → QTable
  | 0 => t
  | n + 1 =>
    (updateQValueDouble (updateQValueDoubleTimes t userUid stateKey movieId reward n) userUid
      stateKey movieId reward).2

/-- The local `newQ` of `updateQValue` on doubles (rlEngine.js 154-156), from
the reward, the current value and the best value of the state. -/
def newQDouble (reward currentQ maxFutureQ : ℚ) : ℚ :=
  roundDouble (currentQ + roundDouble (roundDouble CONFIG.learningRate *
    roundDouble (roundDouble (reward + roundDouble (roundDouble CONFIG.discountFactor *
      maxFutureQ)) - currentQ)))

/-- The row that `learn` appends to the event log. -/
def learnEvent (now : Nat) (userUid : String) (movieId : Int) (eventType eventValue : String)
    (context : Context) : Interaction :=
  { user_uid := userUid, movie_id := movieId, event_type := eventType,
    event_value := eventValue, context_genre := context.genre.getD "",
    context_experience := context.experience.getD "",
    context_source := context.source.getD "", duration_ms := context.duration.getD 0,
    created_at := now }

/-! ## Learning statistics (`getUserLearningStats`, rlEngine.js 379-403) -/

/-- One result row of `getUserActivityStats`. -/
structure ActivityStat where
  event_type : String
  cnt : Nat
deriving DecidableEq

/-- One result row of `getUserTopGenres`. -/
structure GenreStat where
  context_genre : String
  cnt : Nat
deriving DecidableEq

/-- One result row of `getUserTopMovies`. -/
structure MovieStat where
  movie_id : Int
  cnt : Nat
deriving DecidableEq

namespace stmts

/-- Statement `SELECT * FROM rl_qtable WHERE user_uid = ?`. -/
def getAllUserQValues (t : QTable) (uid : String) : List QRow :=
  t.filter (fun e => decide (e.user_uid = uid))

/-- Statement `SELECT context_genre, COUNT(*) as cnt FROM interactions WHERE
user_uid = ? AND context_genre != '' AND event_type IN ('view', 'click',
'rating') GROUP BY context_genre ORDER BY cnt DESC LIMIT 5`.  Groups of equal
count are kept in group order (SQL leaves their order open). -/
def getUserTopGenres (db : Db) (uid : String) : List GenreStat :=
  let rows := db.interactions.filter (fun i =>
    decide (i.user_uid = uid ∧ i.context_genre ≠ "" ∧
      i.event_type ∈ ["view", "click", "rating"]))
  let groups := (rows.map (fun i => i.context_genre)).dedup
  ((groups.map (fun g =>
      ({ context_genre := g, cnt := rows.countP (fun i => decide (i.context_genre = g)) } :
        GenreStat))).insertionSort (fun a b => b.cnt ≤ a.cnt)).take 5

/-- Statement `SELECT movie_id, COUNT(*) as cnt FROM interactions WHERE
user_uid = ? AND event_type IN ('view', 'click') GROUP BY movie_id ORDER BY cnt
DESC LIMIT 10`.  Groups of equal count are kept in group order. -/
def getUserTopMovies (db : Db) (uid : String) : List MovieStat :=
  let rows := db.interactions.filter (fun i =>
    decide (i.user_uid = uid ∧ i.event_type ∈ ["view", "click"]))
  let groups := (rows.map (fun i => i.movie_id)).dedup
  ((groups.map (fun g =>
      ({ movie_id := g, cnt := rows.countP (fun i => decide (i.movie_id = g)) } :
        MovieStat))).insertionSort (fun a b => b.cnt ≤ a.cnt)).take 10

/-- Statement `SELECT event_type, COUNT(*) as cnt FROM interactions WHERE
user_uid = ? GROUP BY event_type`. -/
def getUserActivityStats (db : Db) (uid : String) : List ActivityStat :=
  let rows := db.interactions.filter (fun i => decide (i.user_uid = uid))
  let groups := (rows.map (fun i => i.event_type)).dedup
  groups.map (fun g =>
    { event_type := g, cnt := rows.countP (fun i => decide (i.event_type = g)) })

end stmts

/-- The record returned by `getUserLearningStats`; the objects of `topGenres`,
`topMovies` and `activityBreakdown` are kept as pairs. -/
structure LearningStats where
  totalInteractions : Nat
  uniqueStatesLearned : Nat
  totalQEntries : Nat
  avgQValue : ℚ
  topGenres : List (String × Nat)
  topMovies : List (Int × Nat)
  activityBreakdown : List (String × Nat)
  modelMaturity : String
deriving DecidableEq

/-- The built-in `Math.round` on an exact number: the nearest integer, halves
going up. -/
def mathRound (x : ℚ) : ℤ := Int.floor (x + 1 / 2)

/-- The function `getUserLearningStats(userUid)`. -/
def getUserLearningStats (db : Db) (userUid : String) : LearningStats :=
  let qValues := stmts.getAllUserQValues db.rl_qtable userUid
  let topGenres := stmts.getUserTopGenres db userUid
  let topMovies := stmts.getUserTopMovies db userUid
  let activityStats := stmts.getUserActivityStats db userUid
  let totalInteractions := activityStats.foldl (fun sum s => sum + s.cnt) 0
  let avgQValue : ℚ :=
    if qValues.length > 0 then
      qValues.foldl (fun sum q => sum + q.q_value) 0 / (qValues.length : ℚ)
    else 0
  { totalInteractions := totalInteractions,
    uniqueStatesLearned := (qValues.map (fun q => q.state_key)).dedup.length,
    totalQEntries := qValues.length,
    avgQValue := (mathRound (avgQValue * 100) : ℚ) / 100,
    topGenres := topGenres.map (fun g => (g.context_genre, g.cnt)),
    topMovies := topMovies.map (fun m => (m.movie_id, m.cnt)),
    activityBreakdown := activityStats.map (fun s => (s.event_type, s.cnt)),
    modelMaturity :=
      if totalInteractions < 5 then "cold_start"
      else if totalInteractions < 20 then "learning"
      else if totalInteractions < 50 then "improving"
      else "mature" }

/-! ## Content-based engine of the pages (recommendationEngine.js) -/

namespace recommendationEngine

/-- The function `applyAgeFilter(movies, userAge)` for a number `userAge`
(recommendationEngine.js 12-15); `!userAge` holds for the number 0. -/
def applyAgeFilter (movies : List Movie) (userAge : Nat) : List Movie :=
  if userAge = 0 ∨ userAge ≥ 120 then movies
  else movies.filter (fun m => decide (userAge ≥ m.age_limit))

/-- The record returned by `similarityScore`. -/
structure Similarity where
  total : ℚ
  genreScore : ℚ
  experienceScore : ℚ
  ratingScore : ℚ
  popularityScore : ℚ
  reasons : List String
deriving DecidableEq

/-- The function `similarityScore(movieA, movieB)` (recommendationEngine.js 80-125). -/
def similarityScore (movieA movieB : Movie) : Similarity :=
  if movieA.movie_id = movieB.movie_id then
    { total := -1, genreScore := 0, experienceScore := 0, ratingScore := 0,
      popularityScore := 0, reasons := [] }
  else
    let sharedGenres := movieA.genre.filter (fun g => decide (g ∈ movieB.genre))
    let genreScore : ℚ := if sharedGenres.length > 0 then 2 else 0
    let reasons : List String :=
      if sharedGenres.length > 0 then
        ["shares genre (" ++ ", ".intercalate sharedGenres ++ ")"]
      else []
    let experienceScore : ℚ := if movieA.experience_type = movieB.experience_type then 1 else 0
    let reasons :=
      if movieA.experience_type = movieB.experience_type then
        reasons ++ ["same experience type (" ++ movieA.experience_type ++ ")"]
      else reasons
    let ratingDiff := |movieA.rating_percent - movieB.rating_percent|
    let ratingScore := 1 - ratingDiff / 100
    let reasons := if ratingScore ≥ 0.85 then reasons ++ ["similar rating"] else reasons
    let popDiff := |movieA.popularity_score - movieB.popularity_score|
    let popularityScore := 1 - popDiff
    let reasons :=
      if popularityScore ≥ 0.85 then reasons ++ ["similar popularity"] else reasons
    let total := genreScore + experienceScore + ratingScore + popularityScore
    { total := total, genreScore := genreScore, experienceScore := experienceScore,
      ratingScore := ratingScore, popularityScore := popularityScore, reasons := reasons }

/-- The function `buildReasonText(reasons)` (recommendationEngine.js 133-136). -/
def buildReasonText (reasons : List String) : String :=
  if reasons.length = 0 then "Recommended based on overall similarity."
  else "Recommended because it " ++ " and ".intercalate reasons ++ "."

/-- The object `{ movie, score, reason, breakdown }` built for a candidate. -/
structure Recommendation where
  movie : Movie
  score : ℚ
  reason : String
  breakdown : Similarity
deriving DecidableEq

/-- The comparator `(a, b) => b.score - a.score`: `a` may stay before `b`. -/
def byScoreDesc (a b : Recommendation) : Prop := b.score ≤ a.score

instance : DecidableRel byScoreDesc := fun a b => by unfold byScoreDesc; infer_instance

instance : IsTotal Recommendation byScoreDesc :=
  ⟨fun a b => by unfold byScoreDesc; exact le_total _ _⟩

instance : IsTrans Recommendation byScoreDesc :=
  ⟨fun a b c hab hbc => by unfold byScoreDesc at *; exact le_trans hbc hab⟩

/-- The object built by the callback of `allMovies.map` in `getRecommendations`. -/
def recommend (target m : Movie) : Recommendation :=
  let result := similarityScore target m
  { movie := m, score := result.total, reason := buildReasonText result.reasons,
    breakdown := result }

/-- The function `getRecommendations(allMovies, movieId, userAge, count = 6)`
of the pages (recommendationEngine.js 234-256), for a number `userAge` and a
count that is a natural number; the sort is stable. -/
def getRecommendations (allMovies : List Movie) (movieId : Int) (userAge : Nat)
    (count : Nat := 6) : List Recommendation :=
  match allMovies.find? (fun m => decide (m.movie_id = movieId)) with
  | none => []
  | some target =>
    let scored := (((allMovies.map (recommend target)).filter
      (fun item => decide (item.score > 0))).insertionSort byScoreDesc)
    let filtered := scored.filter (fun item => decide (userAge ≥ item.movie.age_limit))
    filtered.take count

end recommendationEngine

/-! ## The score as the specification words it -/

/-- The user has a view or click event on the item. -/
def hasSeen (db : Db) (userUid : String) (id : Int) : Prop :=
  ∃ i ∈ db.interactions, i.user_uid = userUid ∧ i.movie_id = id ∧
    (i.event_type = "view" ∨ i.event_type = "click")

instance (db : Db) (userUid : String) (id : Int) : Decidable (hasSeen db userUid id) := by
  unfold hasSeen; infer_instance

/-- The item is rated by the user. -/
def hasRated (db : Db) (userUid : String) (id : Int) : Prop :=
  ∃ r ∈ db.ratings, r.user_uid = userUid ∧ r.movie_id = id

instance (db : Db) (userUid : String) (id : Int) : Decidable (hasRated db userUid id) := by
  unfold hasRated; infer_instance

/-- Some item the user rated 4 or more (the catalogue's item of the rated id)
shares a genre and the experience tag with `m`. -/
def lovedSimilar (db : Db) (userUid : String) (allMovies : List Movie) (m : Movie) : Prop :=
  ∃ r ∈ db.ratings, r.user_uid = userUid ∧ r.rating ≥ 4 ∧
    ∃ item ∈ (allMovies.find? (fun x => decide (x.movie_id = r.movie_id))).toList,
      (∃ g ∈ item.genre, g ∈ m.genre) ∧ item.experience_type = m.experience_type

instance (db : Db) (userUid : String) (allMovies : List Movie) (m : Movie) :
    Decidable (lovedSimilar db userUid allMovies m) := by
  unfold lovedSimilar; infer_instance

/-- The genre occurs in the profile's stored preferred genres: it is an entry
of the stored list or, when a string is stored instead, a part of that string. -/
def prefers (p : User) (g : String) : Bool :=
  match p.preferred_genres with
  | PrefGenres.list gs => decide (g ∈ gs)
  | PrefGenres.array items => decide (JsonItem.str g ∈ items)
  | PrefGenres.text s => decide (g.toList <:+: s.toList)
  | _ => false

/-- The sum of signal contributions that the specification gives as the score
of candidate `m`, the experience-affinity contribution being left as the
parameter `experienceTerm`; `fetched` are the value entries fetched for the
user's state. -/
def scoreFormula (experienceTerm : ℚ) (db : Db) (userUid : String) (p : User)
    (allMovies : List Movie) (fetched : List QRow) (m : Movie) : ℚ :=
  (match qMapGet fetched m.movie_id with
    | some e => if e.visit_count ≥ 1 then 3 * e.q_value else 0
    | none => 0)
  + 0.8 * (m.genre.countP (fun g => prefers p g) : ℚ)
  + experienceTerm
  + (if ¬ hasRated db userUid m.movie_id ∧ lovedSimilar db userUid allMovies m then 1.2 else 0)
  + 0.3 * m.popularity_score
  + 0.3 * m.rating_percent / 100
  + (if ¬ hasSeen db userUid m.movie_id then 0.2 else 0)
  - (if hasRated db userUid m.movie_id then 0.5 else 0)

/-- Descending score, the order of the comparator `(a, b) => b.score - a.score`
on the scored objects themselves. -/
def byScoreDesc (a b : Scored) : Prop := b.score ≤ a.score

instance : DecidableRel byScoreDesc := fun a b => by unfold byScoreDesc; infer_instance

instance : IsTotal Scored byScoreDesc := ⟨fun a b => by unfold byScoreDesc; exact le_total _ _⟩

instance : IsTrans Scored byScoreDesc :=
  ⟨fun a b c hab hbc => by unfold byScoreDesc at *; exact le_trans hbc hab⟩

/-- Descending score on objects that may be missing (a missing one counts 0). -/
def optScoreDesc (a b : Option Scored) : Prop :=
  (b.map (fun o => o.score)).getD 0 ≤ (a.map (fun o => o.score)).getD 0

instance : DecidableRel optScoreDesc := fun a b => by unfold optScoreDesc; infer_instance

/-! ## The reasons as the specification words them -/

/-- The learned-value signal triggers: the fetched value entry of the item has
at least one visit. -/
def learnedSignal (fetched : List QRow) (m : Movie) : Prop :=
  match qMapGet fetched m.movie_id with
  | some e => e.visit_count ≥ 1
  | none => False

instance (fetched : List QRow) (m : Movie) : Decidable (learnedSignal fetched m) := by
  unfold learnedSignal; split <;> infer_instance

/-- The genres of the item that occur in the profile's preferred-genre list. -/
def sharedGenres (p : User) (m : Movie) : List String :=
  m.genre.filter (fun g => prefers p g)

/-- The reason fragments of the signals that trigger for candidate `m`, in the
order learned value, genre affinity, experience affinity, collaborative
proximity. -/
def reasonFragments (db : Db) (userUid : String) (p : User) (allMovies : List Movie)
    (fetched : List QRow) (m : Movie) : List String :=
  (if learnedSignal fetched m then ["learned from your behavior"] else []) ++
  (if sharedGenres p m ≠ [] then
    ["matches your taste (" ++ ", ".intercalate (sharedGenres p m) ++ ")"] else []) ++
  (if p.preferred_experience ≠ "" ∧ m.experience_type = p.preferred_experience then
    ["matches your preferred vibe (" ++ m.experience_type ++ ")"] else []) ++
  (if ¬ hasRated db userUid m.movie_id ∧ lovedSimilar db userUid allMovies m then
    ["similar to movies you rated highly"] else [])

/-! ## The dominant tag as the specification words it -/

/-- The first entry of the stored preferred-genre value, as a text, where it
has one: the first entry of a stored non-empty array, the first character of a
stored non-empty string, the property `0` of a stored object whose `length`
compares greater than 0 (`undefined` when it has none). -/
def firstPreferred (p : User) : Option String :=
  match p.preferred_genres with
  | PrefGenres.list gs => gs.head?
  | PrefGenres.array items => items.head?.map JsonItem.text
  | PrefGenres.text s => s.toList.head?.map String.singleton
  | PrefGenres.object true zero => some ((zero.map JsonItem.text).getD "undefined")
  | _ => none

/-- The non-empty genre tags of a recent-event list, in the order of the list. -/
def genreTags (recentInteractions : List Interaction) : List String :=
  (recentInteractions.map (fun interaction => interaction.context_genre)).filter
    (fun tag => decide (tag ≠ ""))

/-- The non-empty experience tags of a recent-event list, in the order of the
list. -/
def experienceTags (recentInteractions : List Interaction) : List String :=
  (recentInteractions.map (fun interaction => interaction.context_experience)).filter
    (fun tag => decide (tag ≠ ""))

/-- A tally that merely counts: the count of `key` goes up by one, a new key is
appended with the count 1. -/
def countAdd (counts : List (String × Nat)) (key : String) : List (String × Nat) :=
  if counts.any (fun p => decide (p.1 = key)) then
    counts.map (fun p => if p.1 = key then (p.1, p.2 + 1) else p)
  else
    counts ++ [(key, 1)]

/-- An entry of a counting tally as an entry of the tally object. -/
def numEntry (p : String × Nat) : String × TallyVal := (p.1, TallyVal.num p.2)

/-- Descending count: `a` may stay before `b`. -/
def byCountDesc (a b : String × Nat) : Prop := b.2 ≤ a.2

instance : DecidableRel byCountDesc := fun a b => by unfold byCountDesc; infer_instance

/-- The winner the specification names: `tag` is a tag of the list of maximal
tally and, among the tags tied at that tally, the one that occurs first. -/
def WinsTally (tags : List String) (tag : String) : Prop :=
  tag ∈ tags ∧ (∀ t ∈ tags, tags.count t ≤ tags.count tag) ∧
    (∀ t ∈ tags, tags.count t = tags.count tag → tags.indexOf tag ≤ tags.indexOf t)

instance (tags : List String) (tag : String) : Decidable (WinsTally tags tag) := by
  unfold WinsTally; infer_instance

/-! ## Sequences of updates as the specification words them -/

/-- The arguments of one call `updateQValue(userUid, stateKey, movieId, reward)`. -/
structure UpdateCall where
  userUid : String
  stateKey : String
  movieId : Int
  reward : ℚ
deriving DecidableEq

/-- The value store after the calls of `calls`, made one after another. -/
def updateQValues (t : QTable) (calls : List UpdateCall) : QTable :=
  calls.foldl (fun t c => (updateQValue t c.userUid c.stateKey c.movieId c.reward).2) t

/-- The stored visit count of a triple: that of its row, 0 when it has none. -/
def storedVisits (t : QTable) (userUid stateKey : String) (movieId : Int) : Nat :=
  match stmts.getQValue t userUid stateKey movieId with
  | some e => e.visit_count
  | none => 0

/-! ## The parts of a key as the specification words them -/

/-- The components into which a key splits on the delimiter `|`. -/
def keyComponents (key : String) : List String :=
  (key.toList.splitOn '|').map String.mk

/-! ## Numerals as the specification words them -/

/-- The code points of the white space and line terminators of ECMAScript,
which `parseInt` skips at the start of its argument. -/
def whiteSpaceCodes : List Nat :=
  [0x09, 0x0A, 0x0B, 0x0C, 0x0D, 0x20, 0xA0, 0x1680, 0x2000, 0x2001, 0x2002, 0x2003, 0x2004,
    0x2005, 0x2006, 0x2007, 0x2008, 0x2009, 0x200A, 0x2028, 0x2029, 0x202F, 0x205F, 0x3000,
    0xFEFF]

/-- The character is a hexadecimal digit: `0`-`9`, `a`-`f` or `A`-`F`. -/
def IsHexDigit (c : Char) : Prop :=
  c.isDigit = true ∨ (97 ≤ c.toNat ∧ c.toNat ≤ 102) ∨ (65 ≤ c.toNat ∧ c.toNat ≤ 70)

instance (c : Char) : Decidable (IsHexDigit c) := by unfold IsHexDigit; infer_instance

/-- The value of a hexadecimal digit. -/
def hexValue (c : Char) : Nat :=
  if c.isDigit then c.toNat - 48 else if 97 ≤ c.toNat then c.toNat - 87 else c.toNat - 55

/-- The sign a numeral carries: -1 after `-`, 1 after `+` or nothing. -/
def signValue (sign : List Char) : Int := if sign = ['-'] then -1 else 1

/-- The reward of a rating that reads as the integer `n`. -/
def ratingBucket (n : Int) : ℚ := if n ≥ 4 then 2.0 else if n = 3 then 0.5 else -1.0

/-! ## Sample data for the concrete evaluations -/

/-- A database with no rows. -/
def exDb : Db := { users := [], interactions := [], rl_qtable := [], ratings := [] }

/-- A profile of user `u1` with the given age and no stated preference. -/
def exUser (age : Option Nat) : User :=
  { user_uid := "u1", age := age, preferred_genres := PrefGenres.absent,
    preferred_experience := "" }

/-- A catalogue entry with the given id, age limit and popularity. -/
def exMovie (id : Int) (age_limit : Nat) (popularity : ℚ) : Movie :=
  { movie_id := id, genre := ["Drama"], experience_type := "fun", rating_percent := 80,
    popularity_score := popularity, age_limit := age_limit }

/-- A catalogue entry without an experience tag. -/
def exUntagged : Movie :=
  { movie_id := 1, genre := ["Drama"], experience_type := "", rating_percent := 80,
    popularity_score := 1, age_limit := 0 }

/-- A stream of draws: 1/2 at the first call of `Math.random()`, 0 afterwards. -/
def exDraws (k : Nat) : ℚ := if k = 0 then 1 / 2 else 0

/-- A catalogue of 31 entries of ids 1 to 31 whose popularity, hence score,
grows along the catalogue: the first entry has the lowest score. -/
def exCatalogue31 : List Movie :=
  (List.range 31).map (fun i => exMovie (i + 1) 0 ((i : ℚ) / 100))

/-- A value store of 101 rows of user `u1` in the state `general|any|night`,
one per movie id 0 to 100, each of value 0 and visited once. -/
def exTable101 : QTable :=
  (List.range 101).map (fun i =>
    { user_uid := "u1", state_key := "general|any|night", movie_id := (i : Int), q_value := 0,
      visit_count := 1, last_reward := 0 })

/-- A database whose only rows are those of `exTable101`. -/
def exDb101 : Db := { users := [], interactions := [], rl_qtable := exTable101, ratings := [] }

/-- A database whose only row is a rating of 2 given by `u1` to movie 1. -/
def exDbRated : Db :=
  { users := [], interactions := [], rl_qtable := [],
    ratings := [{ user_uid := "u1", movie_id := 1, rating := 2 }] }

/-- A value store whose only row gives another item of the state the value `q`. -/
def exOther (q : ℚ) : QTable :=
  [{ user_uid := "u1", state_key := "s", movie_id := 2, q_value := q, visit_count := 1,
     last_reward := 0 }]

/-- A database whose only row is the profile of `u1`. -/
def exDbUser : Db :=
  { users := [exUser (some 20)], interactions := [], rl_qtable := [], ratings := [] }

/-- A database with the profile of `u1` and 50 view events of `u1`, all tagged
`Drama` and all created at time `at_`. -/
def exDbBurst (at_ : Nat) : Db :=
  { users := [exUser (some 20)],
    interactions := (List.range 50).map (fun i =>
      { user_uid := "u1", movie_id := (i : Int), event_type := "view", event_value := "",
        context_genre := "Drama", context_experience := "", context_source := "",
        duration_ms := 0, created_at := at_ }),
    rl_qtable := [], ratings := [] }

/-- An event of `u1` with the given genre and experience tags. -/
def exTagged (genre experience : String) : Interaction :=
  { user_uid := "u1", movie_id := 1, event_type := "view", event_value := "",
    context_genre := genre, context_experience := experience, context_source := "",
    duration_ms := 0, created_at := 0 }

/-- A profile of `u1` that prefers the genre `Comedy` and the experience `calm`. -/
def exUserPrefs : User :=
  { user_uid := "u1", age := some 20, preferred_genres := PrefGenres.list ["Comedy"],
    preferred_experience := "calm" }

/-- A profile of `u1` with the given stored preferred-genre value and no
preferred experience. -/
def exUserStored (stored : PrefGenres) : User :=
  { user_uid := "u1", age := some 20, preferred_genres := stored, preferred_experience := "" }

/-- A profile of `u1` whose stored preferred-genre list is `[g]`. -/
def exUserGenre (g : String) : User :=
  { user_uid := "u1", age := some 20, preferred_genres := PrefGenres.list [g],
    preferred_experience := "" }

/-! ## Theorems: the value store and `updateQValue` -/

theorem learningRate_eq : CONFIG.learningRate = 1 / 10 := by
  norm_num [CONFIG.learningRate]

theorem discountFactor_eq : CONFIG.discountFactor = 19 / 20 := by
  norm_num [CONFIG.discountFactor]

/-- The head of a descending sort is a largest element of the list. -/
theorem head_insertionSort_qDesc (l : List QRow) (a : QRow) (rest : List QRow)
    (h : l.insertionSort qDesc = a :: rest) : a ∈ l ∧ ∀ e ∈ l, e.q_value ≤ a.q_value := by
  have hs : (a :: rest).Sorted qDesc := h ▸ List.sorted_insertionSort qDesc l
  have hmem : ∀ e, e ∈ l ↔ e ∈ a :: rest := fun e => by
    rw [← h]; exact (List.mem_insertionSort qDesc).symm
  refine ⟨(hmem a).2 (List.mem_cons_self _ _), fun e he => ?_⟩
  rcases List.mem_cons.1 ((hmem e).1 he) with rfl | her
  · exact le_refl _
  · exact List.rel_of_sorted_cons hs e her

/-- The value `maxFutureQ` read by `updateQValue`. -/
theorem maxFutureQ_spec (t : QTable) (u s : String) :
    ∃ M : ℚ,
      (match stmts.getTopQValues t u s 1 with
        | e :: _ => e.q_value
        | [] => 0) = M ∧
      ((∀ e ∈ t, ¬ e.inState u s) → M = 0) ∧
      ((∃ e ∈ t, e.inState u s) →
        (∃ e ∈ t, e.inState u s ∧ e.q_value = M) ∧ ∀ e ∈ t, e.inState u s → e.q_value ≤ M) := by
  unfold stmts.getTopQValues
  cases hsort : (t.filter (fun e => decide (e.inState u s))).insertionSort qDesc with
  | nil =>
    have hnil : t.filter (fun e => decide (e.inState u s)) = [] := by
      have := List.length_insertionSort qDesc (t.filter (fun e => decide (e.inState u s)))
      rw [hsort] at this
      exact List.length_eq_zero.1 this.symm
    refine ⟨0, rfl, fun _ => rfl, ?_⟩
    rintro ⟨e, he, hin⟩
    have : e ∈ t.filter (fun e => decide (e.inState u s)) :=
      List.mem_filter.2 ⟨he, by simpa using hin⟩
    rw [hnil] at this
    exact absurd this (List.not_mem_nil _)
  | cons a rest =>
    obtain ⟨ha, hmax⟩ := head_insertionSort_qDesc _ a rest hsort
    have ha2 := List.mem_filter.1 ha
    have hast : a.inState u s := by simpa using ha2.2
    refine ⟨a.q_value, rfl, fun hno => absurd hast (hno a ha2.1), fun _ => ?_⟩
    refine ⟨⟨a, ha2.1, hast, rfl⟩, fun e he hin => ?_⟩
    exact hmax e (List.mem_filter.2 ⟨he, by simpa using hin⟩)

/-- The lookup `getQValue` finds no row exactly when the triple has none. -/
theorem getQValue_eq_none (t : QTable) (u s : String) (m : Int) :
    stmts.getQValue t u s m = none ↔ ∀ e ∈ t, ¬ e.hasKey u s m := by
  unfold stmts.getQValue
  simp [List.find?_eq_none]

/-- A row found by `getQValue` is a row of the table with the triple asked for. -/
theorem getQValue_eq_some (t : QTable) (u s : String) (m : Int) (e : QRow)
    (h : stmts.getQValue t u s m = some e) : e ∈ t ∧ e.hasKey u s m := by
  unfold stmts.getQValue at h
  exact ⟨List.mem_of_find?_eq_some h, by simpa using List.find?_some h⟩

/-- C1: `updateQValue` returns `oldQ` = the stored value of the entry of
(user, state, item), 0 when there is none, `tdError = r + 0.95 * M - oldQ` and
`newQ = oldQ + 0.1 * tdError`, where `M` is the largest stored value among the
entries of (user, state) before the call, 0 when the state has none. -/
theorem updateQValue_result (t : QTable) (u s : String) (m : Int) (r : ℚ) :
    ∃ oldQ M : ℚ,
      ((∀ e ∈ t, ¬ e.hasKey u s m) → oldQ = 0) ∧
      (∀ e ∈ t, e.hasKey u s m → (∀ e2 ∈ t, e2.hasKey u s m → e2 = e) → oldQ = e.q_value) ∧
      ((∀ e ∈ t, ¬ e.inState u s) → M = 0) ∧
      ((∃ e ∈ t, e.inState u s) →
        (∃ e ∈ t, e.inState u s ∧ e.q_value = M) ∧ ∀ e ∈ t, e.inState u s → e.q_value ≤ M) ∧
      (updateQValue t u s m r).1.oldQ = oldQ ∧
      (updateQValue t u s m r).1.tdError = r + 0.95 * M - oldQ ∧
      (updateQValue t u s m r).1.newQ = oldQ + 0.1 * (updateQValue t u s m r).1.tdError ∧
      (updateQValue t u s m r).1.reward = r := by
  obtain ⟨M, hM, hM0, hMmax⟩ := maxFutureQ_spec t u s
  cases hget : stmts.getQValue t u s m with
  | none =>
    have hno := (getQValue_eq_none t u s m).1 hget
    refine ⟨0, M, fun _ => rfl, fun e he hk _ => absurd hk (hno e he), hM0, hMmax, ?_, ?_, ?_, ?_⟩
    · norm_num [updateQValue, hget]
    · simp only [updateQValue, hget, hM, discountFactor_eq]; norm_num
    · simp only [updateQValue, hget, hM, discountFactor_eq, learningRate_eq]; norm_num
    · simp [updateQValue]
  | some e0 =>
    obtain ⟨he0, hk0⟩ := getQValue_eq_some t u s m e0 hget
    refine ⟨e0.q_value, M, fun hno => absurd hk0 (hno e0 he0),
      fun e _ _ huniq => by rw [huniq e0 he0 hk0], hM0, hMmax, ?_, ?_, ?_, ?_⟩
    · norm_num [updateQValue, hget]
    · simp only [updateQValue, hget, hM, discountFactor_eq]; norm_num
    · simp only [updateQValue, hget, hM, discountFactor_eq, learningRate_eq]; norm_num
    · simp [updateQValue]

/-- Under the uniqueness constraint two rows of one triple are the same row. -/
theorem UniqueKeys.eq_of_hasKey {t : QTable} (h : UniqueKeys t) {a b : QRow} {u s : String}
    {m : Int} (ha : a ∈ t) (hb : b ∈ t) (hka : a.hasKey u s m) (hkb : b.hasKey u s m) :
    a = b := by
  induction t with
  | nil => exact absurd ha (List.not_mem_nil _)
  | cons x xs ih =>
    unfold UniqueKeys at h
    rw [List.pairwise_cons] at h
    unfold QRow.hasKey at hka hkb
    rcases List.mem_cons.1 ha with rfl | ha2 <;> rcases List.mem_cons.1 hb with rfl | hb2
    · rfl
    · exact absurd (show b.hasKey a.user_uid a.state_key a.movie_id from
        ⟨hkb.1.trans hka.1.symm, hkb.2.1.trans hka.2.1.symm, hkb.2.2.trans hka.2.2.symm⟩)
        (h.1 b hb2)
    · exact absurd (show a.hasKey b.user_uid b.state_key b.movie_id from
        ⟨hka.1.trans hkb.1.symm, hka.2.1.trans hkb.2.1.symm, hka.2.2.trans hkb.2.2.symm⟩)
        (h.1 a ha2)
    · exact ih h.2 ha2 hb2

/-- The store written by `updateQValue` when the triple has no row yet. -/
theorem updateQValue_store_absent (t : QTable) (u s : String) (m : Int) (r : ℚ)
    (hget : stmts.getQValue t u s m = none) :
    (updateQValue t u s m r).2 =
      t ++ [{ user_uid := u, state_key := s, movie_id := m,
              q_value := (updateQValue t u s m r).1.newQ, visit_count := 1,
              last_reward := r }] := by
  have hno := (getQValue_eq_none t u s m).1 hget
  have hany : t.any (fun e => decide (e.hasKey u s m)) = false := by
    rw [List.any_eq_false]; intro e he; simpa using hno e he
  simp [updateQValue, stmts.upsertQValue, hget, hany]

/-- The store written by `updateQValue` when the triple already has a row. -/
theorem updateQValue_store_present (t : QTable) (u s : String) (m : Int) (r : ℚ) (e0 : QRow)
    (hget : stmts.getQValue t u s m = some e0) :
    (updateQValue t u s m r).2 =
      t.map (fun e =>
        if e.hasKey u s m then
          { e with q_value := (updateQValue t u s m r).1.newQ,
                   visit_count := e0.visit_count + 1, last_reward := r }
        else e) := by
  obtain ⟨he0, hk0⟩ := getQValue_eq_some t u s m e0 hget
  have hany : t.any (fun e => decide (e.hasKey u s m)) = true := by
    rw [List.any_eq_true]; exact ⟨e0, he0, by simpa using hk0⟩
  simp [updateQValue, stmts.upsertQValue, hget, hany]

/-- C2: on a store with at most one entry per triple, `updateQValue` leaves a
store with at most one entry per triple, whose entry for (user, state, item)
has value `newQ`, visit count = previous visit count + 1 (1 if the entry was
absent) and last reward `r`, and in which the entries of every other triple
are exactly those of the store before. -/
theorem updateQValue_store (t : QTable) (u s : String) (m : Int) (r : ℚ) (h : UniqueKeys t) :
    UniqueKeys (updateQValue t u s m r).2 ∧
    (∃ e ∈ (updateQValue t u s m r).2, e.hasKey u s m ∧
      e.q_value = (updateQValue t u s m r).1.newQ ∧ e.last_reward = r ∧
      ((∀ e0 ∈ t, ¬ e0.hasKey u s m) → e.visit_count = 1) ∧
      (∀ e0 ∈ t, e0.hasKey u s m → e.visit_count = e0.visit_count + 1)) ∧
    (∀ e : QRow, ¬ e.hasKey u s m → (e ∈ (updateQValue t u s m r).2 ↔ e ∈ t)) ∧
    (updateQValue t u s m r).2.length =
      t.length + (if ∃ e0 ∈ t, e0.hasKey u s m then 0 else 1) := by
  cases hget : stmts.getQValue t u s m with
  | none =>
    have hno := (getQValue_eq_none t u s m).1 hget
    rw [updateQValue_store_absent t u s m r hget]
    refine ⟨?_, ⟨_, List.mem_append_right _ (List.mem_singleton_self _), ⟨rfl, rfl, rfl⟩, rfl, rfl,
      fun _ => rfl, fun e0 he0 hk => absurd hk (hno e0 he0)⟩, fun e hne => ?_, ?_⟩
    · unfold UniqueKeys
      rw [List.pairwise_append]
      refine ⟨h, List.pairwise_singleton _ _, fun a ha b hb => ?_⟩
      rw [List.mem_singleton] at hb
      subst hb
      intro hk
      exact hno a ha ⟨hk.1.symm, hk.2.1.symm, hk.2.2.symm⟩
    · rw [List.mem_append, List.mem_singleton]
      constructor
      · rintro (he | rfl)
        · exact he
        · exact absurd ⟨rfl, rfl, rfl⟩ hne
      · exact Or.inl
    · have : ¬ ∃ e0 ∈ t, e0.hasKey u s m := fun ⟨e0, he0, hk⟩ => hno e0 he0 hk
      simp [this]
  | some e0 =>
    obtain ⟨he0, hk0⟩ := getQValue_eq_some t u s m e0 hget
    rw [updateQValue_store_present t u s m r e0 hget]
    generalize (updateQValue t u s m r).1.newQ = q
    have hkey : ∀ (e : QRow) (u2 s2 : String) (m2 : Int),
        (if e.hasKey u s m then
          ({ e with q_value := q, visit_count := e0.visit_count + 1, last_reward := r } : QRow)
         else e).hasKey u2 s2 m2 ↔ e.hasKey u2 s2 m2 := by
      intro e u2 s2 m2
      by_cases hk : e.hasKey u s m
      · rw [if_pos hk]; unfold QRow.hasKey; exact Iff.rfl
      · rw [if_neg hk]
    have hfld : ∀ e : QRow,
        (if e.hasKey u s m then
          ({ e with q_value := q, visit_count := e0.visit_count + 1, last_reward := r } : QRow)
         else e).user_uid = e.user_uid ∧
        (if e.hasKey u s m then
          ({ e with q_value := q, visit_count := e0.visit_count + 1, last_reward := r } : QRow)
         else e).state_key = e.state_key ∧
        (if e.hasKey u s m then
          ({ e with q_value := q, visit_count := e0.visit_count + 1, last_reward := r } : QRow)
         else e).movie_id = e.movie_id := by
      intro e
      by_cases hk : e.hasKey u s m
      · rw [if_pos hk]; exact ⟨rfl, rfl, rfl⟩
      · rw [if_neg hk]; exact ⟨rfl, rfl, rfl⟩
    refine ⟨?_, ⟨_, List.mem_map_of_mem _ he0, (hkey e0 u s m).2 hk0, ?_, ?_, ?_, ?_⟩,
      fun e hne => ?_, ?_⟩
    · unfold UniqueKeys
      rw [List.pairwise_map]
      refine List.Pairwise.imp ?_ h
      intro a b hab hk
      apply hab
      rw [hkey] at hk
      rw [(hfld a).1, (hfld a).2.1, (hfld a).2.2] at hk
      exact hk
    · simp [hk0]
    · simp [hk0]
    · intro hno; exact absurd hk0 (hno e0 he0)
    · intro e1 he1 hk1
      have := h.eq_of_hasKey he1 he0 hk1 hk0
      subst this
      simp [hk0]
    · rw [List.mem_map]
      constructor
      · rintro ⟨a, ha, rfl⟩
        by_cases hka : a.hasKey u s m
        · exact absurd ((hkey a u s m).2 hka) hne
        · simpa [hka] using ha
      · intro he
        exact ⟨e, he, by simp [hne]⟩
    · have : ∃ e0 ∈ t, e0.hasKey u s m := ⟨e0, he0, hk0⟩
      simp [this]

/-- C2, at a concrete store: a second update of the only entry. -/
theorem updateQValue_store_witness :
    UniqueKeys (updateQValue [⟨"u", "s", 1, 1, 1, 1⟩] "u" "s" 1 2).2 ∧
    (updateQValue [⟨"u", "s", 1, 1, 1, 1⟩] "u" "s" 1 2).2.length = 1 :=
  have h := updateQValue_store [⟨"u", "s", 1, 1, 1, 1⟩] "u" "s" 1 2 (by decide)
  ⟨h.1, by simpa [QRow.hasKey] using h.2.2.2⟩


/-! ## Theorems: `parseInt` and `calculateReward` -/

theorem isDigit_bounds (c : Char) (h : c.isDigit = true) : 48 ≤ c.toNat ∧ c.toNat ≤ 57 := by
  unfold Char.isDigit at h
  simp only [Bool.and_eq_true, decide_eq_true_eq] at h
  exact ⟨h.1, h.2⟩

theorem not_white_of_isDigit (c : Char) (h : c.isDigit = true) : isStrWhiteSpaceChar c = false := by
  obtain ⟨h1, h2⟩ := isDigit_bounds c h
  unfold isStrWhiteSpaceChar
  simp only [Bool.or_eq_false_iff, Bool.and_eq_false_iff, decide_eq_false_iff_not]
  omega

theorem digitValue_of_isDigit (c : Char) (h : c.isDigit = true) :
    digitValue 10 c = some (c.toNat - 48) := by
  simp [digitValue, h]

/-- The number denoted by a run of decimal digit characters. -/
theorem readDigits_decimal (ds : List Char) (hd : ∀ c ∈ ds, c.isDigit = true) (a : Nat) :
    readDigits 10 ds (some a) =
      some (a * 10 ^ ds.length + Nat.ofDigits 10 (ds.reverse.map (fun c => c.toNat - 48))) := by
  induction ds generalizing a with
  | nil => simp [readDigits]
  | cons c cs ih =>
    have hc := hd c (List.mem_cons_self _ _)
    have hcs : ∀ c ∈ cs, c.isDigit = true := fun x hx => hd x (List.mem_cons_of_mem _ hx)
    rw [readDigits, digitValue_of_isDigit c hc]
    simp only [Option.getD_some]
    rw [ih hcs]
    simp only [List.reverse_cons, List.map_append, List.map_cons, List.map_nil,
      Nat.ofDigits_append, Nat.ofDigits_singleton, List.length_map, List.length_reverse,
      List.length_cons]
    congr 1
    ring


theorem parseSign_of_isDigit (c : Char) (cs : List Char) (h : c.isDigit = true) :
    parseSign (c :: cs) = (1, c :: cs) := by
  unfold parseSign
  split
  · rename_i heq; injection heq with h1 _; subst h1; exact absurd h (by decide)
  · rename_i heq; injection heq with h1 _; subst h1; exact absurd h (by decide)
  · rfl

theorem parseRadix_of_digits (ds : List Char) (hd : ∀ c ∈ ds, c.isDigit = true) :
    parseRadix ds = (10, ds) := by
  unfold parseRadix
  split
  · exact absurd (hd 'x' (by simp)) (by decide)
  · exact absurd (hd 'X' (by simp)) (by decide)
  · rfl

/-- The value `parseInt` gives to a decimal numeral: an optional sign followed
by one or more decimal digits. -/
theorem parseInt_decimal (sign ds : List Char) (hs : sign = [] ∨ sign = ['+'] ∨ sign = ['-'])
    (hne : ds ≠ []) (hd : ∀ c ∈ ds, c.isDigit = true) :
    parseInt (String.mk (sign ++ ds)) =
      some ((if sign = ['-'] then -1 else 1) *
        ((Nat.ofDigits 10 (ds.reverse.map (fun c => c.toNat - 48)) : Nat) : Int)) := by
  obtain ⟨c, cs, rfl⟩ := List.exists_cons_of_ne_nil hne
  have hc := hd c (List.mem_cons_self _ _)
  have hcs : ∀ x ∈ cs, x.isDigit = true := fun x hx => hd x (List.mem_cons_of_mem _ hx)
  have hread : readDigits 10 (c :: cs) none =
      some (Nat.ofDigits 10 ((c :: cs).reverse.map (fun c => c.toNat - 48))) := by
    rw [readDigits, digitValue_of_isDigit c hc]
    simp only [Option.getD_none]
    rw [readDigits_decimal cs hcs]
    simp only [List.reverse_cons, List.map_append, List.map_cons, List.map_nil,
      Nat.ofDigits_append, Nat.ofDigits_singleton, List.length_map, List.length_reverse]
    congr 1
    ring
  have hdrop : List.dropWhile isStrWhiteSpaceChar (c :: cs) = c :: cs := by
    rw [List.dropWhile_cons, not_white_of_isDigit c hc]; rfl
  have htl : ∀ l : List Char, (String.mk l).toList = l := fun _ => rfl
  rcases hs with rfl | rfl | rfl
  · simp only [parseInt, htl, List.nil_append, hdrop, parseSign_of_isDigit c cs hc,
      parseRadix_of_digits _ hd, hread]
    simp
  · have h1 : List.dropWhile isStrWhiteSpaceChar ('+' :: c :: cs) = '+' :: c :: cs := by
      rw [List.dropWhile_cons]; rfl
    simp only [parseInt, htl, List.singleton_append, h1, parseSign, parseRadix_of_digits _ hd, hread]
    simp
  · have h1 : List.dropWhile isStrWhiteSpaceChar ('-' :: c :: cs) = '-' :: c :: cs := by
      rw [List.dropWhile_cons]; rfl
    simp only [parseInt, htl, List.singleton_append, h1, parseSign, parseRadix_of_digits _ hd, hread]
    simp

theorem calculateReward_rating (v : String) :
    calculateReward "rating" v =
      match parseInt v with
      | some rating => if rating ≥ 4 then 2 else if rating = 3 then 1 / 2 else -1
      | none => -1 := by
  unfold calculateReward
  simp only [show ¬ ("rating" = "click") by decide, show ¬ ("rating" = "view") by decide,
    show ¬ ("rating" = "search") by decide, show ¬ ("rating" = "recommend_click") by decide,
    show ¬ ("rating" = "dwell") by decide, if_false, if_true]
  cases parseInt v with
  | none => norm_num [CONFIG.rewardWeights.rating_negative]
  | some n =>
    simp only
    split_ifs <;> norm_num [CONFIG.rewardWeights.rating_negative,
      CONFIG.rewardWeights.rating_positive, CONFIG.rewardWeights.rating_neutral]

/-- C3: `calculateReward` is the fixed weight table: for every event value,
click gives 1.0, view 0.5, search 0.3, recommend_click 1.5 and dwell 0.8; for
kind `rating` and a decimal numeral (an optional sign and one or more digits)
of value `n` it gives 2.0 when `n ≥ 4`, 0.5 when `n = 3` and -1.0 when `n ≤ 2`;
every other kind gives 0; and the five listed sample values hold. -/
theorem calculateReward_table :
    (∀ v : String,
      calculateReward "click" v = 1.0 ∧ calculateReward "view" v = 0.5 ∧
      calculateReward "search" v = 0.3 ∧ calculateReward "recommend_click" v = 1.5 ∧
      calculateReward "dwell" v = 0.8) ∧
    (∀ sign ds : List Char, (sign = [] ∨ sign = ['+'] ∨ sign = ['-']) → ds ≠ [] →
      (∀ c ∈ ds, c.isDigit = true) →
      ∀ n : Int,
        n = (if sign = ['-'] then -1 else 1) *
          ((Nat.ofDigits 10 (ds.reverse.map (fun c => c.toNat - 48)) : Nat) : Int) →
        (n ≥ 4 → calculateReward "rating" (String.mk (sign ++ ds)) = 2.0) ∧
        (n = 3 → calculateReward "rating" (String.mk (sign ++ ds)) = 0.5) ∧
        (n ≤ 2 → calculateReward "rating" (String.mk (sign ++ ds)) = -1.0)) ∧
    (∀ k v : String,
      k ∉ ["click", "view", "search", "recommend_click", "dwell", "rating"] →
      calculateReward k v = 0) ∧
    calculateReward "rating" "5" = 2.0 ∧ calculateReward "rating" "3" = 0.5 ∧
    calculateReward "rating" "1" = -1.0 ∧ calculateReward "click" "" = 1.0 ∧
    calculateReward "unknown" "" = 0 := by
  refine ⟨fun v => ⟨?_, ?_, ?_, ?_, ?_⟩, ?_, ?_, ?_, ?_, ?_, ?_, ?_⟩
  · rw [calculateReward, if_pos rfl]; norm_num [CONFIG.rewardWeights.click]
  · rw [calculateReward, if_neg (by decide), if_pos rfl]; norm_num [CONFIG.rewardWeights.view]
  · rw [calculateReward, if_neg (by decide), if_neg (by decide), if_pos rfl]
    norm_num [CONFIG.rewardWeights.search]
  · rw [calculateReward, if_neg (by decide), if_neg (by decide), if_neg (by decide), if_pos rfl]
    norm_num [CONFIG.rewardWeights.recommend_click]
  · rw [calculateReward, if_neg (by decide), if_neg (by decide), if_neg (by decide),
      if_neg (by decide), if_pos rfl]
    norm_num [CONFIG.rewardWeights.dwell]
  · intro sign ds hs hne hd n hn
    rw [calculateReward_rating, parseInt_decimal sign ds hs hne hd, ← hn]
    refine ⟨fun h => ?_, fun h => ?_, fun h => ?_⟩
    · simp only [h, if_true]; norm_num
    · subst h; norm_num
    · have h4 : ¬ n ≥ 4 := by omega
      have h3 : ¬ n = 3 := by omega
      simp only [h4, h3, if_false]; norm_num
  · intro k v hk
    simp only [List.mem_cons, List.mem_singleton, List.not_mem_nil, or_false, not_or] at hk
    obtain ⟨h1, h2, h3, h4, h5, h6⟩ := hk
    simp [calculateReward, h1, h2, h3, h4, h5, h6]
  · rw [calculateReward_rating, show parseInt "5" = some 5 by decide]; norm_num
  · rw [calculateReward_rating, show parseInt "3" = some 3 by decide]; norm_num
  · rw [calculateReward_rating, show parseInt "1" = some 1 by decide]; norm_num
  · rw [calculateReward, if_pos rfl]; norm_num [CONFIG.rewardWeights.click]
  · rw [calculateReward, if_neg (by decide), if_neg (by decide), if_neg (by decide),
      if_neg (by decide), if_neg (by decide), if_neg (by decide)]


/-! ## Theorems: the selection loop -/

theorem selectLoop_succ (rand : Nat → ℚ) (eps : ℚ) (sorted : List Nat) (n : Nat)
    (st : Selection) :
    selectLoop rand eps sorted (n + 1) st =
      selectStep rand eps sorted (selectLoop rand eps sorted n st) := by
  induction n generalizing st with
  | zero => rfl
  | succ k ih =>
    have h := ih (selectStep rand eps sorted st)
    simp only [selectLoop] at h ⊢
    exact h

theorem length_setExplore (objs : List Scored) (pick : Nat) :
    (setExplore objs pick).length = objs.length := by
  unfold setExplore
  cases objs[pick]? <;> simp

theorem getElem?_setExplore (objs : List Scored) (pick j : Nat) :
    (setExplore objs pick)[j]? = if pick = j then (objs[j]?).map markExplore else objs[j]? := by
  unfold setExplore
  cases h : objs[pick]? with
  | none =>
    by_cases hj : pick = j
    · subst hj; simp [h]
    · simp [hj]
  | some o =>
    by_cases hj : pick = j
    · subst hj
      have hlt : pick < objs.length := by
        by_contra hge
        rw [List.getElem?_eq_none (by omega)] at h
        exact Option.noConfusion h
      simp [List.getElem?_set, hlt, h]
    · simp [hj]

theorem map_setExplore {β : Type} (f : Scored → β) (hf : ∀ o, f (markExplore o) = f o)
    (objs : List Scored) (pick : Nat) : (setExplore objs pick).map f = objs.map f := by
  apply List.ext_getElem?
  intro j
  rw [List.getElem?_map, getElem?_setExplore, List.getElem?_map]
  by_cases hj : pick = j
  · rw [if_pos hj]
    cases objs[j]? <;> simp [hf]
  · rw [if_neg hj]

/-- The three ways a pass of the loop can go. -/
theorem selectStep_cases (rand : Nat → ℚ) (eps : ℚ) (sorted : List Nat) (st : Selection) :
    (explores rand eps st ∧ ∃ pick, st.scored[randIdx rand st]? = some pick ∧
      selectStep rand eps sorted st =
        { objs := setExplore st.objs pick, scored := st.scored.eraseIdx (randIdx rand st),
          results := st.results ++ [pick], draws := st.draws + 2 }) ∨
    (¬ explores rand eps st ∧ ∃ pick, sorted.find? (fun s => decide (s ∉ st.results)) = some pick ∧
      selectStep rand eps sorted st =
        { st with results := st.results ++ [pick], draws := st.draws + 1 }) ∨
    (∃ d, selectStep rand eps sorted st = { st with draws := d }) := by
  unfold selectStep explores
  by_cases h : rand st.draws < eps ∧ st.scored.length > 0
  · rw [if_pos h]
    dsimp only
    cases hp : st.scored[randIdx rand st]? with
    | some pick => exact Or.inl ⟨h, pick, rfl, rfl⟩
    | none => exact Or.inr (Or.inr ⟨_, rfl⟩)
  · rw [if_neg h]
    by_cases hs : sorted.length > 0
    · rw [if_pos hs]
      cases hp : sorted.find? (fun s => decide (s ∉ st.results)) with
      | some pick => exact Or.inr (Or.inl ⟨h, pick, rfl, rfl⟩)
      | none => exact Or.inr (Or.inr ⟨_, rfl⟩)
    · rw [if_neg hs]
      exact Or.inr (Or.inr ⟨_, rfl⟩)


/-- Removing a position from a list without repetition removes its element. -/
theorem mem_eraseIdx_nodup {l : List Nat} (hl : l.Nodup) {k p : Nat} (hk : l[k]? = some p)
    (x : Nat) : x ∈ l.eraseIdx k ↔ x ∈ l ∧ x ≠ p := by
  rw [List.mem_eraseIdx_iff_getElem?]
  obtain ⟨_, hkp⟩ := List.getElem?_eq_some.1 hk
  constructor
  · rintro ⟨i, hik, hi⟩
    refine ⟨List.getElem?_mem hi, fun hxp => hik ?_⟩
    obtain ⟨_, hix⟩ := List.getElem?_eq_some.1 hi
    exact (hl.getElem_inj_iff).1 (by rw [hix, hkp, hxp])
  · rintro ⟨hx, hxp⟩
    obtain ⟨i, hi⟩ := List.mem_iff_getElem?.1 hx
    refine ⟨i, fun hik => hxp ?_, hi⟩
    subst hik
    rw [hk] at hi
    exact (Option.some.inj hi).symm

theorem sortedByScore_perm (objs : List Scored) :
    (sortedByScore objs).Perm (List.range objs.length) :=
  List.perm_insertionSort _ _

theorem SelInv.length_objs {objs0 : List Scored} {st : Selection} (h : SelInv objs0 st) :
    st.objs.length = objs0.length := by
  have := congrArg List.length h.movies
  simpa using this

theorem SelInv.scored_nodup {objs0 : List Scored} {st : Selection} (h : SelInv objs0 st) :
    st.scored.Nodup :=
  List.Nodup.sublist h.scored_sub (List.nodup_range _)

theorem SelInv.scored_lt {objs0 : List Scored} {st : Selection} (h : SelInv objs0 st)
    {i : Nat} (hi : i ∈ st.scored) : i < objs0.length :=
  List.mem_range.1 (h.scored_sub.subset hi)

/-- The state the loop starts from satisfies the invariant. -/
theorem SelInv.init (objs0 : List Scored) :
    SelInv objs0
      { objs := objs0, scored := List.range objs0.length, results := [], draws := 0 } where
  movies := rfl
  scores := rfl
  scored_sub := List.Sublist.refl _
  results_lt := fun _ hi => absurd hi (List.not_mem_nil _)
  explored := fun _ hi hn => absurd (List.mem_range.2 hi) hn
  kept := fun _ _ => rfl

/-- A pass of the loop keeps the invariant. -/
theorem SelInv.step {objs0 : List Scored} {st : Selection} (h : SelInv objs0 st)
    (rand : Nat → ℚ) (eps : ℚ) :
    SelInv objs0 (selectStep rand eps (sortedByScore objs0) st) := by
  rcases selectStep_cases rand eps (sortedByScore objs0) st with
    ⟨_, pick, hpick, heq⟩ | ⟨_, pick, hpick, heq⟩ | ⟨d, heq⟩
  · rw [heq]
    have hmem : pick ∈ st.scored := List.getElem?_mem hpick
    have hlt : pick < objs0.length := h.scored_lt hmem
    have hlt2 : pick < st.objs.length := by rw [h.length_objs]; exact hlt
    have hsome : ∃ o, st.objs[pick]? = some o := ⟨st.objs[pick], List.getElem?_eq_getElem hlt2⟩
    refine ⟨?_, ?_, ?_, ?_, ?_, ?_⟩
    · show (setExplore st.objs pick).map (fun o => o.movie) = _
      rw [map_setExplore (fun o => o.movie) (fun _ => rfl)]; exact h.movies
    · show (setExplore st.objs pick).map (fun o => o.score) = _
      rw [map_setExplore (fun o => o.score) (fun _ => rfl)]; exact h.scores
    · exact (List.eraseIdx_sublist _ _).trans h.scored_sub
    · intro i hi
      rcases List.mem_append.1 hi with hi | hi
      · exact h.results_lt i hi
      · rw [List.mem_singleton.1 hi]; exact hlt
    · intro i hi hni
      show i ∈ st.results ++ [pick] ∧ ((setExplore st.objs pick)[i]?).map _ = _
      rw [getElem?_setExplore]
      rw [mem_eraseIdx_nodup h.scored_nodup hpick] at hni
      by_cases his : i ∈ st.scored
      · have hip : i = pick := by
          by_contra hne
          exact hni ⟨his, hne⟩
        subst hip
        obtain ⟨o, ho⟩ := hsome
        refine ⟨List.mem_append_right _ (List.mem_singleton_self _), ?_⟩
        simp [ho, markExplore]
      · obtain ⟨hres, hsrc⟩ := h.explored i hi his
        refine ⟨List.mem_append_left _ hres, ?_⟩
        by_cases hip : pick = i
        · rw [if_pos hip]
          cases ho : st.objs[i]? with
          | none => rw [ho] at hsrc; exact Option.noConfusion hsrc
          | some o => simp [markExplore]
        · rw [if_neg hip]; exact hsrc
    · intro i hi
      show (setExplore st.objs pick)[i]? = _
      rw [mem_eraseIdx_nodup h.scored_nodup hpick] at hi
      rw [getElem?_setExplore, if_neg (fun hp => hi.2 hp.symm)]
      exact h.kept i hi.1
  · rw [heq]
    have hlt : pick < objs0.length :=
      List.mem_range.1 ((sortedByScore_perm objs0).subset (List.mem_of_find?_eq_some hpick))
    refine ⟨h.movies, h.scores, h.scored_sub, ?_, ?_, h.kept⟩
    · intro i hi
      rcases List.mem_append.1 hi with hi | hi
      · exact h.results_lt i hi
      · rw [List.mem_singleton.1 hi]; exact hlt
    · intro i hi hni
      exact ⟨List.mem_append_left _ (h.explored i hi hni).1, (h.explored i hi hni).2⟩
  · rw [heq]
    exact ⟨h.movies, h.scores, h.scored_sub, h.results_lt, h.explored, h.kept⟩

/-- The invariant holds after any number of passes. -/
theorem SelInv.loop {objs0 : List Scored} {st : Selection} (h : SelInv objs0 st)
    (rand : Nat → ℚ) (eps : ℚ) (n : Nat) :
    SelInv objs0 (selectLoop rand eps (sortedByScore objs0) n st) := by
  induction n generalizing st with
  | zero => exact h
  | succ k ih => exact ih (h.step rand eps)


/-! ## Theorems: `getRecommendations` -/

theorem uniqueById_sublist (l : List Scored) (seen : List Int) :
    (uniqueById l seen).Sublist l := by
  induction l generalizing seen with
  | nil => exact List.Sublist.refl _
  | cons r rs ih =>
    unfold uniqueById
    by_cases h : r.movie.movie_id ∈ seen
    · rw [if_pos h]; exact (ih seen).cons _
    · rw [if_neg h]; exact (ih _).cons₂ _

theorem uniqueById_nodup (l : List Scored) (seen : List Int) :
    ((uniqueById l seen).map (fun r => r.movie.movie_id)).Nodup ∧
      ∀ r ∈ uniqueById l seen, r.movie.movie_id ∉ seen := by
  induction l generalizing seen with
  | nil => exact ⟨List.nodup_nil, fun r hr => absurd hr (List.not_mem_nil _)⟩
  | cons r rs ih =>
    unfold uniqueById
    by_cases h : r.movie.movie_id ∈ seen
    · rw [if_pos h]; exact ih seen
    · rw [if_neg h]
      obtain ⟨hnd, hseen⟩ := ih (r.movie.movie_id :: seen)
      refine ⟨?_, ?_⟩
      · rw [List.map_cons, List.nodup_cons]
        refine ⟨?_, hnd⟩
        intro hmem
        obtain ⟨x, hx, hid⟩ := List.mem_map.1 hmem
        exact hseen x hx (by rw [hid]; exact List.mem_cons_self _ _)
      · intro x hx
        rcases List.mem_cons.1 hx with rfl | hx
        · exact h
        · exact fun hm => hseen x hx (List.mem_cons_of_mem _ hm)

/-- Every returned object is, in the final state of the loop, the object at a
position listed in `results`. -/
theorem mem_getRecommendations {db : Db} {hour : Nat} {rand : Nat → ℚ} {userUid : String}
    {allMovies : List Movie} {count : Nat} {userProfile : Option User} {r : Scored}
    (hr : r ∈ getRecommendations db hour rand userUid allMovies count userProfile) :
    ∃ p, getRecommendations.profile db userUid userProfile = some p ∧
      ∃ i, i ∈ (getRecommendations.selection db hour rand userUid allMovies p
            (min count (getRecommendations.scored db hour userUid allMovies p).length)).results ∧
        (getRecommendations.selection db hour rand userUid allMovies p
            (min count (getRecommendations.scored db hour userUid allMovies p).length)).objs[i]?
          = some r := by
  unfold getRecommendations at hr
  cases hp : getRecommendations.profile db userUid userProfile with
  | none => rw [hp] at hr; exact absurd hr (List.not_mem_nil _)
  | some p =>
    rw [hp] at hr
    have h1 := (uniqueById_sublist _ _).subset ((List.take_sublist _ _).subset hr)
    obtain ⟨i, hi, hri⟩ := List.mem_filterMap.1 h1
    exact ⟨p, rfl, i, hi, hri⟩

/-- The invariant holds in every state of the loop run by `getRecommendations`. -/
theorem selection_inv (db : Db) (hour : Nat) (rand : Nat → ℚ) (userUid : String)
    (allMovies : List Movie) (p : User) (passes : Nat) :
    SelInv (getRecommendations.scored db hour userUid allMovies p)
      (getRecommendations.selection db hour rand userUid allMovies p passes) :=
  (SelInv.init _).loop rand _ passes

/-- Every returned object carries a candidate and the score first given to it. -/
theorem getRecommendations_candidate {db : Db} {hour : Nat} {rand : Nat → ℚ}
    {userUid : String} {allMovies : List Movie} {count : Nat} {userProfile : Option User}
    {r : Scored} (hr : r ∈ getRecommendations db hour rand userUid allMovies count userProfile) :
    ∃ p, getRecommendations.profile db userUid userProfile = some p ∧
      r.movie ∈ getRecommendations.candidates allMovies p ∧
      r.score = (scoreMovie p allMovies (getRecommendations.learnedValues db hour userUid p)
        (getRecommendations.ratedMovies db userUid)
        (getRecommendations.positiveRatedMovies db userUid)
        (getRecommendations.viewedMovies db userUid) r.movie).score := by
  obtain ⟨p, hp, i, _, hri⟩ := mem_getRecommendations hr
  have inv := selection_inv db hour rand userUid allMovies p
    (min count (getRecommendations.scored db hour userUid allMovies p).length)
  have hm := congrArg (fun l => l[i]?) inv.movies
  have hs := congrArg (fun l => l[i]?) inv.scores
  simp only [List.getElem?_map, hri, Option.map_some'] at hm hs
  unfold getRecommendations.scored at hm hs
  rw [List.getElem?_map] at hm hs
  cases hc : (getRecommendations.candidates allMovies p)[i]? with
  | none => rw [hc] at hm; exact Option.noConfusion hm
  | some m =>
    rw [hc] at hm hs
    have hm2 : r.movie = m := Option.some.inj hm
    have hs2 := Option.some.inj hs
    refine ⟨p, hp, ?_, ?_⟩
    · rw [hm2]; exact List.getElem?_mem hc
    · rw [hs2, hm2]


/-- C4, as stated, fails: for a profile whose age is 0 the filter uses the age
99, and an item of age limit 18 is returned. -/
theorem getRecommendations_age_counterexample :
    (exUser (some 0)).age = some 0 ∧
    (getRecommendations exDb 0 (fun _ => 1 / 2) "u1" [exMovie 1 18 1] 8
      (some (exUser (some 0)))).map (fun r => r.movie.age_limit) = [18] := by
  decide!

/-- C4, amended: `getRecommendations` never returns an item whose age limit
exceeds the age used by the filter, which is the profile's age when that is
set and not 0, and 99 otherwise. -/
theorem getRecommendations_age (db : Db) (hour : Nat) (rand : Nat → ℚ) (userUid : String)
    (allMovies : List Movie) (count : Nat) (userProfile : Option User) (p : User)
    (hp : getRecommendations.profile db userUid userProfile = some p) :
    ∀ r ∈ getRecommendations db hour rand userUid allMovies count userProfile,
      r.movie ∈ allMovies ∧
      (∀ a, p.age = some a → 0 < a → r.movie.age_limit ≤ a) ∧
      (p.age = none ∨ p.age = some 0 → r.movie.age_limit ≤ 99) := by
  intro r hr
  obtain ⟨p2, hp2, hcand, _⟩ := getRecommendations_candidate hr
  rw [hp] at hp2
  have hpp : p = p2 := Option.some.inj hp2
  subst hpp
  unfold getRecommendations.candidates at hcand
  obtain ⟨hmem, hage⟩ := List.mem_filter.1 hcand
  have hage2 : r.movie.age_limit ≤ getRecommendations.userAge p := by simpa using hage
  refine ⟨hmem, ?_, ?_⟩
  · intro a ha hpos
    unfold getRecommendations.userAge at hage2
    rw [ha] at hage2
    cases a with
    | zero => exact absurd hpos (lt_irrefl 0)
    | succ n => exact hage2
  · intro h0
    unfold getRecommendations.userAge at hage2
    rcases h0 with h0 | h0 <;> rw [h0] at hage2 <;> exact hage2

/-- C4, the scenario: a profile of age 13 and a catalogue of one item of age
limit 18 and one of age limit 0 yield only the item of age limit 0. -/
theorem getRecommendations_age_witness :
    (getRecommendations exDb 0 (fun _ => 1 / 2) "u1" [exMovie 1 18 1, exMovie 2 0 1] 8
        (some (exUser (some 13)))).map (fun r => r.movie.movie_id) = [2] ∧
    ∀ r ∈ getRecommendations exDb 0 (fun _ => 1 / 2) "u1" [exMovie 1 18 1, exMovie 2 0 1] 8
        (some (exUser (some 13))),
      r.movie.age_limit ≤ 13 :=
  ⟨by decide!, fun r hr =>
    ((getRecommendations_age exDb 0 (fun _ => 1 / 2) "u1" [exMovie 1 18 1, exMovie 2 0 1] 8
      (some (exUser (some 13))) (exUser (some 13)) rfl r hr).2.1 13 rfl (by decide))⟩

/-- C5: the list returned by `getRecommendations` contains no two results with
the same `movie_id`, whatever the catalogue, the requested count and the
random draws. -/
theorem getRecommendations_nodup (db : Db) (hour : Nat) (rand : Nat → ℚ) (userUid : String)
    (allMovies : List Movie) (count : Nat) (userProfile : Option User) :
    ((getRecommendations db hour rand userUid allMovies count userProfile).map
      (fun r => r.movie.movie_id)).Nodup := by
  unfold getRecommendations
  cases getRecommendations.profile db userUid userProfile with
  | none => exact List.nodup_nil
  | some p =>
    exact List.Nodup.sublist ((List.take_sublist _ _).map _) (uniqueById_nodup _ []).1


/-! ## Theorems: the score -/

theorem mem_viewedMovies (db : Db) (userUid : String) (id : Int) :
    id ∈ getRecommendations.viewedMovies db userUid ↔ hasSeen db userUid id := by
  unfold getRecommendations.viewedMovies stmts.getMovieInteractionCounts hasSeen
  simp only [List.mem_map, List.mem_filter, List.mem_dedup, decide_eq_true_eq]
  constructor
  · rintro ⟨ic, ⟨⟨g, ⟨i, ⟨hi, hu⟩, rfl⟩, rfl⟩, hty⟩, rfl⟩
    exact ⟨i, hi, hu, rfl, hty⟩
  · rintro ⟨i, hi, hu, hid, hty⟩
    exact ⟨_, ⟨⟨(i.movie_id, i.event_type), ⟨i, ⟨hi, hu⟩, rfl⟩, rfl⟩, hty⟩, hid⟩

theorem mem_ratedMovies (db : Db) (userUid : String) (id : Int) :
    id ∈ getRecommendations.ratedMovies db userUid ↔ hasRated db userUid id := by
  unfold getRecommendations.ratedMovies stmts.getUserRatings hasRated
  simp only [List.mem_map, List.mem_filter, decide_eq_true_eq]
  constructor
  · rintro ⟨r, ⟨hr, hu⟩, rfl⟩
    exact ⟨r, hr, hu, rfl⟩
  · rintro ⟨r, hr, hu, hid⟩
    exact ⟨r, ⟨hr, hu⟩, hid⟩

theorem similarTo_iff (allMovies : List Movie) (m : Movie) (ratedId : Int) :
    similarTo allMovies m ratedId = true ↔
      ∃ item ∈ (allMovies.find? (fun x => decide (x.movie_id = ratedId))).toList,
        (∃ g ∈ item.genre, g ∈ m.genre) ∧ item.experience_type = m.experience_type := by
  unfold similarTo
  cases allMovies.find? (fun x => decide (x.movie_id = ratedId)) with
  | none => simp
  | some item => simp

theorem collaborative_iff (db : Db) (userUid : String) (allMovies : List Movie) (m : Movie) :
    ((getRecommendations.positiveRatedMovies db userUid).length > 0 ∧
      (getRecommendations.positiveRatedMovies db userUid).any (similarTo allMovies m) = true)
      ↔ lovedSimilar db userUid allMovies m := by
  unfold getRecommendations.positiveRatedMovies stmts.getUserRatings lovedSimilar
  rw [List.any_eq_true]
  simp only [List.mem_map, List.mem_filter, decide_eq_true_eq, similarTo_iff]
  constructor
  · rintro ⟨_, rid, ⟨r, ⟨⟨hr, hu⟩, h4⟩, rfl⟩, hsim⟩
    exact ⟨r, hr, hu, h4, hsim⟩
  · rintro ⟨r, hr, hu, h4, hsim⟩
    refine ⟨?_, r.movie_id, ⟨r, ⟨⟨hr, hu⟩, h4⟩, rfl⟩, hsim⟩
    apply List.length_pos_of_mem (a := r.movie_id)
    exact List.mem_map.2 ⟨r, List.mem_filter.2 ⟨List.mem_filter.2 ⟨hr, by simpa using hu⟩,
      by simpa using h4⟩, rfl⟩

theorem qValueComponent_score (qEntry : Option QRow) (acc : ScoreAcc) :
    (qValueComponent qEntry acc).score = acc.score +
      (match qEntry with
        | some e => if e.visit_count ≥ 1 then 3 * e.q_value else 0
        | none => 0) := by
  unfold qValueComponent
  cases qEntry with
  | none => simp
  | some e =>
    by_cases hv : e.visit_count > 0
    · have hv1 : e.visit_count ≥ 1 := hv
      simp only [hv, hv1, if_true]; ring
    · have hv1 : ¬ e.visit_count ≥ 1 := hv
      simp only [hv, hv1, if_false]; ring

/-- The method `includes` of the stored value is the test `prefers`; where
there is none, no genre is preferred. -/
theorem includes?_cases (p : User) :
    p.preferred_genres.includes? = some (fun g => prefers p g) ∨
    (p.preferred_genres.includes? = none ∧ ∀ g, prefers p g = false) := by
  unfold prefers PrefGenres.includes?
  cases p.preferred_genres with
  | absent => exact Or.inr ⟨rfl, fun _ => rfl⟩
  | malformed => exact Or.inr ⟨rfl, fun _ => rfl⟩
  | list gs => exact Or.inl rfl
  | array items => exact Or.inl rfl
  | text s => exact Or.inl rfl
  | object l z => exact Or.inr ⟨rfl, fun _ => rfl⟩
  | scalar => exact Or.inr ⟨rfl, fun _ => rfl⟩

theorem genreAffinity_score (p : User) (m : Movie) (acc : ScoreAcc) :
    (genreAffinity p m acc).score = acc.score +
      0.8 * (m.genre.countP (fun g => prefers p g) : ℚ) := by
  unfold genreAffinity
  rcases includes?_cases p with h | ⟨h, hno⟩
  · rw [h]
    simp only [List.countP_eq_length_filter]
    by_cases hlen : (m.genre.filter (fun g => prefers p g)).length > 0
    · simp only [hlen, if_true]; ring
    · have h0 : (m.genre.filter (fun g => prefers p g)).length = 0 := by omega
      simp only [hlen, if_false, h0]; simp
  · rw [h]
    have h0 : m.genre.countP (fun g => prefers p g) = 0 := by
      rw [List.countP_eq_zero]
      intro g _
      rw [hno g]
      exact Bool.false_ne_true
    rw [h0]
    simp

theorem experienceAffinity_score (p : User) (m : Movie) (acc : ScoreAcc) :
    (experienceAffinity p m acc).score = acc.score +
      (if p.preferred_experience ≠ "" ∧ m.experience_type = p.preferred_experience
        then 0.6 else 0) := by
  unfold experienceAffinity
  split_ifs <;> simp

theorem collaborativeSignal_score (allMovies : List Movie) (rated positive : List Int)
    (m : Movie) (acc : ScoreAcc) :
    (collaborativeSignal allMovies rated positive m acc).score = acc.score +
      (if m.movie_id ∉ rated ∧
          (positive.length > 0 ∧ positive.any (similarTo allMovies m) = true)
        then 1.2 else 0) := by
  unfold collaborativeSignal
  by_cases h1 : positive.length > 0
  · by_cases h2 : positive.any (similarTo allMovies m) = true <;>
      by_cases h3 : m.movie_id ∈ rated <;> simp [h1, h2, h3]
  · simp [h1]

theorem noveltyBonus_score (viewed : List Int) (m : Movie) (acc : ScoreAcc) :
    (noveltyBonus viewed m acc).score = acc.score +
      (if m.movie_id ∉ viewed then 0.2 else 0) := by
  unfold noveltyBonus
  split_ifs <;> simp

theorem ratedPenalty_score (rated : List Int) (m : Movie) (acc : ScoreAcc) :
    (ratedPenalty rated m acc).score = acc.score -
      (if m.movie_id ∈ rated then 0.5 else 0) := by
  unfold ratedPenalty
  split_ifs <;> simp

/-- The score built by the scoring callback of `getRecommendations`. -/
theorem scoreMovie_score (db : Db) (hour : Nat) (userUid : String) (p : User)
    (allMovies : List Movie) (m : Movie) :
    (scoreMovie p allMovies (getRecommendations.learnedValues db hour userUid p)
        (getRecommendations.ratedMovies db userUid)
        (getRecommendations.positiveRatedMovies db userUid)
        (getRecommendations.viewedMovies db userUid) m).score =
      scoreFormula
        (if p.preferred_experience ≠ "" ∧ m.experience_type = p.preferred_experience
          then 0.6 else 0)
        db userUid p allMovies (getRecommendations.learnedValues db hour userUid p) m := by
  unfold scoreMovie scoreFormula
  simp only [ratedPenalty_score, noveltyBonus_score, qualityBaseline,
    collaborativeSignal_score, experienceAffinity_score, genreAffinity_score,
    qValueComponent_score, mem_viewedMovies, mem_ratedMovies, collaborative_iff]
  ring


/-- C6, as stated, fails: an item whose experience tag is the empty text and a
profile whose preferred experience is unset (the empty text) have equal tags,
yet the score holds no 0.6 for it: it is 0.74 and the stated sum is 1.34. -/
theorem getRecommendations_score_counterexample :
    exUntagged.experience_type = (exUser (some 20)).preferred_experience ∧
    (getRecommendations exDb 0 (fun _ => 1 / 2) "u1" [exUntagged] 8
      (some (exUser (some 20)))).map (fun r => r.score) = [37 / 50] ∧
    scoreFormula
      (if exUntagged.experience_type = (exUser (some 20)).preferred_experience then 0.6 else 0)
      exDb "u1" (exUser (some 20)) [exUntagged]
      (getRecommendations.learnedValues exDb 0 "u1" (exUser (some 20))) exUntagged = 67 / 50 := by
  decide!

/-- C6, amended: the score `getRecommendations` assigns to an age-eligible
candidate `m` is the sum (3 * value if the fetched value entry for `m` has
visit count ≥ 1, else 0) + 0.8 * (number of `m`'s genres that occur in the
profile's preferred-genre list) + (0.6 if the profile's preferred experience
tag is not empty and equals `m`'s experience tag) + (1.2 if `m` is not rated by
the user and some item the user rated ≥ 4 shares a genre and the experience tag
with `m`) + 0.3 * popularity_score + 0.3 * rating_percent / 100 + (0.2 if the
user has no view or click event on `m`) - (0.5 if `m` is rated by the user);
every candidate is scored so, and every returned result carries that score. -/
theorem getRecommendations_score (db : Db) (hour : Nat) (userUid : String)
    (allMovies : List Movie) (p : User) :
    (getRecommendations.scored db hour userUid allMovies p).map (fun o => o.movie) =
      getRecommendations.candidates allMovies p ∧
    (∀ o ∈ getRecommendations.scored db hour userUid allMovies p,
      o.score = scoreFormula
        (if p.preferred_experience ≠ "" ∧ o.movie.experience_type = p.preferred_experience
          then 0.6 else 0)
        db userUid p allMovies (getRecommendations.learnedValues db hour userUid p) o.movie) ∧
    (∀ (rand : Nat → ℚ) (count : Nat),
      ∀ r ∈ getRecommendations db hour rand userUid allMovies count (some p),
      r.score = scoreFormula
        (if p.preferred_experience ≠ "" ∧ r.movie.experience_type = p.preferred_experience
          then 0.6 else 0)
        db userUid p allMovies (getRecommendations.learnedValues db hour userUid p) r.movie) := by
  refine ⟨?_, ?_, ?_⟩
  · unfold getRecommendations.scored
    rw [List.map_map]
    exact List.map_id _
  · intro o ho
    unfold getRecommendations.scored at ho
    obtain ⟨m, _, rfl⟩ := List.mem_map.1 ho
    exact scoreMovie_score db hour userUid p allMovies m
  · intro rand count r hr
    obtain ⟨p2, hp2, _, hs⟩ := getRecommendations_candidate hr
    have hpp : p = p2 := Option.some.inj hp2
    subst hpp
    rw [hs]
    exact scoreMovie_score db hour userUid p allMovies r.movie


/-! ## Theorems: selection without exploration -/

/-- In a list without repetition, the first element outside the first `i`
elements (and outside a list `pre` disjoint from it) is the element at `i`. -/
theorem find?_not_mem_take (l pre : List Nat) (hl : l.Nodup) (hpre : ∀ x ∈ l, x ∉ pre)
    (i : Nat) (hi : i < l.length) :
    l.find? (fun s => decide (s ∉ pre ++ l.take i)) = some l[i] := by
  induction l generalizing pre i with
  | nil => exact absurd hi (Nat.not_lt_zero _)
  | cons a t ih =>
    rw [List.nodup_cons] at hl
    cases i with
    | zero =>
      have ha : a ∉ pre := hpre a (List.mem_cons_self _ _)
      simp [List.find?_cons, ha]
    | succ j =>
      have hj : j < t.length := by simpa using hi
      have hmem : a ∈ pre ++ (a :: t).take (j + 1) := by simp
      rw [List.find?_cons]
      simp only [hmem, not_true_eq_false, decide_False]
      have hlist : pre ++ (a :: t).take (j + 1) = (pre ++ [a]) ++ t.take j := by simp
      rw [hlist]
      have := ih (pre ++ [a]) hl.2 (fun x hx hxp => by
        rcases List.mem_append.1 hxp with h | h
        · exact hpre x (List.mem_cons_of_mem _ hx) h
        · rw [List.mem_singleton] at h
          exact hl.1 (h ▸ hx)) j hj
      simpa using this

/-- Without an explore draw the loop takes the sorted candidates in order. -/
theorem selectLoop_exploit (objs0 : List Scored) (rand : Nat → ℚ) (eps : ℚ)
    (hrand : ∀ k, eps ≤ rand k) (i : Nat) (hi : i ≤ objs0.length) :
    selectLoop rand eps (sortedByScore objs0) i
        { objs := objs0, scored := List.range objs0.length, results := [], draws := 0 } =
      { objs := objs0, scored := List.range objs0.length,
        results := (sortedByScore objs0).take i, draws := i } := by
  induction i with
  | zero => simp [selectLoop]
  | succ j ih =>
    rw [selectLoop_succ, ih (Nat.le_of_succ_le hi)]
    have hlen : (sortedByScore objs0).length = objs0.length := by
      rw [(sortedByScore_perm objs0).length_eq, List.length_range]
    have hj : j < (sortedByScore objs0).length := by omega
    have hnd : (sortedByScore objs0).Nodup :=
      (sortedByScore_perm objs0).nodup_iff.2 (List.nodup_range _)
    have hfind := find?_not_mem_take (sortedByScore objs0) [] hnd
      (fun _ _ h => absurd h (List.not_mem_nil _)) j hj
    rw [List.nil_append] at hfind
    unfold selectStep
    have hno : ¬ (rand j < eps ∧ (List.range objs0.length).length > 0) :=
      fun h => absurd h.1 (not_lt.2 (hrand j))
    simp only [hno, if_false]
    rw [if_pos (by omega : (sortedByScore objs0).length > 0), hfind]
    simp only [List.take_succ, List.getElem?_eq_getElem hj, Option.toList_some]

theorem range_map_getElem? (objs : List Scored) :
    (List.range objs.length).map (fun i => objs[i]?) = objs.map some := by
  apply List.ext_getElem?
  intro i
  by_cases hi : i < objs.length
  · simp [List.getElem?_map, List.getElem?_range hi, hi]
  · simp [List.getElem?_map, List.getElem?_eq_none (not_lt.1 hi),
      List.getElem?_eq_none (l := List.range objs.length) (by simpa using not_lt.1 hi)]

/-- The sorted references denote the stable descending sort of the objects. -/
theorem sortedByScore_objects (objs : List Scored) :
    (sortedByScore objs).map (fun i => objs[i]?) =
      (objs.insertionSort byScoreDesc).map some := by
  unfold sortedByScore
  rw [List.map_insertionSort (r := scoreDesc objs) (s := optScoreDesc) (fun i => objs[i]?)
    (List.range objs.length) (fun a _ b _ => by
      unfold scoreDesc optScoreDesc
      simp [List.getD_eq_getElem?_getD, List.getElem?_map])]
  rw [range_map_getElem?]
  rw [List.map_insertionSort (r := byScoreDesc) (s := optScoreDesc) some objs (fun a _ b _ => by
      unfold byScoreDesc optScoreDesc
      simp)]

theorem uniqueById_of_nodup (l : List Scored) (seen : List Int)
    (hnd : (l.map (fun r => r.movie.movie_id)).Nodup)
    (hseen : ∀ r ∈ l, r.movie.movie_id ∉ seen) : uniqueById l seen = l := by
  induction l generalizing seen with
  | nil => rfl
  | cons r rs ih =>
    rw [List.map_cons, List.nodup_cons] at hnd
    unfold uniqueById
    rw [if_neg (hseen r (List.mem_cons_self _ _))]
    congr 1
    apply ih _ hnd.2
    intro x hx hxs
    rcases List.mem_cons.1 hxs with h | h
    · exact hnd.1 (List.mem_map.2 ⟨x, hx, h⟩)
    · exact hseen x (List.mem_cons_of_mem _ hx) h

/-- Without an explore draw `getRecommendations` returns the first entries of
the stable descending sort of the scored candidates, deduplicated by id. -/
theorem getRecommendations_exploit_general (db : Db) (hour : Nat) (rand : Nat → ℚ)
    (userUid : String) (allMovies : List Movie) (count : Nat) (userProfile : Option User)
    (p : User) (hp : getRecommendations.profile db userUid userProfile = some p)
    (hrand : ∀ k, adaptiveEpsilon (getRecommendations.learnedValues db hour userUid p) ≤ rand k) :
    getRecommendations db hour rand userUid allMovies count userProfile =
      (uniqueById
        (((getRecommendations.scored db hour userUid allMovies p).insertionSort byScoreDesc).take
          (min count (getRecommendations.candidates allMovies p).length)) []).take count := by
  have hlen : (getRecommendations.scored db hour userUid allMovies p).length =
      (getRecommendations.candidates allMovies p).length := by
    unfold getRecommendations.scored; simp
  unfold getRecommendations
  rw [hp]
  dsimp only
  unfold getRecommendations.selection
  dsimp only
  rw [selectLoop_exploit _ rand _ hrand _ (Nat.min_le_right _ _)]
  simp only
  have hfm : ∀ l : List Nat,
      l.filterMap (fun i => (getRecommendations.scored db hour userUid allMovies p)[i]?) =
        (l.map (fun i => (getRecommendations.scored db hour userUid allMovies p)[i]?)).filterMap
          id := by
    intro l; rw [List.filterMap_map]; rfl
  rw [hfm, List.map_take, sortedByScore_objects, ← List.map_take, List.filterMap_map]
  simp only [Function.id_comp, List.filterMap_some, hlen]


/-- C7, as stated, fails: with two eligible candidates of the same `movie_id`,
a count of 2 and no explore draw, one result is returned, not min(2, 2) = 2. -/
theorem getRecommendations_exploit_counterexample :
    (∀ k : Nat, adaptiveEpsilon (getRecommendations.learnedValues exDb 0 "u1" (exUser (some 20)))
      ≤ (fun _ => (1 / 2 : ℚ)) k) ∧
    (getRecommendations.candidates [exMovie 1 0 1, exMovie 1 0 (1 / 2)]
      (exUser (some 20))).length = 2 ∧
    (getRecommendations exDb 0 (fun _ => 1 / 2) "u1" [exMovie 1 0 1, exMovie 1 0 (1 / 2)] 2
      (some (exUser (some 20)))).length = 1 :=
  ⟨fun _ => by
    show adaptiveEpsilon (getRecommendations.learnedValues exDb 0 "u1" (exUser (some 20)))
      ≤ 1 / 2
    decide!, by decide!, by decide!⟩

/-- C7, amended: when no draw explores (every random draw is ≥ the adaptive
epsilon) and the age-eligible candidates have distinct movie ids,
`getRecommendations` returns exactly the first min(count, n) of the n
age-eligible candidates ordered by descending score, candidates of equal score
keeping their catalogue order: the ordered list is a permutation of the scored
candidates, is sorted by descending score, and keeps every pair of candidates
that is in catalogue order and not ascending in score in that order. -/
theorem getRecommendations_exploit (db : Db) (hour : Nat) (rand : Nat → ℚ)
    (userUid : String) (allMovies : List Movie) (count : Nat) (userProfile : Option User)
    (p : User) (hp : getRecommendations.profile db userUid userProfile = some p)
    (hrand : ∀ k, adaptiveEpsilon (getRecommendations.learnedValues db hour userUid p) ≤ rand k)
    (hids : ((getRecommendations.candidates allMovies p).map (fun m => m.movie_id)).Nodup) :
    getRecommendations db hour rand userUid allMovies count userProfile =
      ((getRecommendations.scored db hour userUid allMovies p).insertionSort byScoreDesc).take
        (min count (getRecommendations.candidates allMovies p).length) ∧
    ((getRecommendations.scored db hour userUid allMovies p).insertionSort byScoreDesc).Perm
      (getRecommendations.scored db hour userUid allMovies p) ∧
    ((getRecommendations.scored db hour userUid allMovies p).insertionSort byScoreDesc).Sorted
      byScoreDesc ∧
    (∀ a b : Scored, [a, b].Sublist (getRecommendations.scored db hour userUid allMovies p) →
      b.score ≤ a.score →
      [a, b].Sublist
        ((getRecommendations.scored db hour userUid allMovies p).insertionSort byScoreDesc)) := by
  refine ⟨?_, List.perm_insertionSort _ _, List.sorted_insertionSort _ _,
    fun a b hab hle => List.pair_sublist_insertionSort hle hab⟩
  rw [getRecommendations_exploit_general db hour rand userUid allMovies count userProfile p hp
    hrand]
  have hmov : (getRecommendations.scored db hour userUid allMovies p).map (fun o => o.movie) =
      getRecommendations.candidates allMovies p := by
    unfold getRecommendations.scored
    rw [List.map_map]
    exact List.map_id _
  have hnd : (((getRecommendations.scored db hour userUid allMovies p).insertionSort
      byScoreDesc).map (fun r => r.movie.movie_id)).Nodup := by
    rw [((List.perm_insertionSort byScoreDesc _).map _).nodup_iff]
    have : (getRecommendations.scored db hour userUid allMovies p).map
        (fun r => r.movie.movie_id) =
        ((getRecommendations.scored db hour userUid allMovies p).map (fun o => o.movie)).map
          (fun m => m.movie_id) := by
      rw [List.map_map]; rfl
    rw [this, hmov]
    exact hids
  rw [uniqueById_of_nodup _ [] (List.Nodup.sublist ((List.take_sublist _ _).map _) hnd)
    (fun _ _ h => absurd h (List.not_mem_nil _))]
  rw [List.take_take]
  congr 1
  omega

/-- C7, at a concrete call: two candidates, the more popular one second in
the catalogue, come back in descending score. -/
theorem getRecommendations_exploit_witness :
    (getRecommendations exDb 0 (fun _ => 1 / 2) "u1" [exMovie 1 0 (1 / 2), exMovie 2 0 1] 8
      (some (exUser (some 20)))).map (fun r => r.movie.movie_id) = [2, 1] := by
  rw [(getRecommendations_exploit exDb 0 (fun _ => 1 / 2) "u1"
    [exMovie 1 0 (1 / 2), exMovie 2 0 1] 8 (some (exUser (some 20))) (exUser (some 20)) rfl
    (fun _ => by
      show adaptiveEpsilon (getRecommendations.learnedValues exDb 0 "u1" (exUser (some 20)))
        ≤ 1 / 2
      decide!) (by decide!)).1]
  decide!


/-! ## Theorems: explore draws -/

/-- C8, at the failing input: two eligible candidates of distinct ids and a
count of 2; the first pass exploits (draw 1/2) and selects movie 1, the second
explores (draws 0 and 0) and takes movie 1 again from `scored`, and the
duplicate is dropped: one result is returned, not min(2, 2) = 2. -/
theorem getRecommendations_count_shortfall :
    (getRecommendations.candidates [exMovie 1 0 1, exMovie 2 0 (1 / 2)]
      (exUser (some 20))).map (fun m => m.movie_id) = [1, 2] ∧
    (getRecommendations.selection exDb 0 exDraws "u1" [exMovie 1 0 1, exMovie 2 0 (1 / 2)]
      (exUser (some 20)) 2).results = [0, 0] ∧
    (getRecommendations exDb 0 exDraws "u1" [exMovie 1 0 1, exMovie 2 0 (1 / 2)] 2
      (some (exUser (some 20)))).map (fun r => (r.movie.movie_id, r.source)) =
        [(1, "explore")] := by
  decide!

/-- C9, as stated, fails.  First call: with 31 candidates and nothing selected
yet, an explore draw takes the first candidate of the catalogue although the 30
others all score higher.  Second call: an explore draw takes a candidate that
an exploit draw of the same call has already selected. -/
theorem explore_pick_counterexample :
    (explores (fun _ => 0)
        (adaptiveEpsilon (getRecommendations.learnedValues exDb 0 "u1" (exUser (some 20))))
        (getRecommendations.selection exDb 0 (fun _ => 0) "u1" exCatalogue31
          (exUser (some 20)) 0) ∧
      (getRecommendations.selection exDb 0 (fun _ => 0) "u1" exCatalogue31
          (exUser (some 20)) 0).results = [] ∧
      (getRecommendations.selection exDb 0 (fun _ => 0) "u1" exCatalogue31
          (exUser (some 20)) 1).results = [0] ∧
      ((getRecommendations.scored exDb 0 "u1" exCatalogue31 (exUser (some 20))).map
          (fun o => o.score)).head? = some (11 / 25) ∧
      ((getRecommendations.scored exDb 0 "u1" exCatalogue31 (exUser (some 20))).filter
          (fun o => decide (11 / 25 < o.score))).length = 30) ∧
    (explores exDraws
        (adaptiveEpsilon (getRecommendations.learnedValues exDb 0 "u1" (exUser (some 20))))
        (getRecommendations.selection exDb 0 exDraws "u1" [exMovie 1 0 1, exMovie 2 0 (1 / 2)]
          (exUser (some 20)) 1) ∧
      (getRecommendations.selection exDb 0 exDraws "u1" [exMovie 1 0 1, exMovie 2 0 (1 / 2)]
          (exUser (some 20)) 1).results = [0] ∧
      (getRecommendations.selection exDb 0 exDraws "u1" [exMovie 1 0 1, exMovie 2 0 (1 / 2)]
          (exUser (some 20)) 2).results = [0, 0]) := by
  decide!


theorem selectLoop_add (rand : Nat → ℚ) (eps : ℚ) (sorted : List Nat) (a b : Nat)
    (st : Selection) :
    selectLoop rand eps sorted (a + b) st =
      selectLoop rand eps sorted b (selectLoop rand eps sorted a st) := by
  induction b with
  | zero => rfl
  | succ k ih => rw [← Nat.add_assoc, selectLoop_succ, selectLoop_succ, ih]

/-- An explore pass that finds an object at the drawn index takes it. -/
theorem selectStep_explore (rand : Nat → ℚ) (eps : ℚ) (sorted : List Nat) (st : Selection)
    (hex : explores rand eps st) (pick : Nat) (hpick : st.scored[randIdx rand st]? = some pick) :
    selectStep rand eps sorted st =
      { objs := setExplore st.objs pick, scored := st.scored.eraseIdx (randIdx rand st),
        results := st.results ++ [pick], draws := st.draws + 2 } := by
  unfold explores at hex
  unfold selectStep
  rw [if_pos hex]
  simp only [hpick]

theorem selectStep_scored_sublist (rand : Nat → ℚ) (eps : ℚ) (sorted : List Nat)
    (st : Selection) : (selectStep rand eps sorted st).scored.Sublist st.scored := by
  rcases selectStep_cases rand eps sorted st with
    ⟨_, pick, _, heq⟩ | ⟨_, pick, _, heq⟩ | ⟨d, heq⟩
  · rw [heq]; exact List.eraseIdx_sublist _ _
  · rw [heq]
  · rw [heq]

theorem selectLoop_scored_sublist (rand : Nat → ℚ) (eps : ℚ) (sorted : List Nat) (n : Nat)
    (st : Selection) : (selectLoop rand eps sorted n st).scored.Sublist st.scored := by
  induction n with
  | zero => exact List.Sublist.refl _
  | succ k ih => rw [selectLoop_succ]; exact (selectStep_scored_sublist _ _ _ _).trans ih

theorem selectStep_results_length (rand : Nat → ℚ) (eps : ℚ) (sorted : List Nat)
    (st : Selection) : (selectStep rand eps sorted st).results.length ≤ st.results.length + 1 := by
  rcases selectStep_cases rand eps sorted st with
    ⟨_, pick, _, heq⟩ | ⟨_, pick, _, heq⟩ | ⟨d, heq⟩ <;> rw [heq] <;> simp

theorem selectLoop_results_length (rand : Nat → ℚ) (eps : ℚ) (sorted : List Nat) (n : Nat)
    (st : Selection) :
    (selectLoop rand eps sorted n st).results.length ≤ st.results.length + n := by
  induction n with
  | zero => exact le_refl _
  | succ k ih =>
    rw [selectLoop_succ]
    have := selectStep_results_length rand eps sorted (selectLoop rand eps sorted k st)
    omega

/-- The index drawn by an explore pass lies in the window of the first 30
entries of `scored`. -/
theorem randIdx_lt (rand : Nat → ℚ) (hrand : ∀ k, 0 ≤ rand k ∧ rand k < 1) (st : Selection)
    (hlen : st.scored.length > 0) :
    randIdx rand st < min st.scored.length 30 := by
  unfold randIdx
  have hm : 0 < min st.scored.length 30 := by
    rw [Nat.lt_min]; exact ⟨hlen, by decide⟩
  obtain ⟨h0, h1⟩ := hrand (st.draws + 1)
  have hmq : (0 : ℚ) < ((min st.scored.length 30 : Nat) : ℚ) := by exact_mod_cast hm
  have hlt : rand (st.draws + 1) * ((min st.scored.length 30 : Nat) : ℚ) <
      (((min st.scored.length 30 : Nat) : Int) : ℚ) := by
    have : rand (st.draws + 1) * ((min st.scored.length 30 : Nat) : ℚ) <
        1 * ((min st.scored.length 30 : Nat) : ℚ) := mul_lt_mul_of_pos_right h1 hmq
    simpa using this
  have hfl := Int.floor_lt.2 hlt
  have hnn : 0 ≤ Int.floor (rand (st.draws + 1) * ((min st.scored.length 30 : Nat) : ℚ)) :=
    Int.floor_nonneg.2 (mul_nonneg h0 (le_of_lt hmq))
  omega

/-- The scoring callback never gives the source `explore`. -/
theorem scoreMovie_source (p : User) (allMovies : List Movie) (lv : List QRow)
    (rated positive viewed : List Int) (m : Movie) :
    (scoreMovie p allMovies lv rated positive viewed m).source ≠ "explore" := by
  have h1 : ∀ (q : Option QRow) (acc : ScoreAcc), acc.source ≠ "explore" →
      (qValueComponent q acc).source ≠ "explore" := by
    intro q acc hacc
    unfold qValueComponent
    cases q with
    | none => exact hacc
    | some e =>
      by_cases hv : e.visit_count > 0
      · simp only [hv, if_true]; decide
      · simp only [hv, if_false]; exact hacc
  have h2 : ∀ acc : ScoreAcc, (genreAffinity p m acc).source = acc.source := by
    intro acc; unfold genreAffinity
    cases p.preferred_genres.includes? with
    | none => rfl
    | some f => dsimp only; split_ifs <;> rfl
  have h3 : ∀ acc : ScoreAcc, (experienceAffinity p m acc).source = acc.source := by
    intro acc; unfold experienceAffinity; split_ifs <;> rfl
  have h4 : ∀ acc : ScoreAcc,
      (collaborativeSignal allMovies rated positive m acc).source = acc.source := by
    intro acc; unfold collaborativeSignal; dsimp only; split_ifs <;> rfl
  have h5 : ∀ acc : ScoreAcc, (noveltyBonus viewed m acc).source = acc.source := by
    intro acc; unfold noveltyBonus; split_ifs <;> rfl
  have h6 : ∀ acc : ScoreAcc, (ratedPenalty rated m acc).source = acc.source := by
    intro acc; unfold ratedPenalty; split_ifs <;> rfl
  unfold scoreMovie
  simp only [h6, h5, qualityBaseline, h4, h3, h2]
  exact h1 _ _ (by decide)

theorem mem_uniqueById (l : List Scored) (seen : List Int) (x : Scored) (hx : x ∈ l)
    (hseen : x.movie.movie_id ∉ seen)
    (huniq : ∀ y ∈ l, y.movie.movie_id = x.movie.movie_id → y = x) :
    x ∈ uniqueById l seen := by
  induction l generalizing seen with
  | nil => exact absurd hx (List.not_mem_nil _)
  | cons r rs ih =>
    unfold uniqueById
    by_cases hrx : r = x
    · subst hrx
      rw [if_neg hseen]
      exact List.mem_cons_self _ _
    · have hxrs : x ∈ rs := by
        rcases List.mem_cons.1 hx with h | h
        · exact absurd h.symm hrx
        · exact h
      have hid : r.movie.movie_id ≠ x.movie.movie_id :=
        fun h => hrx (huniq r (List.mem_cons_self _ _) h)
      have hu2 : ∀ y ∈ rs, y.movie.movie_id = x.movie.movie_id → y = x :=
        fun y hy => huniq y (List.mem_cons_of_mem _ hy)
      by_cases hr : r.movie.movie_id ∈ seen
      · rw [if_pos hr]; exact ih seen hxrs hseen hu2
      · rw [if_neg hr]
        refine List.mem_cons_of_mem _ (ih _ hxrs ?_ hu2)
        intro hmem
        rcases List.mem_cons.1 hmem with h | h
        · exact hid h.symm
        · exact hseen h


/-- C9, amended: every item picked by an explore draw of `getRecommendations`
is, at the moment of that draw, one of the first 30 entries of the array
`scored`, a list in catalogue order (whatever the scores) that holds every
candidate not yet selected in this call and no candidate taken by an earlier
explore draw; the item is then listed in `results` with source `explore`, and
it is returned with source `explore` when the candidates have distinct movie
ids. -/
theorem explore_pick (db : Db) (hour : Nat) (rand : Nat → ℚ) (userUid : String)
    (allMovies : List Movie) (count : Nat) (p : User)
    (hrand : ∀ k, 0 ≤ rand k ∧ rand k < 1) (i : Nat)
    (hi : i < min count (getRecommendations.candidates allMovies p).length)
    (hex : explores rand (adaptiveEpsilon (getRecommendations.learnedValues db hour userUid p))
      (getRecommendations.selection db hour rand userUid allMovies p i)) :
    ∃ (pick : Nat) (m : Movie),
      (getRecommendations.selection db hour rand userUid allMovies p i).scored[
        randIdx rand (getRecommendations.selection db hour rand userUid allMovies p i)]?
          = some pick ∧
      randIdx rand (getRecommendations.selection db hour rand userUid allMovies p i) < 30 ∧
      (getRecommendations.selection db hour rand userUid allMovies p i).scored.Sublist
        (List.range (getRecommendations.candidates allMovies p).length) ∧
      (∀ j ∈ (getRecommendations.selection db hour rand userUid allMovies p i).scored,
        ((getRecommendations.selection db hour rand userUid allMovies p i).objs[j]?).map
          (fun o => o.source) ≠ some "explore") ∧
      (∀ j, j < (getRecommendations.candidates allMovies p).length →
        j ∉ (getRecommendations.selection db hour rand userUid allMovies p i).results →
        j ∈ (getRecommendations.selection db hour rand userUid allMovies p i).scored) ∧
      (getRecommendations.candidates allMovies p)[pick]? = some m ∧
      (getRecommendations.selection db hour rand userUid allMovies p (i + 1)).results =
        (getRecommendations.selection db hour rand userUid allMovies p i).results ++ [pick] ∧
      pick ∈ (getRecommendations.selection db hour rand userUid allMovies p
        (min count (getRecommendations.candidates allMovies p).length)).results ∧
      ((getRecommendations.selection db hour rand userUid allMovies p
        (min count (getRecommendations.candidates allMovies p).length)).objs[pick]?).map
          (fun o => (o.movie, o.source)) = some (m, "explore") ∧
      (((getRecommendations.candidates allMovies p).map (fun c => c.movie_id)).Nodup →
        ∃ r ∈ getRecommendations db hour rand userUid allMovies count (some p),
          r.movie = m ∧ r.source = "explore") := by
  have hlen : (getRecommendations.scored db hour userUid allMovies p).length =
      (getRecommendations.candidates allMovies p).length := by
    unfold getRecommendations.scored; simp
  have hmov : (getRecommendations.scored db hour userUid allMovies p).map (fun o => o.movie) =
      getRecommendations.candidates allMovies p := by
    unfold getRecommendations.scored
    rw [List.map_map]
    exact List.map_id _
  have inv := selection_inv db hour rand userUid allMovies p
  have hsucc : getRecommendations.selection db hour rand userUid allMovies p (i + 1) =
      selectStep rand (adaptiveEpsilon (getRecommendations.learnedValues db hour userUid p))
        (sortedByScore (getRecommendations.scored db hour userUid allMovies p))
        (getRecommendations.selection db hour rand userUid allMovies p i) :=
    selectLoop_succ _ _ _ _ _
  have hfin : getRecommendations.selection db hour rand userUid allMovies p
        (min count (getRecommendations.candidates allMovies p).length) =
      selectLoop rand (adaptiveEpsilon (getRecommendations.learnedValues db hour userUid p))
        (sortedByScore (getRecommendations.scored db hour userUid allMovies p))
        (min count (getRecommendations.candidates allMovies p).length - (i + 1))
        (getRecommendations.selection db hour rand userUid allMovies p (i + 1)) := by
    have hsplit : min count (getRecommendations.candidates allMovies p).length =
        (i + 1) + (min count (getRecommendations.candidates allMovies p).length - (i + 1)) := by
      omega
    conv_lhs => rw [hsplit]
    exact selectLoop_add _ _ _ _ _ _
  generalize hst : getRecommendations.selection db hour rand userUid allMovies p i = st
    at hex hsucc
  generalize hfn : getRecommendations.selection db hour rand userUid allMovies p
    (min count (getRecommendations.candidates allMovies p).length) = fin at hfin
  have invst : SelInv (getRecommendations.scored db hour userUid allMovies p) st := hst ▸ inv i
  have invfin : SelInv (getRecommendations.scored db hour userUid allMovies p) fin :=
    hfn ▸ inv _
  have hidx := randIdx_lt rand hrand st hex.2
  have hidx_len : randIdx rand st < st.scored.length := lt_of_lt_of_le hidx (Nat.min_le_left _ _)
  have hpick : st.scored[randIdx rand st]? = some st.scored[randIdx rand st] :=
    List.getElem?_eq_getElem hidx_len
  generalize st.scored[randIdx rand st] = pick at hpick
  have hpmem : pick ∈ st.scored := List.getElem?_mem hpick
  have hplt : pick < (getRecommendations.candidates allMovies p).length :=
    hlen ▸ invst.scored_lt hpmem
  have hstep := selectStep_explore rand _
    (sortedByScore (getRecommendations.scored db hour userUid allMovies p)) st hex pick hpick
  rw [hstep] at hsucc
  have hnot_next : pick ∉
      (getRecommendations.selection db hour rand userUid allMovies p (i + 1)).scored := by
    rw [hsucc]
    show pick ∉ st.scored.eraseIdx (randIdx rand st)
    rw [mem_eraseIdx_nodup invst.scored_nodup hpick]
    exact fun h => h.2 rfl
  have hnot_fin : pick ∉ fin.scored := by
    rw [hfin]
    exact fun h => hnot_next ((selectLoop_scored_sublist _ _ _ _ _).subset h)
  obtain ⟨hres, hsrc⟩ := invfin.explored pick (hlen ▸ hplt) hnot_fin
  have hmovfin : (fin.objs[pick]?).map (fun o => o.movie) =
      (getRecommendations.candidates allMovies p)[pick]? := by
    have := congrArg (fun l => l[pick]?) invfin.movies
    simp only [List.getElem?_map] at this
    rw [this, ← hmov, List.getElem?_map]
  have hcand : (getRecommendations.candidates allMovies p)[pick]? =
      some (getRecommendations.candidates allMovies p)[pick] :=
    List.getElem?_eq_getElem hplt
  generalize (getRecommendations.candidates allMovies p)[pick] = m at hcand
  rw [hcand] at hmovfin
  obtain ⟨o, ho, hom⟩ := Option.map_eq_some'.1 hmovfin
  have hos : o.source = "explore" := by
    rw [ho] at hsrc
    exact Option.some.inj hsrc
  refine ⟨pick, m, hpick, lt_of_lt_of_le hidx (Nat.min_le_right _ _), hlen ▸ invst.scored_sub,
    ?_, ?_, hcand, ?_, hres, ?_, ?_⟩
  · intro j hjs
    rw [invst.kept j hjs]
    unfold getRecommendations.scored
    rw [List.getElem?_map]
    cases (getRecommendations.candidates allMovies p)[j]? with
    | none => simp
    | some c =>
      simp only [Option.map_some', ne_eq, Option.some.injEq]
      exact scoreMovie_source _ _ _ _ _ _ _
  · intro j hj hnres
    by_contra hjs
    exact hnres (invst.explored j (hlen ▸ hj) hjs).1
  · rw [hsucc]
  · rw [ho]
    simp [hom, hos]
  · intro hids
    refine ⟨o, ?_, hom, hos⟩
    unfold getRecommendations
    simp only [getRecommendations.profile]
    rw [hlen, hfn]
    have hobj : o ∈ fin.results.filterMap (fun i => fin.objs[i]?) :=
      List.mem_filterMap.2 ⟨pick, hres, ho⟩
    have huniq : ∀ y ∈ fin.results.filterMap (fun i => fin.objs[i]?),
        y.movie.movie_id = o.movie.movie_id → y = o := by
      intro y hy hid
      obtain ⟨j, hjres, hj⟩ := List.mem_filterMap.1 hy
      have hjlt : j < (getRecommendations.candidates allMovies p).length :=
        hlen ▸ invfin.results_lt j hjres
      have hmj : (fin.objs[j]?).map (fun o => o.movie) =
          (getRecommendations.candidates allMovies p)[j]? := by
        have := congrArg (fun l => l[j]?) invfin.movies
        simp only [List.getElem?_map] at this
        rw [this, ← hmov, List.getElem?_map]
      rw [hj, List.getElem?_eq_getElem hjlt] at hmj
      have hmj2 : y.movie = (getRecommendations.candidates allMovies p)[j] :=
        Option.some.inj hmj
      have hmp : m = (getRecommendations.candidates allMovies p)[pick] := by
        rw [List.getElem?_eq_getElem hplt] at hcand
        exact (Option.some.inj hcand).symm
      have hjp : j = pick := by
        have hjl : j < ((getRecommendations.candidates allMovies p).map
            (fun c => c.movie_id)).length := by simpa using hjlt
        have hpl : pick < ((getRecommendations.candidates allMovies p).map
            (fun c => c.movie_id)).length := by simpa using hplt
        have heq : ((getRecommendations.candidates allMovies p).map (fun c => c.movie_id))[j] =
            ((getRecommendations.candidates allMovies p).map (fun c => c.movie_id))[pick] := by
          simp only [List.getElem_map]
          rw [← hmj2, ← hmp, ← hom]
          exact hid
        exact (List.Nodup.getElem_inj_iff hids).1 heq
      subst hjp
      rw [ho] at hj
      exact (Option.some.inj hj).symm
    have hin := mem_uniqueById _ [] o hobj (List.not_mem_nil _) huniq
    have hle : (uniqueById (fin.results.filterMap (fun i => fin.objs[i]?)) []).length ≤ count := by
      have h1 := (uniqueById_sublist (fin.results.filterMap (fun i => fin.objs[i]?)) []).length_le
      have h2 := List.length_filterMap_le (fun i => fin.objs[i]?) fin.results
      have h3 : fin.results.length ≤
          0 + min count (getRecommendations.candidates allMovies p).length := by
        rw [← hfn]
        exact selectLoop_results_length _ _ _ _ _
      have h4 := Nat.min_le_left count (getRecommendations.candidates allMovies p).length
      omega
    rw [List.take_of_length_le hle]
    exact hin


/-- C9, at a concrete call whose first pass explores: the item taken is
returned with source `explore`. -/
theorem explore_pick_witness :
    ∃ r ∈ getRecommendations exDb 0 (fun _ => 0) "u1" [exMovie 1 0 1, exMovie 2 0 (1 / 2)] 2
        (some (exUser (some 20))),
      r.source = "explore" := by
  obtain ⟨_, m, _, _, _, _, _, _, _, _, _, h⟩ :=
    explore_pick exDb 0 (fun _ => 0) "u1" [exMovie 1 0 1, exMovie 2 0 (1 / 2)] 2
      (exUser (some 20)) (fun _ => ⟨le_refl _, by norm_num⟩) 0 (by decide!) (by decide!)
  obtain ⟨r, hr, _, hs⟩ := h (by decide!)
  exact ⟨r, hr, hs⟩


/-! ## Theorems: the adaptive exploration rate -/

/-- C10, as stated, fails: the state of the user holds 101 entries of visit
count 1, so the total visit count over its entries is 101, but only the 100
entries fetched are counted and the rate is max(0.05, 0.15 * 0.999^100). -/
theorem adaptiveEpsilon_counterexample :
    encodeState (exUser (some 20)) (stmts.getUserInteractions exDb101 "u1" 50) 0
      = "general|any|night" ∧
    ((exDb101.rl_qtable.filter
      (fun e => decide (e.inState "u1" "general|any|night"))).map
        (fun e => e.visit_count)).sum = 101 ∧
    adaptiveEpsilon (getRecommendations.learnedValues exDb101 0 "u1" (exUser (some 20)))
      = max 0.05 (0.15 * 0.999 ^ 100) ∧
    adaptiveEpsilon (getRecommendations.learnedValues exDb101 0 "u1" (exUser (some 20)))
      ≠ max 0.05 (0.15 * 0.999 ^ 101) := by
  decide!


theorem foldl_visits (l : List QRow) (a : Nat) :
    l.foldl (fun sum v => sum + v.visit_count) a = a + (l.map (fun e => e.visit_count)).sum := by
  induction l generalizing a with
  | nil => simp
  | cons x xs ih => simp [List.foldl_cons, ih, Nat.add_assoc]

theorem adaptiveEpsilon_eq (lv : List QRow) :
    adaptiveEpsilon lv = max 0.05 (0.15 * 0.999 ^ (lv.map (fun e => e.visit_count)).sum) := by
  unfold adaptiveEpsilon
  simp only [foldl_visits, Nat.zero_add, CONFIG.epsilonMin, CONFIG.epsilon, CONFIG.epsilonDecay]

/-- C10, amended: the adaptive exploration rate used by `getRecommendations`
equals max(0.05, 0.15 * 0.999^V), where V is the total visit count over the
value entries fetched for the user's current state, which are its 100 entries
of highest value (all its entries when the state has at most 100);
consequently the rate always lies in [0.05, 0.15], equals 0.15 when V = 0, and
never increases when V increases. -/
theorem adaptiveEpsilon_spec (db : Db) (hour : Nat) (userUid : String) (p : User) :
    adaptiveEpsilon (getRecommendations.learnedValues db hour userUid p) =
      max 0.05 (0.15 * 0.999 ^
        ((getRecommendations.learnedValues db hour userUid p).map
          (fun e => e.visit_count)).sum) ∧
    getRecommendations.learnedValues db hour userUid p =
      ((db.rl_qtable.filter (fun e => decide (e.inState userUid
          (encodeState p (stmts.getUserInteractions db userUid 50) hour)))).insertionSort
        qDesc).take 100 ∧
    ((db.rl_qtable.filter (fun e => decide (e.inState userUid
        (encodeState p (stmts.getUserInteractions db userUid 50) hour)))).length ≤ 100 →
      ((getRecommendations.learnedValues db hour userUid p).map (fun e => e.visit_count)).sum =
        ((db.rl_qtable.filter (fun e => decide (e.inState userUid
          (encodeState p (stmts.getUserInteractions db userUid 50) hour)))).map
            (fun e => e.visit_count)).sum) ∧
    (∀ lv : List QRow,
      0.05 ≤ adaptiveEpsilon lv ∧ adaptiveEpsilon lv ≤ 0.15 ∧
      ((lv.map (fun e => e.visit_count)).sum = 0 → adaptiveEpsilon lv = 0.15)) ∧
    (∀ lv lv2 : List QRow,
      (lv.map (fun e => e.visit_count)).sum ≤ (lv2.map (fun e => e.visit_count)).sum →
      adaptiveEpsilon lv2 ≤ adaptiveEpsilon lv) := by
  refine ⟨adaptiveEpsilon_eq _, rfl, ?_, ?_, ?_⟩
  · intro hle
    unfold getRecommendations.learnedValues stmts.getTopQValues
    dsimp only
    rw [List.take_of_length_le (by rw [List.length_insertionSort]; exact hle)]
    exact ((List.perm_insertionSort qDesc _).map _).sum_eq
  · intro lv
    rw [adaptiveEpsilon_eq]
    have hpow : (0.999 : ℚ) ^ (lv.map (fun e => e.visit_count)).sum ≤ 1 :=
      pow_le_one₀ (by norm_num) (by norm_num)
    refine ⟨le_max_left _ _, max_le (by norm_num) ?_, ?_⟩
    · calc (0.15 : ℚ) * 0.999 ^ (lv.map (fun e => e.visit_count)).sum
          ≤ 0.15 * 1 := mul_le_mul_of_nonneg_left hpow (by norm_num)
        _ = 0.15 := by norm_num
    · intro h0
      rw [h0]
      norm_num
  · intro lv lv2 hle
    rw [adaptiveEpsilon_eq, adaptiveEpsilon_eq]
    apply max_le_max (le_refl _)
    apply mul_le_mul_of_nonneg_left _ (by norm_num)
    exact pow_le_pow_of_le_one (by norm_num) (by norm_num) hle


/-! ## Theorems: reasons and source of a scored candidate -/

theorem qValueComponent_reasons (fetched : List QRow) (m : Movie) (acc : ScoreAcc) :
    (qValueComponent (qMapGet fetched m.movie_id) acc).reasons = acc.reasons ++
      (if learnedSignal fetched m then ["learned from your behavior"] else []) := by
  cases hq : qMapGet fetched m.movie_id with
  | none =>
    have hno : ¬ learnedSignal fetched m := by unfold learnedSignal; rw [hq]; exact id
    rw [if_neg hno]
    simp [qValueComponent]
  | some e =>
    by_cases hv : e.visit_count > 0
    · have hyes : learnedSignal fetched m := by unfold learnedSignal; rw [hq]; exact hv
      rw [if_pos hyes]
      simp [qValueComponent, hv]
    · have hno : ¬ learnedSignal fetched m := by unfold learnedSignal; rw [hq]; exact hv
      rw [if_neg hno]
      simp [qValueComponent, hv]

theorem genreAffinity_reasons (p : User) (m : Movie) (acc : ScoreAcc) :
    (genreAffinity p m acc).reasons = acc.reasons ++
      (if sharedGenres p m ≠ [] then
        ["matches your taste (" ++ ", ".intercalate (sharedGenres p m) ++ ")"] else []) := by
  unfold genreAffinity sharedGenres
  rcases includes?_cases p with h | ⟨h, hno⟩
  · rw [h]
    dsimp only
    by_cases hlen : (m.genre.filter (fun g => prefers p g)).length > 0
    · have hne : m.genre.filter (fun g => prefers p g) ≠ [] :=
        List.ne_nil_of_length_pos hlen
      rw [if_pos hlen, if_pos hne]
    · have hnil : m.genre.filter (fun g => prefers p g) = [] :=
        List.length_eq_zero.1 (by omega)
      rw [if_neg hlen, if_neg (by rw [hnil]; exact fun h => h rfl)]
      simp
  · rw [h]
    have hnil : m.genre.filter (fun g => prefers p g) = [] := by
      rw [List.filter_eq_nil_iff]
      intro g _
      rw [hno g]
      exact Bool.false_ne_true
    rw [if_neg (by rw [hnil]; exact fun h => h rfl)]
    simp

theorem experienceAffinity_reasons (p : User) (m : Movie) (acc : ScoreAcc) :
    (experienceAffinity p m acc).reasons = acc.reasons ++
      (if p.preferred_experience ≠ "" ∧ m.experience_type = p.preferred_experience then
        ["matches your preferred vibe (" ++ m.experience_type ++ ")"] else []) := by
  unfold experienceAffinity
  split_ifs <;> simp

theorem collaborativeSignal_reasons (allMovies : List Movie) (rated positive : List Int)
    (m : Movie) (acc : ScoreAcc) :
    (collaborativeSignal allMovies rated positive m acc).reasons = acc.reasons ++
      (if m.movie_id ∉ rated ∧
          (positive.length > 0 ∧ positive.any (similarTo allMovies m) = true)
        then ["similar to movies you rated highly"] else []) := by
  unfold collaborativeSignal
  by_cases h1 : positive.length > 0
  · by_cases h2 : positive.any (similarTo allMovies m) = true <;>
      by_cases h3 : m.movie_id ∈ rated <;> simp [h1, h2, h3]
  · simp [h1]

theorem noveltyBonus_reasons (viewed : List Int) (m : Movie) (acc : ScoreAcc) :
    (noveltyBonus viewed m acc).reasons = acc.reasons := by
  unfold noveltyBonus; split_ifs <;> rfl

theorem ratedPenalty_reasons (rated : List Int) (m : Movie) (acc : ScoreAcc) :
    (ratedPenalty rated m acc).reasons = acc.reasons := by
  unfold ratedPenalty; split_ifs <;> rfl

/-- The reasons collected by the scoring callback of `getRecommendations`. -/
theorem scoreMovie_allReasons (db : Db) (userUid : String) (p : User)
    (allMovies : List Movie) (lv : List QRow) (m : Movie) :
    (scoreMovie p allMovies lv (getRecommendations.ratedMovies db userUid)
        (getRecommendations.positiveRatedMovies db userUid)
        (getRecommendations.viewedMovies db userUid) m).allReasons =
      if reasonFragments db userUid p allMovies lv m = [] then ["trending and highly rated"]
      else reasonFragments db userUid p allMovies lv m := by
  unfold scoreMovie reasonFragments
  simp only [ratedPenalty_reasons, noveltyBonus_reasons, qualityBaseline,
    collaborativeSignal_reasons, experienceAffinity_reasons, genreAffinity_reasons,
    qValueComponent_reasons, mem_ratedMovies, collaborative_iff, List.nil_append,
    List.length_eq_zero, List.append_assoc]


theorem taste_ne_generic (x : String) :
    "matches your taste (" ++ x ++ ")" ≠ "trending and highly rated" := by
  intro h
  have h2 := congrArg (fun s : String => s.data.head?) h
  simp [String.data_append] at h2

theorem vibe_ne_generic (x : String) :
    "matches your preferred vibe (" ++ x ++ ")" ≠ "trending and highly rated" := by
  intro h
  have h2 := congrArg (fun s : String => s.data.head?) h
  simp [String.data_append] at h2


/-- The generic reason stands exactly when no reason fragment was collected. -/
theorem reasonFragments_generic (db : Db) (userUid : String) (p : User)
    (allMovies : List Movie) (lv : List QRow) (m : Movie) :
    (if reasonFragments db userUid p allMovies lv m = [] then ["trending and highly rated"]
      else reasonFragments db userUid p allMovies lv m) = ["trending and highly rated"] ↔
    (¬ learnedSignal lv m ∧ sharedGenres p m = [] ∧
      ¬ (p.preferred_experience ≠ "" ∧ m.experience_type = p.preferred_experience) ∧
      ¬ (¬ hasRated db userUid m.movie_id ∧ lovedSimilar db userUid allMovies m)) := by
  unfold reasonFragments
  by_cases h1 : learnedSignal lv m
  · simp [h1]
  · by_cases h2 : sharedGenres p m = []
    · by_cases h3 : p.preferred_experience ≠ "" ∧ m.experience_type = p.preferred_experience
      · have hv1 := vibe_ne_generic m.experience_type
        have hv2 := vibe_ne_generic p.preferred_experience
        simp [h1, h2, h3, hv1, hv2]
      · by_cases h4 : ¬ hasRated db userUid m.movie_id ∧ lovedSimilar db userUid allMovies m
        · simp [h1, h2, h3, h4]
        · simp [h1, h2, h3, h4]
    · have := taste_ne_generic (", ".intercalate (sharedGenres p m))
      simp [h1, h2, this]

/-- C12, as stated, fails: the novelty bonus triggers for a candidate the user
has never seen, and the familiarity penalty for a candidate the user has rated,
yet in both cases the reasons are the single generic reason. -/
theorem allReasons_counterexample :
    (¬ hasSeen exDb "u1" 1 ∧
      (getRecommendations.scored exDb 0 "u1" [exMovie 1 0 1] (exUser (some 20))).map
        (fun o => (o.score, o.allReasons)) = [(37 / 50, ["trending and highly rated"])]) ∧
    (hasRated exDbRated "u1" 1 ∧
      (getRecommendations.scored exDbRated 0 "u1" [exMovie 1 0 1] (exUser (some 20))).map
        (fun o => (o.score, o.allReasons)) = [(6 / 25, ["trending and highly rated"])]) := by
  decide!

/-- C12, amended: for every scored candidate, the list of contributing reasons
(allReasons) holds, in this order, one fragment for each triggered signal among
learned-value, genre-affinity, experience-affinity and collaborative-proximity
(the quality baseline, the novelty bonus and the familiarity penalty contribute
none), and it is the single generic reason 'trending and highly rated' exactly
when none of those four signals triggers. -/
theorem allReasons_spec (db : Db) (hour : Nat) (userUid : String) (allMovies : List Movie)
    (p : User) :
    ∀ o ∈ getRecommendations.scored db hour userUid allMovies p,
      o.allReasons =
        (if reasonFragments db userUid p allMovies
            (getRecommendations.learnedValues db hour userUid p) o.movie = []
          then ["trending and highly rated"]
          else reasonFragments db userUid p allMovies
            (getRecommendations.learnedValues db hour userUid p) o.movie) ∧
      (o.allReasons = ["trending and highly rated"] ↔
        (¬ learnedSignal (getRecommendations.learnedValues db hour userUid p) o.movie ∧
          sharedGenres p o.movie = [] ∧
          ¬ (p.preferred_experience ≠ "" ∧ o.movie.experience_type = p.preferred_experience) ∧
          ¬ (¬ hasRated db userUid o.movie.movie_id ∧
              lovedSimilar db userUid allMovies o.movie))) := by
  intro o ho
  unfold getRecommendations.scored at ho
  obtain ⟨m, _, rfl⟩ := List.mem_map.1 ho
  have hmov : (scoreMovie p allMovies (getRecommendations.learnedValues db hour userUid p)
      (getRecommendations.ratedMovies db userUid)
      (getRecommendations.positiveRatedMovies db userUid)
      (getRecommendations.viewedMovies db userUid) m).movie = m := rfl
  rw [hmov, scoreMovie_allReasons]
  exact ⟨rfl, reasonFragments_generic db userUid p allMovies _ m⟩

/-- C12, at a concrete candidate: for a profile without preferences and empty
tables no signal with a fragment triggers, and the reasons of the only
candidate are the generic reason. -/
theorem allReasons_spec_witness :
    (scoreMovie (exUser (some 20)) [exMovie 1 0 1]
      (getRecommendations.learnedValues exDb 0 "u1" (exUser (some 20)))
      (getRecommendations.ratedMovies exDb "u1")
      (getRecommendations.positiveRatedMovies exDb "u1")
      (getRecommendations.viewedMovies exDb "u1") (exMovie 1 0 1)).allReasons =
      ["trending and highly rated"] := by
  have h := (allReasons_spec exDb 0 "u1" [exMovie 1 0 1] (exUser (some 20))
    (scoreMovie (exUser (some 20)) [exMovie 1 0 1]
      (getRecommendations.learnedValues exDb 0 "u1" (exUser (some 20)))
      (getRecommendations.ratedMovies exDb "u1")
      (getRecommendations.positiveRatedMovies exDb "u1")
      (getRecommendations.viewedMovies exDb "u1") (exMovie 1 0 1))
    (by decide!)).1
  rw [h]
  decide!


theorem qMapGet_some {lv : List QRow} {id : Int} {e : QRow} (h : qMapGet lv id = some e) :
    e ∈ lv ∧ e.movie_id = id := by
  unfold qMapGet at h
  exact ⟨List.mem_reverse.1 (List.mem_of_find?_eq_some h), by simpa using List.find?_some h⟩

theorem qMapGet_none {lv : List QRow} {id : Int} (h : ∀ e ∈ lv, e.movie_id ≠ id) :
    qMapGet lv id = none := by
  unfold qMapGet
  rw [List.find?_eq_none]
  intro e he
  simpa using h e (List.mem_reverse.1 he)

theorem qValueComponent_unvisited (q : Option QRow) (acc : ScoreAcc)
    (h : ∀ e, q = some e → e.visit_count = 0) : qValueComponent q acc = acc := by
  unfold qValueComponent
  cases q with
  | none => rfl
  | some e =>
    have h0 := h e rfl
    simp [h0]

/-- The source written by the scoring callback is that of its first step. -/
theorem scoreMovie_source_eq (p : User) (allMovies : List Movie) (lv : List QRow)
    (rated positive viewed : List Int) (m : Movie) :
    (scoreMovie p allMovies lv rated positive viewed m).source =
      (qValueComponent (qMapGet lv m.movie_id)
        { score := 0, reasons := [], source := "hybrid" }).source := by
  have h2 : ∀ acc : ScoreAcc, (genreAffinity p m acc).source = acc.source := by
    intro acc; unfold genreAffinity
    cases p.preferred_genres.includes? with
    | none => rfl
    | some f => dsimp only; split_ifs <;> rfl
  have h3 : ∀ acc : ScoreAcc, (experienceAffinity p m acc).source = acc.source := by
    intro acc; unfold experienceAffinity; split_ifs <;> rfl
  have h4 : ∀ acc : ScoreAcc,
      (collaborativeSignal allMovies rated positive m acc).source = acc.source := by
    intro acc; unfold collaborativeSignal; dsimp only; split_ifs <;> rfl
  have h5 : ∀ acc : ScoreAcc, (noveltyBonus viewed m acc).source = acc.source := by
    intro acc; unfold noveltyBonus; split_ifs <;> rfl
  have h6 : ∀ acc : ScoreAcc, (ratedPenalty rated m acc).source = acc.source := by
    intro acc; unfold ratedPenalty; split_ifs <;> rfl
  unfold scoreMovie
  simp only [h6, h5, qualityBaseline, h4, h3, h2]

/-- The source written by the scoring callback is `rl` exactly when the
learned-value signal triggers. -/
theorem scoreMovie_source_rl (p : User) (allMovies : List Movie) (lv : List QRow)
    (rated positive viewed : List Int) (m : Movie) :
    (scoreMovie p allMovies lv rated positive viewed m).source = "rl" ↔ learnedSignal lv m := by
  rw [scoreMovie_source_eq]
  unfold learnedSignal qValueComponent
  cases qMapGet lv m.movie_id with
  | none => simp
  | some e =>
    by_cases hv : e.visit_count > 0
    · have hv1 : e.visit_count ≥ 1 := hv
      simp [hv, hv1]
    · have hv1 : ¬ e.visit_count ≥ 1 := hv
      simp [hv, hv1]

/-- C11: a fetched value entry with visit count 0, whatever its stale value,
leaves the candidate's score, source and reasons exactly as they are with no
entry at all: the score has no learned-value component and the source is
`hybrid`, not `rl`; the source is `rl` only when an entry with visit count
≥ 1 exists. -/
theorem scoreMovie_unvisited (p : User) (allMovies : List Movie)
    (rated positive viewed : List Int) (m : Movie) (lv lv0 : List QRow)
    (h0 : ∀ e ∈ lv, e.movie_id = m.movie_id → e.visit_count = 0)
    (hnone : ∀ e ∈ lv0, e.movie_id ≠ m.movie_id) :
    (scoreMovie p allMovies lv rated positive viewed m).score =
      (scoreMovie p allMovies lv0 rated positive viewed m).score ∧
    (scoreMovie p allMovies lv rated positive viewed m).source =
      (scoreMovie p allMovies lv0 rated positive viewed m).source ∧
    (scoreMovie p allMovies lv rated positive viewed m).source = "hybrid" ∧
    (scoreMovie p allMovies lv rated positive viewed m).allReasons =
      (scoreMovie p allMovies lv0 rated positive viewed m).allReasons ∧
    (scoreMovie p allMovies lv rated positive viewed m).reason =
      (scoreMovie p allMovies lv0 rated positive viewed m).reason ∧
    (∀ lv2 : List QRow, (scoreMovie p allMovies lv2 rated positive viewed m).source = "rl" →
      ∃ e ∈ lv2, e.movie_id = m.movie_id ∧ e.visit_count ≥ 1) := by
  have hq : qValueComponent (qMapGet lv m.movie_id)
      { score := 0, reasons := [], source := "hybrid" } =
      { score := 0, reasons := [], source := "hybrid" } :=
    qValueComponent_unvisited _ _ (fun e he => h0 e (qMapGet_some he).1 (qMapGet_some he).2)
  have hq0 : qValueComponent (qMapGet lv0 m.movie_id)
      { score := 0, reasons := [], source := "hybrid" } =
      { score := 0, reasons := [], source := "hybrid" } := by
    rw [qMapGet_none hnone]; rfl
  refine ⟨?_, ?_, ?_, ?_, ?_, ?_⟩
  · unfold scoreMovie; simp only [hq, hq0]
  · unfold scoreMovie; simp only [hq, hq0]
  · rw [scoreMovie_source_eq, hq]
  · unfold scoreMovie; simp only [hq, hq0]
  · unfold scoreMovie; simp only [hq, hq0]
  · intro lv2 hrl
    have hl := (scoreMovie_source_rl p allMovies lv2 rated positive viewed m).1 hrl
    unfold learnedSignal at hl
    cases hget : qMapGet lv2 m.movie_id with
    | none => rw [hget] at hl; exact absurd hl id
    | some e =>
      rw [hget] at hl
      exact ⟨e, (qMapGet_some hget).1, (qMapGet_some hget).2, hl⟩

/-- C11, at a concrete candidate: an entry of value 5 and visit count 0 changes
neither score nor source. -/
theorem scoreMovie_unvisited_witness :
    (scoreMovie (exUser (some 20)) [exMovie 1 0 1]
        [{ user_uid := "u1", state_key := "general|any|night", movie_id := 1, q_value := 5,
           visit_count := 0, last_reward := 0 }] [] [] [] (exMovie 1 0 1)).score =
      (scoreMovie (exUser (some 20)) [exMovie 1 0 1] [] [] [] [] (exMovie 1 0 1)).score ∧
    (scoreMovie (exUser (some 20)) [exMovie 1 0 1]
        [{ user_uid := "u1", state_key := "general|any|night", movie_id := 1, q_value := 5,
           visit_count := 0, last_reward := 0 }] [] [] [] (exMovie 1 0 1)).source = "hybrid" :=
  have h := scoreMovie_unvisited (exUser (some 20)) [exMovie 1 0 1] [] [] [] (exMovie 1 0 1)
    [{ user_uid := "u1", state_key := "general|any|night", movie_id := 1, q_value := 5,
       visit_count := 0, last_reward := 0 }] []
    (fun e he _ => by rw [List.mem_singleton.1 he])
    (fun e he => absurd he (List.not_mem_nil _))
  ⟨h.1, h.2.2.1⟩


/-! ## Theorems: repeated updates of one triple -/

/-- The new value written by `updateQValue`, from the stored value and the
best stored value of the state. -/
theorem updateQValue_newQ (t : QTable) (u s : String) (m : Int) (r : ℚ) :
    (updateQValue t u s m r).1.newQ =
      storedValue t u s m + 1 / 10 * (r + 19 / 20 * maxFutureQ t u s - storedValue t u s m) := by
  simp only [updateQValue, storedValue, maxFutureQ, discountFactor_eq, learningRate_eq]
  cases stmts.getQValue t u s m <;> norm_num

/-- The best stored value of a state is 0 when it has no row and otherwise the
value of one of its rows, no smaller than the others. -/
theorem maxFutureQ_cases (t : QTable) (u s : String) :
    ((∀ e ∈ t, ¬ e.inState u s) ∧ maxFutureQ t u s = 0) ∨
    ((∃ e ∈ t, e.inState u s ∧ e.q_value = maxFutureQ t u s) ∧
      ∀ e ∈ t, e.inState u s → e.q_value ≤ maxFutureQ t u s) := by
  obtain ⟨M, hM, hM0, hMmax⟩ := maxFutureQ_spec t u s
  have hMeq : maxFutureQ t u s = M := hM
  rw [hMeq]
  by_cases hex : ∃ e ∈ t, e.inState u s
  · exact Or.inr (hMmax hex)
  · refine Or.inl ⟨fun e he hin => hex ⟨e, he, hin⟩, hM0 (fun e he hin => hex ⟨e, he, hin⟩)⟩

/-- After `updateQValue` the stored value of the triple is the new value. -/
theorem storedValue_updateQValue (t : QTable) (u s : String) (m : Int) (r : ℚ) :
    storedValue (updateQValue t u s m r).2 u s m = (updateQValue t u s m r).1.newQ := by
  cases hget : stmts.getQValue t u s m with
  | none =>
    rw [updateQValue_store_absent t u s m r hget]
    unfold storedValue stmts.getQValue
    have hnone : t.find? (fun e => decide (e.hasKey u s m)) = none := hget
    rw [List.find?_append, hnone]
    simp [QRow.hasKey]
  | some e0 =>
    rw [updateQValue_store_present t u s m r e0 hget]
    generalize (updateQValue t u s m r).1.newQ = q
    unfold storedValue stmts.getQValue
    have hsome : t.find? (fun e => decide (e.hasKey u s m)) = some e0 := hget
    have hk0 := (getQValue_eq_some t u s m e0 hget).2
    rw [List.find?_map]
    have hcomp : ((fun e => decide (e.hasKey u s m)) ∘ fun e : QRow =>
        if e.hasKey u s m then
          ({ e with q_value := q, visit_count := e0.visit_count + 1, last_reward := r } : QRow)
        else e) = fun e => decide (e.hasKey u s m) := by
      funext e
      rw [Function.comp_apply]
      by_cases hk : e.hasKey u s m
      · rw [if_pos hk]
        exact decide_eq_decide.2 ⟨fun _ => hk, fun _ => hk⟩
      · rw [if_neg hk]
    rw [hcomp, hsome]
    simp only [Option.map_some', if_pos hk0]

/-- The rows of a state after `updateQValue`: the rows it had for other items,
and the row of the triple with the new value. -/
theorem inState_updateQValue (t : QTable) (u s : String) (m : Int) (r : ℚ) (e : QRow)
    (he : e ∈ (updateQValue t u s m r).2) (hin : e.inState u s) :
    (e ∈ t ∧ ¬ e.hasKey u s m) ∨ e.q_value = (updateQValue t u s m r).1.newQ := by
  cases hget : stmts.getQValue t u s m with
  | none =>
    have hno := (getQValue_eq_none t u s m).1 hget
    rw [updateQValue_store_absent t u s m r hget] at he
    rcases List.mem_append.1 he with h | h
    · exact Or.inl ⟨h, hno e h⟩
    · rw [List.mem_singleton.1 h]; exact Or.inr rfl
  | some e0 =>
    rw [updateQValue_store_present t u s m r e0 hget] at he
    obtain ⟨a, ha, rfl⟩ := List.mem_map.1 he
    by_cases hk : a.hasKey u s m
    · rw [if_pos hk]; exact Or.inr rfl
    · rw [if_neg hk]; exact Or.inl ⟨ha, hk⟩


theorem storedValue_cases (t : QTable) (u s : String) (m : Int) :
    ((∀ e ∈ t, ¬ e.hasKey u s m) ∧ storedValue t u s m = 0) ∨
    (∃ e ∈ t, e.hasKey u s m ∧ storedValue t u s m = e.q_value) := by
  unfold storedValue
  cases hget : stmts.getQValue t u s m with
  | none => exact Or.inl ⟨(getQValue_eq_none t u s m).1 hget, rfl⟩
  | some e0 =>
    obtain ⟨he0, hk0⟩ := getQValue_eq_some t u s m e0 hget
    exact Or.inr ⟨e0, he0, hk0, rfl⟩

/-- One update keeps every value of the state in `[0, 20 R)` and raises the
value of the triple. -/
theorem updateQValue_step_bounds (t : QTable) (u s : String) (m : Int) (R : ℚ) (hR : 0 < R)
    (hinv : ∀ e ∈ t, e.inState u s → 0 ≤ e.q_value ∧ e.q_value < 20 * R) :
    (∀ e ∈ (updateQValue t u s m R).2, e.inState u s → 0 ≤ e.q_value ∧ e.q_value < 20 * R) ∧
    storedValue t u s m < storedValue (updateQValue t u s m R).2 u s m ∧
    0 < storedValue (updateQValue t u s m R).2 u s m ∧
    storedValue (updateQValue t u s m R).2 u s m < 20 * R := by
  have hv : 0 ≤ storedValue t u s m ∧ storedValue t u s m < 20 * R ∧
      storedValue t u s m ≤ maxFutureQ t u s ∨
      (storedValue t u s m = 0 ∧ ∀ e ∈ t, ¬ e.hasKey u s m) := by
    rcases storedValue_cases t u s m with ⟨hno, h0⟩ | ⟨e, he, hk, hq⟩
    · exact Or.inr ⟨h0, hno⟩
    · have hin : e.inState u s := ⟨hk.1, hk.2.1⟩
      refine Or.inl ⟨hq ▸ (hinv e he hin).1, hq ▸ (hinv e he hin).2, ?_⟩
      rcases maxFutureQ_cases t u s with ⟨hnost, _⟩ | ⟨_, hmax⟩
      · exact absurd hin (hnost e he)
      · rw [hq]; exact hmax e he hin
  have hM : 0 ≤ maxFutureQ t u s ∧ maxFutureQ t u s < 20 * R := by
    rcases maxFutureQ_cases t u s with ⟨_, h0⟩ | ⟨⟨e, he, hin, hq⟩, _⟩
    · rw [h0]; exact ⟨le_refl _, by linarith⟩
    · rw [← hq]; exact hinv e he hin
  have hnew := updateQValue_newQ t u s m R
  have hbounds : storedValue t u s m < (updateQValue t u s m R).1.newQ ∧
      0 < (updateQValue t u s m R).1.newQ ∧ (updateQValue t u s m R).1.newQ < 20 * R := by
    rw [hnew]
    rcases hv with ⟨h0, h1, h2⟩ | ⟨h0, _⟩
    · refine ⟨?_, ?_, ?_⟩ <;> linarith [hM.1, hM.2]
    · rw [h0]
      refine ⟨?_, ?_, ?_⟩ <;> linarith [hM.1, hM.2]
  rw [storedValue_updateQValue]
  refine ⟨?_, hbounds.1, hbounds.2.1, hbounds.2.2⟩
  intro e he hin
  rcases inState_updateQValue t u s m R e he hin with ⟨het, _⟩ | hq
  · exact hinv e het hin
  · rw [hq]; exact ⟨le_of_lt hbounds.2.1, hbounds.2.2⟩

theorem updateQValueTimes_inv (t : QTable) (u s : String) (m : Int) (R : ℚ) (hR : 0 < R)
    (hinv : ∀ e ∈ t, e.inState u s → 0 ≤ e.q_value ∧ e.q_value < 20 * R) (n : Nat) :
    ∀ e ∈ updateQValueTimes t u s m R n, e.inState u s → 0 ≤ e.q_value ∧ e.q_value < 20 * R := by
  induction n with
  | zero => exact hinv
  | succ k ih => exact (updateQValue_step_bounds _ u s m R hR ih).1

/-- In exact arithmetic the value of the triple grows strictly with every
update, under the hypotheses of the bounds on doubles below. -/
theorem updateQValueTimes_exact_bounds (t : QTable) (u s : String) (m : Int) (R : ℚ)
    (hnone : ∀ e ∈ t, ¬ e.hasKey u s m)
    (hother : ∀ e ∈ t, e.inState u s → 0 ≤ e.q_value ∧ e.q_value < 20 * R)
    (hR : 0 < R) (n : Nat) (hn : 1 ≤ n) :
    storedValue (updateQValueTimes t u s m R 0) u s m = 0 ∧
    storedValue (updateQValueTimes t u s m R (n - 1)) u s m <
      storedValue (updateQValueTimes t u s m R n) u s m ∧
    0 < storedValue (updateQValueTimes t u s m R n) u s m ∧
    storedValue (updateQValueTimes t u s m R n) u s m < R / (1 - 0.95) ∧
    R / (1 - 0.95) = 20 * R := by
  have h20 : R / (1 - 0.95) = 20 * R := by norm_num; ring
  obtain ⟨k, rfl⟩ : ∃ k, n = k + 1 := ⟨n - 1, by omega⟩
  have hstep := updateQValue_step_bounds (updateQValueTimes t u s m R k) u s m R hR
    (updateQValueTimes_inv t u s m R hR hother k)
  refine ⟨?_, ?_, ?_, ?_, h20⟩
  · rcases storedValue_cases t u s m with ⟨_, h0⟩ | ⟨e, he, hk, _⟩
    · exact h0
    · exact absurd hk (hnone e he)
  · exact hstep.2.1
  · exact hstep.2.2.1
  · rw [h20]; exact hstep.2.2.2

/-! ## Theorems: rounding to a double -/

theorem roundHalfEven_cases (z : ℚ) :
    (roundHalfEven z = ⌊z⌋ ∧ z - ⌊z⌋ ≤ 1 / 2) ∨
    (roundHalfEven z = ⌊z⌋ + 1 ∧ 1 / 2 ≤ z - ⌊z⌋) := by
  unfold roundHalfEven
  split_ifs with h1 h2 h3
  · exact Or.inl ⟨rfl, le_of_lt h1⟩
  · exact Or.inr ⟨rfl, le_of_lt h2⟩
  · exact Or.inl ⟨rfl, not_lt.1 h2⟩
  · exact Or.inr ⟨rfl, not_lt.1 h1⟩

theorem roundHalfEven_le (z : ℚ) : (roundHalfEven z : ℚ) ≤ z + 1 / 2 := by
  have hf := Int.floor_le z
  have hl := Int.lt_floor_add_one z
  rcases roundHalfEven_cases z with ⟨h, _⟩ | ⟨h, h2⟩
  · rw [h]; linarith
  · rw [h]; push_cast; linarith

theorem roundHalfEven_ge (z : ℚ) : z - 1 / 2 ≤ (roundHalfEven z : ℚ) := by
  have hf := Int.floor_le z
  have hl := Int.lt_floor_add_one z
  rcases roundHalfEven_cases z with ⟨h, h2⟩ | ⟨h, _⟩
  · rw [h]; linarith
  · rw [h]; push_cast; linarith

theorem roundHalfEven_ge_of_le (z : ℚ) (k : Int) (h : (k : ℚ) ≤ z) : k ≤ roundHalfEven z := by
  have hk : k ≤ ⌊z⌋ := Int.le_floor.2 h
  rcases roundHalfEven_cases z with ⟨h1, _⟩ | ⟨h1, _⟩ <;> rw [h1] <;> omega

theorem roundHalfEven_le_of_lt_half (z : ℚ) (k : Int) (h : z < (k : ℚ) + 1 / 2) :
    roundHalfEven z ≤ k := by
  have hfl : ⌊z⌋ ≤ k := by
    have : ⌊z⌋ < k + 1 := Int.floor_lt.2 (by push_cast; linarith)
    omega
  rcases roundHalfEven_cases z with ⟨h1, _⟩ | ⟨h1, h2⟩
  · rw [h1]; exact hfl
  · rw [h1]
    by_contra hc
    have hk : ⌊z⌋ = k := by omega
    rw [hk] at h2
    linarith

theorem roundHalfEven_ge_of_gt_half (z : ℚ) (k : Int) (h : (k : ℚ) - 1 / 2 < z) :
    k ≤ roundHalfEven z := by
  have hfl : k - 1 ≤ ⌊z⌋ := Int.le_floor.2 (by push_cast; linarith)
  rcases roundHalfEven_cases z with ⟨h1, h2⟩ | ⟨h1, _⟩
  · rw [h1]
    by_contra hc
    have hk : ⌊z⌋ = k - 1 := by omega
    rw [hk] at h2
    push_cast at h2
    linarith
  · rw [h1]; omega

theorem roundHalfEven_le_of_le (z : ℚ) (k : Int) (h : z ≤ (k : ℚ)) : roundHalfEven z ≤ k :=
  roundHalfEven_le_of_lt_half z k (by linarith)

theorem roundHalfEven_intCast (k : Int) : roundHalfEven (k : ℚ) = k :=
  le_antisymm (roundHalfEven_le_of_le _ k le_rfl) (roundHalfEven_ge_of_le _ k le_rfl)

theorem log2Aux_spec (n : Nat) : ∀ i k : Nat, 2 ^ k ≤ n → n < 2 ^ (k + 2 ^ i) →
    2 ^ log2Aux n i k ≤ n ∧ n < 2 ^ (log2Aux n i k + 1) := by
  intro i
  induction i with
  | zero =>
    intro k h1 h2
    exact ⟨h1, h2⟩
  | succ i ih =>
    intro k h1 h2
    unfold log2Aux
    by_cases hc : 2 ^ (k + 2 ^ i) ≤ n
    · rw [if_pos hc]
      refine ih _ hc ?_
      have : k + 2 ^ i + 2 ^ i = k + 2 ^ (i + 1) := by rw [pow_succ]; omega
      rw [this]; exact h2
    · rw [if_neg hc]
      exact ih _ h1 (not_le.1 hc)

theorem log2Aux_zero : ∀ i k : Nat, log2Aux 0 i k = k := by
  intro i
  induction i with
  | zero => intro k; rfl
  | succ i ih =>
    intro k
    unfold log2Aux
    rw [if_neg (by simp), ih]

theorem cast_two_pow (k : Nat) : ((2 ^ k : Nat) : ℚ) = 2 ^ k := by
  rw [Nat.cast_pow, Nat.cast_ofNat]

theorem floor_lt_of_lt_unitsBound (X : ℚ) (h0 : 0 ≤ X) (hX : X < unitsBound) :
    ⌊X⌋₊ < 2 ^ (0 + 2 ^ 12) := by
  unfold unitsBound at hX
  have h : (0 + 2 ^ 12 : Nat) = 4096 := by norm_num
  rw [h]
  exact (Nat.floor_lt h0).2 (lt_of_lt_of_eq hX (cast_two_pow 4096).symm)

/-- The binade of `X`: the spacing is a power of two `2 ^ j`, with
`X < 2 ^ 53 * 2 ^ j`, and `2 ^ 52 * 2 ^ j ≤ X` unless `j = 0`. -/
theorem quantum_spec (X : ℚ) (h0 : 0 ≤ X) (hX : X < unitsBound) :
    ∃ j : Nat, quantum X = 2 ^ j ∧ X < 2 ^ 53 * 2 ^ j ∧ (1 ≤ j → (2 : ℚ) ^ 52 * 2 ^ j ≤ X) := by
  have hN2 := floor_lt_of_lt_unitsBound X h0 hX
  clear hX
  unfold quantum
  refine ⟨max (log2Aux ⌊X⌋₊ 12 0) 52 - 52, rfl, ?_, ?_⟩
  · by_cases hN : ⌊X⌋₊ = 0
    · rw [hN, log2Aux_zero]
      have hlt : X < 1 := by
        have := Nat.lt_floor_add_one X
        rw [hN] at this
        simpa using this
      have h1 : (1 : ℚ) ≤ 2 ^ 53 * 2 ^ (max 0 52 - 52) := by norm_num
      linarith
    · have hN1 : 2 ^ 0 ≤ ⌊X⌋₊ := Nat.pos_of_ne_zero hN
      obtain ⟨_, hb⟩ := log2Aux_spec _ 12 0 hN1 hN2
      clear hN2
      generalize log2Aux ⌊X⌋₊ 12 0 = L at hb ⊢
      have hlt : X < (2 : ℚ) ^ (L + 1) := by
        have h1 := Nat.lt_floor_add_one X
        have h2 : ((⌊X⌋₊ + 1 : Nat) : ℚ) ≤ ((2 ^ (L + 1) : Nat) : ℚ) := Nat.cast_le.2 hb
        rw [Nat.cast_pow, Nat.cast_ofNat, Nat.cast_add, Nat.cast_one] at h2
        linarith
      have hle : (2 : ℚ) ^ (L + 1) ≤ 2 ^ 53 * 2 ^ (max L 52 - 52) := by
        rw [← pow_add]
        exact pow_le_pow_right₀ (by norm_num) (by omega)
      linarith
  · intro hj
    have hL : 52 < log2Aux ⌊X⌋₊ 12 0 := by omega
    have hN : ⌊X⌋₊ ≠ 0 := by
      intro hN
      rw [hN, log2Aux_zero] at hL
      omega
    have hN1 : 2 ^ 0 ≤ ⌊X⌋₊ := Nat.pos_of_ne_zero hN
    obtain ⟨ha, _⟩ := log2Aux_spec _ 12 0 hN1 hN2
    clear hN2
    generalize log2Aux ⌊X⌋₊ 12 0 = L at ha hL ⊢
    have hfl : (⌊X⌋₊ : ℚ) ≤ X := Nat.floor_le h0
    have h2 : ((2 ^ L : Nat) : ℚ) ≤ (⌊X⌋₊ : ℚ) := Nat.cast_le.2 ha
    rw [Nat.cast_pow, Nat.cast_ofNat] at h2
    have heq : (2 : ℚ) ^ 52 * 2 ^ (max L 52 - 52) = 2 ^ L := by
      rw [← pow_add]
      congr 1
      omega
    rw [heq]
    linarith

/-- The binade determines the spacing. -/
theorem quantum_unique (X : ℚ) (h0 : 0 ≤ X) (hX : X < unitsBound) (j : Nat)
    (h1 : X < 2 ^ 53 * 2 ^ j) (h2 : 1 ≤ j → (2 : ℚ) ^ 52 * 2 ^ j ≤ X) :
    quantum X = 2 ^ j := by
  obtain ⟨j0, hq, ha, hb⟩ := quantum_spec X h0 hX
  clear hX
  rw [hq]
  suffices hj : j0 = j by rw [hj]
  by_contra hne
  rcases Nat.lt_or_gt_of_ne hne with hlt | hgt
  · have h3 := h2 (by omega)
    have h4 : (2 : ℚ) ^ 53 * 2 ^ j0 ≤ 2 ^ 52 * 2 ^ j := by
      rw [← pow_add, ← pow_add]
      exact pow_le_pow_right₀ (by norm_num) (by omega)
    linarith
  · have h3 := hb (by omega)
    have h4 : (2 : ℚ) ^ 53 * 2 ^ j ≤ 2 ^ 52 * 2 ^ j0 := by
      rw [← pow_add, ← pow_add]
      exact pow_le_pow_right₀ (by norm_num) (by omega)
    linarith

theorem two_pow_step (a b : Nat) (h : a + 1 ≤ b) : (2 : ℚ) ^ 53 * 2 ^ a ≤ 2 ^ 52 * 2 ^ b := by
  rw [← pow_add, ← pow_add]
  exact pow_le_pow_right₀ (by norm_num) (by omega)

/-- The rounded value as a significand `r` times the spacing `2 ^ j`. -/
theorem roundUnits_spec (X : ℚ) (h0 : 0 ≤ X) (hX : X < unitsBound) :
    ∃ (j : Nat) (r : Int), quantum X = 2 ^ j ∧ roundUnits X = (r : ℚ) * 2 ^ j ∧
      r = roundHalfEven (X / 2 ^ j) ∧ X < 2 ^ 53 * 2 ^ j ∧
      (1 ≤ j → (2 : ℚ) ^ 52 * 2 ^ j ≤ X) ∧ 0 ≤ r ∧ r ≤ 2 ^ 53 ∧ (1 ≤ j → 2 ^ 52 ≤ r) := by
  obtain ⟨j, hq, ha, hb⟩ := quantum_spec X h0 hX
  clear hX
  have hpos : (0 : ℚ) < 2 ^ j := by positivity
  have hqc : ((quantum X : Nat) : ℚ) = 2 ^ j := by rw [hq, Nat.cast_pow, Nat.cast_ofNat]
  refine ⟨j, roundHalfEven (X / 2 ^ j), hq, ?_, rfl, ha, hb, ?_, ?_, ?_⟩
  · unfold roundUnits
    rw [hqc]
  · exact roundHalfEven_ge_of_le _ 0 (by push_cast; positivity)
  · refine roundHalfEven_le_of_le _ (2 ^ 53) ?_
    push_cast
    rw [div_le_iff₀ hpos]
    exact le_of_lt ha
  · intro hj
    refine roundHalfEven_ge_of_le _ (2 ^ 52) ?_
    push_cast
    rw [le_div_iff₀ hpos]
    exact hb hj

theorem roundUnits_nonneg (X : ℚ) (h0 : 0 ≤ X) (hX : X < unitsBound) : 0 ≤ roundUnits X := by
  obtain ⟨j, r, _, hr, _, _, _, hr0, _, _⟩ := roundUnits_spec X h0 hX
  rw [hr]
  have : (0 : ℚ) ≤ (r : ℚ) := by exact_mod_cast hr0
  positivity

/-- The rounding error: at most half a unit, or the fraction 2^-53 of the value. -/
theorem roundUnits_error (X : ℚ) (h0 : 0 ≤ X) (hX : X < unitsBound) :
    |roundUnits X - X| ≤ X / 2 ^ 53 + 1 / 2 := by
  obtain ⟨j, r, _, hr, hrr, ha, hb, _, _, _⟩ := roundUnits_spec X h0 hX
  clear hX
  have hpos : (0 : ℚ) < 2 ^ j := by positivity
  have h1 := roundHalfEven_le (X / 2 ^ j)
  have h2 := roundHalfEven_ge (X / 2 ^ j)
  rw [← hrr] at h1 h2
  have hX2 : X / 2 ^ j * 2 ^ j = X := div_mul_cancel₀ X (ne_of_gt hpos)
  have h3 : (r : ℚ) * 2 ^ j ≤ X + 2 ^ j / 2 := by
    have := mul_le_mul_of_nonneg_right h1 (le_of_lt hpos)
    rw [add_mul, hX2] at this
    linarith
  have h4 : X - 2 ^ j / 2 ≤ (r : ℚ) * 2 ^ j := by
    have := mul_le_mul_of_nonneg_right h2 (le_of_lt hpos)
    rw [sub_mul, hX2] at this
    linarith
  have h5 : (2 : ℚ) ^ j / 2 ≤ X / 2 ^ 53 + 1 / 2 := by
    by_cases hj : 1 ≤ j
    · have := hb hj
      have h6 : (2 : ℚ) ^ j / 2 = 2 ^ 52 * 2 ^ j / 2 ^ 53 := by
        field_simp
        ring
      rw [h6]
      have h7 : (2 : ℚ) ^ 52 * 2 ^ j / 2 ^ 53 ≤ X / 2 ^ 53 :=
        div_le_div_of_nonneg_right this (by positivity)
      linarith
    · have hj0 : j = 0 := by omega
      rw [hj0, pow_zero]
      have : 0 ≤ X / 2 ^ 53 := by positivity
      linarith
  rw [hr, abs_le]
  constructor <;> linarith

/-- A double at or below `X` is at or below the rounded `X`. -/
theorem roundUnits_ge (X Y : ℚ) (hY0 : 0 ≤ Y) (hYX : Y ≤ X) (hX : X < unitsBound)
    (hY : roundUnits Y = Y) : Y ≤ roundUnits X := by
  obtain ⟨j, r, _, hr, hrr, ha, hb, hr0, hr1, hr2⟩ := roundUnits_spec X (le_trans hY0 hYX) hX
  obtain ⟨i, s, _, hs, hss, hc, hd, hs0, hs1, hs2⟩ := roundUnits_spec Y hY0 (lt_of_le_of_lt hYX hX)
  clear hX
  rw [hY] at hs
  have hposj : (0 : ℚ) < 2 ^ j := by positivity
  have hij : i ≤ j := by
    by_contra hc2
    have h1 := hd (by omega)
    have h2 := two_pow_step j i (by omega)
    linarith
  rw [hr]
  rcases Nat.eq_or_lt_of_le hij with heq | hlt
  · subst heq
    have hle : (s : ℚ) ≤ X / 2 ^ i := by
      rw [le_div_iff₀ hposj, ← hs]
      exact hYX
    have := roundHalfEven_ge_of_le _ s hle
    rw [← hrr] at this
    have hc3 : (s : ℚ) ≤ (r : ℚ) := by exact_mod_cast this
    rw [hs]
    exact mul_le_mul_of_nonneg_right hc3 (le_of_lt hposj)
  · have h1 := hr2 (by omega)
    have h2 : ((2 ^ 52 : Int) : ℚ) ≤ (r : ℚ) := by exact_mod_cast h1
    push_cast at h2
    have h3 := mul_le_mul_of_nonneg_right h2 (le_of_lt hposj)
    have h4 := two_pow_step i j (by omega)
    linarith

/-- A double at or above `X` is at or above the rounded `X`. -/
theorem roundUnits_le (X Y : ℚ) (hX0 : 0 ≤ X) (hXY : X ≤ Y) (hYb : Y < unitsBound)
    (hY : roundUnits Y = Y) : roundUnits X ≤ Y := by
  obtain ⟨j, r, _, hr, hrr, ha, hb, hr0, hr1, hr2⟩ := roundUnits_spec X hX0 (lt_of_le_of_lt hXY hYb)
  obtain ⟨i, s, _, hs, hss, hc, hd, hs0, hs1, hs2⟩ := roundUnits_spec Y (le_trans hX0 hXY) hYb
  clear hYb
  rw [hY] at hs
  have hposj : (0 : ℚ) < 2 ^ j := by positivity
  have hji : j ≤ i := by
    by_contra hc2
    have h1 := hb (by omega)
    have h2 := two_pow_step i j (by omega)
    linarith
  rw [hr]
  rcases Nat.eq_or_lt_of_le hji with heq | hlt
  · subst heq
    have hle : X / 2 ^ j ≤ (s : ℚ) := by
      rw [div_le_iff₀ hposj, ← hs]
      exact hXY
    have := roundHalfEven_le_of_le _ s hle
    rw [← hrr] at this
    have hc3 : (r : ℚ) ≤ (s : ℚ) := by exact_mod_cast this
    rw [hs]
    exact mul_le_mul_of_nonneg_right hc3 (le_of_lt hposj)
  · have h2 : (r : ℚ) ≤ ((2 ^ 53 : Int) : ℚ) := by exact_mod_cast hr1
    push_cast at h2
    have h3 := mul_le_mul_of_nonneg_right h2 (le_of_lt hposj)
    have h4 := two_pow_step j i (by omega)
    have h5 := hd (by omega)
    linarith

/-- Rounding leaves a double as it is. -/
theorem roundUnits_idem (X : ℚ) (h0 : 0 ≤ X) (hX : X * 2 < unitsBound)
    (hB : (2 : ℚ) ^ 54 < unitsBound) :
    roundUnits (roundUnits X) = roundUnits X := by
  have hXb : X < unitsBound := by linarith
  obtain ⟨j, r, _, hr, hrr, ha, hb, hr0, hr1, hr2⟩ := roundUnits_spec X h0 hXb
  have hposj : (0 : ℚ) < 2 ^ j := by positivity
  have hrq0 : (0 : ℚ) ≤ (r : ℚ) := by exact_mod_cast hr0
  have hrq1 : (r : ℚ) ≤ 2 ^ 53 := by exact_mod_cast hr1
  have hF0 : 0 ≤ roundUnits X := by rw [hr]; positivity
  have hFb : roundUnits X < unitsBound := by
    rw [hr]
    by_cases hj : 1 ≤ j
    · have h1 := hb hj
      have h2 := mul_le_mul_of_nonneg_right hrq1 (le_of_lt hposj)
      have h3 : (2 : ℚ) ^ 53 * 2 ^ j = 2 * (2 ^ 52 * 2 ^ j) := by ring
      linarith
    · have hj0 : j = 0 := by omega
      rw [hj0, pow_zero, mul_one]
      have : (2 : ℚ) ^ 53 < 2 ^ 54 := by norm_num
      linarith
  clear hX hB hXb
  by_cases hr53 : r = 2 ^ 53
  · have hF : roundUnits X = 2 ^ 52 * 2 ^ (j + 1) := by
      rw [hr, hr53]
      push_cast
      ring
    have hq : quantum (roundUnits X) = 2 ^ (j + 1) := by
      refine quantum_unique _ hF0 hFb (j + 1) ?_ (fun _ => le_of_eq hF.symm)
      rw [hF]
      have : (0 : ℚ) < 2 ^ (j + 1) := by positivity
      nlinarith
    have hqc : ((quantum (roundUnits X) : Nat) : ℚ) = 2 ^ (j + 1) := by
      rw [hq, Nat.cast_pow, Nat.cast_ofNat]
    have hz : roundUnits X / 2 ^ (j + 1) = ((2 ^ 52 : Int) : ℚ) := by
      have hne : (2 : ℚ) ^ (j + 1) ≠ 0 := by positivity
      rw [hF, mul_div_assoc, div_self hne, mul_one]
      push_cast
      rfl
    have hdef : roundUnits (roundUnits X) =
        (roundHalfEven (roundUnits X / quantum (roundUnits X)) : ℚ) *
          quantum (roundUnits X) := rfl
    rw [hdef, hqc, hz, roundHalfEven_intCast, hF]
    push_cast
    rfl
  · have hrlt : r < 2 ^ 53 := lt_of_le_of_ne hr1 hr53
    have hrq : (r : ℚ) ≤ 2 ^ 53 - 1 := by
      have : r ≤ 2 ^ 53 - 1 := by omega
      exact_mod_cast this
    have hq : quantum (roundUnits X) = 2 ^ j := by
      refine quantum_unique _ hF0 hFb j ?_ ?_
      · rw [hr]
        have := mul_le_mul_of_nonneg_right hrq (le_of_lt hposj)
        nlinarith
      · intro hj
        rw [hr]
        have h1 : ((2 ^ 52 : Int) : ℚ) ≤ (r : ℚ) := by exact_mod_cast hr2 hj
        push_cast at h1
        exact mul_le_mul_of_nonneg_right h1 (le_of_lt hposj)
    have hqc : ((quantum (roundUnits X) : Nat) : ℚ) = 2 ^ j := by
      rw [hq, Nat.cast_pow, Nat.cast_ofNat]
    have hz : roundUnits X / 2 ^ j = (r : ℚ) := by
      rw [hr]
      field_simp
    have hdef : roundUnits (roundUnits X) =
        (roundHalfEven (roundUnits X / quantum (roundUnits X)) : ℚ) *
          quantum (roundUnits X) := rfl
    rw [hdef, hqc, hz, roundHalfEven_intCast, hr]

/-- A value closer to the double `Y` than the fraction 2^-54 of `Y` rounds to `Y`. -/
theorem roundUnits_near (X Y : ℚ) (hY0 : 0 < Y) (hXb : X < unitsBound) (hYb : Y < unitsBound)
    (hY : roundUnits Y = Y) (hnear : |X - Y| < Y / 2 ^ 54) : roundUnits X = Y := by
  obtain ⟨hn1, hn2⟩ := abs_lt.1 hnear
  have hYs : Y / 2 ^ 54 ≤ Y := div_le_self (le_of_lt hY0) (by norm_num)
  have hX0 : 0 ≤ X := by linarith
  obtain ⟨j, r, _, hr, hrr, ha, hb, hr0, hr1, hr2⟩ := roundUnits_spec X hX0 hXb
  obtain ⟨i, s, _, hs, hss, hc, hd, hs0, hs1, hs2⟩ := roundUnits_spec Y (le_of_lt hY0) hYb
  have hposj : (0 : ℚ) < 2 ^ j := by positivity
  have hposi : (0 : ℚ) < 2 ^ i := by positivity
  have hsY : Y = (s : ℚ) * 2 ^ i := by rw [← hs, hY]
  have hY54 : Y / 2 ^ 54 < 2 ^ i / 2 := by
    have h1 : Y / 2 ^ 54 < 2 ^ 53 * 2 ^ i / 2 ^ 54 := div_lt_div_of_pos_right hc (by positivity)
    have h2 : (2 : ℚ) ^ 53 * 2 ^ i / 2 ^ 54 = 2 ^ i / 2 := by
      field_simp
      ring
    linarith
  rcases le_or_lt Y X with hle | hlt
  · refine le_antisymm ?_ (roundUnits_ge X Y (le_of_lt hY0) hle hXb hY)
    have hij : i ≤ j := by
      by_contra hc2
      have h1 := hd (by omega)
      have h2 := two_pow_step j i (by omega)
      linarith
    have heq : i = j := by
      by_contra hne
      have hlt2 : i < j := lt_of_le_of_ne hij hne
      have h1 := hb (by omega)
      have h2 := two_pow_step i j (by omega)
      have hs53 : s < 2 ^ 53 := by
        have : (s : ℚ) * 2 ^ i < 2 ^ 53 * 2 ^ i := by rw [← hsY]; exact hc
        have h3 : (s : ℚ) < 2 ^ 53 := lt_of_mul_lt_mul_right this (le_of_lt hposi)
        exact_mod_cast h3
      have hs53q : (s : ℚ) ≤ 2 ^ 53 - 1 := by
        have : s ≤ 2 ^ 53 - 1 := by omega
        exact_mod_cast this
      have h4 := mul_le_mul_of_nonneg_right hs53q (le_of_lt hposi)
      rw [← hsY] at h4
      nlinarith
    subst heq
    have hz : X / 2 ^ i < (s : ℚ) + 1 / 2 := by
      rw [div_lt_iff₀ hposi, add_mul, ← hsY]
      linarith
    have := roundHalfEven_le_of_lt_half _ s hz
    rw [← hrr] at this
    have hc3 : (r : ℚ) ≤ (s : ℚ) := by exact_mod_cast this
    rw [hr, hsY]
    exact mul_le_mul_of_nonneg_right hc3 (le_of_lt hposj)
  · refine le_antisymm (roundUnits_le X Y hX0 (le_of_lt hlt) hYb hY) ?_
    have hji : j ≤ i := by
      by_contra hc2
      have h1 := hb (by omega)
      have h2 := two_pow_step i j (by omega)
      linarith
    rcases Nat.eq_or_lt_of_le hji with heq | hlt2
    · subst heq
      have hz : (s : ℚ) - 1 / 2 < X / 2 ^ j := by
        rw [lt_div_iff₀ hposj, sub_mul, ← hsY]
        linarith
      have := roundHalfEven_ge_of_gt_half _ s hz
      rw [← hrr] at this
      have hc3 : (s : ℚ) ≤ (r : ℚ) := by exact_mod_cast this
      rw [hr, hsY]
      exact mul_le_mul_of_nonneg_right hc3 (le_of_lt hposj)
    · have hi1 : 1 ≤ i := by omega
      have h1 := hd hi1
      have h2 := two_pow_step j i (by omega)
      have hs52 : s = 2 ^ 52 := by
        by_contra hne
        have h3 : (2 : Int) ^ 52 + 1 ≤ s := by
          have := hs2 hi1
          omega
        have h4 : ((2 : ℚ) ^ 52 + 1) ≤ (s : ℚ) := by exact_mod_cast h3
        have h5 := mul_le_mul_of_nonneg_right h4 (le_of_lt hposi)
        rw [← hsY] at h5
        nlinarith
      have hY2 : Y = 2 ^ 52 * 2 ^ i := by
        rw [hsY, hs52]
        push_cast
        rfl
      have hji1 : j + 1 = i := by
        by_contra hne
        have h3 := two_pow_step (j + 1) i (by omega)
        have h4 : (2 : ℚ) ^ 53 * 2 ^ (j + 1) = 2 * (2 ^ 53 * 2 ^ j) := by ring
        have h5 : Y / 2 ^ 54 ≤ Y / 4 := by
          apply div_le_div_of_nonneg_left (le_of_lt hY0) (by norm_num) (by norm_num)
        nlinarith
      have hY3 : Y = 2 ^ 53 * 2 ^ j := by
        rw [hY2, ← hji1]
        ring
      have hz : (((2 : Int) ^ 53 : Int) : ℚ) - 1 / 2 < X / 2 ^ j := by
        rw [lt_div_iff₀ hposj, sub_mul]
        push_cast
        have h6 : Y / 2 ^ 54 = 2 ^ j / 2 := by
          rw [hY3]
          field_simp
          ring
        linarith
      have := roundHalfEven_ge_of_gt_half _ _ hz
      rw [← hrr] at this
      have hc3 : ((2 : ℚ) ^ 53) ≤ (r : ℚ) := by exact_mod_cast this
      rw [hr, hY3]
      exact mul_le_mul_of_nonneg_right hc3 (le_of_lt hposj)

theorem unitsPerOne_pos : 0 < unitsPerOne := by
  unfold unitsPerOne
  exact pow_pos (by norm_num) _

theorem units_lt_bound (x : ℚ) (hx : x < overflowBound) :
    x * unitsPerOne * 2 < unitsBound ∧ (2 : ℚ) ^ 54 < unitsBound := by
  have hS := unitsPerOne_pos
  have h1 : overflowBound * unitsPerOne * 2 < unitsBound := by
    unfold overflowBound unitsPerOne unitsBound
    rw [← pow_add, ← pow_succ]
    exact pow_lt_pow_right₀ (by norm_num : (1 : ℚ) < 2)
      (by norm_num : 1024 + 1074 + 1 < 4096)
  have h2 : (2 : ℚ) ^ 54 < unitsBound := by
    unfold unitsBound
    exact pow_lt_pow_right₀ (by norm_num : (1 : ℚ) < 2) (by norm_num : 54 < 4096)
  refine ⟨?_, h2⟩
  have := mul_lt_mul_of_pos_right hx hS
  linarith

theorem units_range (x : ℚ) (h0 : 0 ≤ x) (hx : x < overflowBound) :
    0 ≤ x * unitsPerOne ∧ x * unitsPerOne < unitsBound ∧ x * unitsPerOne * 2 < unitsBound ∧
      (2 : ℚ) ^ 54 < unitsBound := by
  have hS := unitsPerOne_pos
  obtain ⟨hb, hb2⟩ := units_lt_bound x hx
  have h1 : 0 ≤ x * unitsPerOne := mul_nonneg h0 (le_of_lt hS)
  exact ⟨h1, by linarith, hb, hb2⟩

theorem roundDouble_of_nonneg (x : ℚ) (h : 0 ≤ x) :
    roundDouble x = roundUnits (x * unitsPerOne) / unitsPerOne := by
  unfold roundDouble
  rw [if_pos h]

theorem roundDouble_of_neg (x : ℚ) (h : x < 0) :
    roundDouble x = -roundDouble (-x) := by
  have h2 : 0 ≤ -x := by linarith
  rw [roundDouble_of_nonneg _ h2]
  unfold roundDouble
  rw [if_neg (not_le.2 h)]

theorem roundDouble_zero : roundDouble 0 = 0 := by decide!

theorem roundDouble_nonneg (x : ℚ) (h0 : 0 ≤ x) (hx : x < overflowBound) :
    0 ≤ roundDouble x := by
  have hS := unitsPerOne_pos
  obtain ⟨hr0, hr1, _, _⟩ := units_range x h0 hx
  rw [roundDouble_of_nonneg x h0]
  exact div_nonneg (roundUnits_nonneg (x * unitsPerOne) hr0 hr1) (le_of_lt hS)

theorem roundDouble_nonpos (x : ℚ) (h0 : x ≤ 0) (hx : -x < overflowBound) :
    roundDouble x ≤ 0 := by
  rcases eq_or_lt_of_le h0 with h | h
  · rw [h, roundDouble_zero]
  · rw [roundDouble_of_neg x h]
    have := roundDouble_nonneg (-x) (by linarith) hx
    linarith

theorem roundDouble_error_nonneg (x : ℚ) (h0 : 0 ≤ x) (hx : x < overflowBound) :
    |roundDouble x - x| ≤ x / 2 ^ 53 + halfUnit := by
  have hS := unitsPerOne_pos
  obtain ⟨hr0, hr1, _, _⟩ := units_range x h0 hx
  have herr := roundUnits_error (x * unitsPerOne) hr0 hr1
  rw [roundDouble_of_nonneg x h0]
  have h1 : roundUnits (x * unitsPerOne) / unitsPerOne - x =
      (roundUnits (x * unitsPerOne) - x * unitsPerOne) / unitsPerOne := by
    rw [sub_div, mul_div_assoc, div_self (ne_of_gt hS), mul_one]
  rw [h1, abs_div, abs_of_pos hS, div_le_iff₀ hS]
  have h2 : (x / 2 ^ 53 + halfUnit) * unitsPerOne = x * unitsPerOne / 2 ^ 53 + 1 / 2 := by
    unfold halfUnit
    rw [add_mul, one_div, mul_inv, mul_assoc, inv_mul_cancel₀ (ne_of_gt hS)]
    ring
  rw [h2]
  exact herr

/-- The rounding error: at most the fraction 2^-53 of the magnitude, or half a unit. -/
theorem roundDouble_error (x : ℚ) (hx : |x| < overflowBound) :
    |roundDouble x - x| ≤ |x| / 2 ^ 53 + halfUnit := by
  rcases le_or_lt 0 x with h | h
  · rw [abs_of_nonneg h] at hx ⊢
    exact roundDouble_error_nonneg x h hx
  · rw [abs_of_neg h] at hx ⊢
    rw [roundDouble_of_neg x h]
    have := roundDouble_error_nonneg (-x) (by linarith) hx
    have h2 : -roundDouble (-x) - x = -(roundDouble (-x) - -x) := by ring
    rw [h2, abs_neg]
    exact this

/-- A non-negative double at or below `x` is at or below the rounded `x`. -/
theorem roundDouble_ge (x Q : ℚ) (hQ : IsDouble Q) (hQ0 : 0 ≤ Q) (hQx : Q ≤ x)
    (hx : x < overflowBound) : Q ≤ roundDouble x := by
  have hS := unitsPerOne_pos
  have hx0 : 0 ≤ x := le_trans hQ0 hQx
  obtain ⟨_, hr1, _, _⟩ := units_range x hx0 hx
  unfold IsDouble at hQ
  rw [roundDouble_of_nonneg Q hQ0, div_eq_iff (ne_of_gt hS)] at hQ
  rw [roundDouble_of_nonneg x hx0, le_div_iff₀ hS]
  exact roundUnits_ge _ _ (mul_nonneg hQ0 (le_of_lt hS))
    (mul_le_mul_of_nonneg_right hQx (le_of_lt hS)) hr1 hQ

/-- A non-negative double at or above `x` is at or above the rounded `x`. -/
theorem roundDouble_le (x Q : ℚ) (hQ : IsDouble Q) (hQ0 : 0 ≤ Q) (hxQ : x ≤ Q)
    (hQb : Q < overflowBound) (hxb : -x < overflowBound) : roundDouble x ≤ Q := by
  have hS := unitsPerOne_pos
  obtain ⟨_, hr1, _, _⟩ := units_range Q hQ0 hQb
  rcases le_or_lt 0 x with hx0 | hx0
  · unfold IsDouble at hQ
    rw [roundDouble_of_nonneg Q hQ0, div_eq_iff (ne_of_gt hS)] at hQ
    rw [roundDouble_of_nonneg x hx0, div_le_iff₀ hS]
    exact roundUnits_le _ _ (mul_nonneg hx0 (le_of_lt hS))
      (mul_le_mul_of_nonneg_right hxQ (le_of_lt hS)) hr1 hQ
  · exact le_trans (roundDouble_nonpos x (le_of_lt hx0) hxb) hQ0

/-- A value closer to the positive double `Q` than the fraction 2^-54 of `Q`
rounds to `Q`. -/
theorem roundDouble_near (x Q : ℚ) (hQ : IsDouble Q) (hQ0 : 0 < Q) (hQb : Q * 2 < overflowBound)
    (hnear : |x - Q| < Q / 2 ^ 54) : roundDouble x = Q := by
  have hS := unitsPerOne_pos
  obtain ⟨hn1, hn2⟩ := abs_lt.1 hnear
  have hQs : Q / 2 ^ 54 ≤ Q := div_le_self (le_of_lt hQ0) (by norm_num)
  have hx0 : 0 ≤ x := by linarith
  have hxb : x < overflowBound := by linarith
  obtain ⟨_, hr1, _, _⟩ := units_range x hx0 hxb
  obtain ⟨_, hr2, _, _⟩ := units_range Q (le_of_lt hQ0) (by linarith)
  unfold IsDouble at hQ
  rw [roundDouble_of_nonneg Q (le_of_lt hQ0), div_eq_iff (ne_of_gt hS)] at hQ
  rw [roundDouble_of_nonneg x hx0, div_eq_iff (ne_of_gt hS)]
  refine roundUnits_near _ _ (mul_pos hQ0 hS) hr1 hr2 hQ ?_
  have h1 : x * unitsPerOne - Q * unitsPerOne = (x - Q) * unitsPerOne := by ring
  have h2 : Q * unitsPerOne / 2 ^ 54 = Q / 2 ^ 54 * unitsPerOne := by ring
  rw [h1, h2, abs_mul, abs_of_pos hS]
  exact mul_lt_mul_of_pos_right hnear hS

/-- The rounded value is a double. -/
theorem isDouble_roundDouble (x : ℚ) (h0 : 0 ≤ x) (hx : x < overflowBound) :
    IsDouble (roundDouble x) := by
  have hS := unitsPerOne_pos
  obtain ⟨hr0, _, hb, hb2⟩ := units_range x h0 hx
  have hnn := roundDouble_nonneg x h0 hx
  unfold IsDouble
  rw [roundDouble_of_nonneg _ hnn, roundDouble_of_nonneg x h0,
    div_mul_cancel₀ _ (ne_of_gt hS), roundUnits_idem _ hr0 hb hb2]

theorem roundDouble_learningRate : roundDouble CONFIG.learningRate = 3602879701896397 / 36028797018963968 := by
  decide!

theorem roundDouble_discountFactor : roundDouble CONFIG.discountFactor = 4278419646001971 / 4503599627370496 := by
  decide!

/-- Two-sided bounds of the rounded value of a non-negative number. -/
theorem roundDouble_bounds_nonneg (x : ℚ) (h0 : 0 ≤ x) (hx : x < overflowBound) :
    x - x / 2 ^ 53 - halfUnit ≤ roundDouble x ∧ roundDouble x ≤ x + x / 2 ^ 53 + halfUnit ∧
      0 ≤ roundDouble x := by
  have h := roundDouble_error x (by rw [abs_of_nonneg h0]; exact hx)
  rw [abs_of_nonneg h0, abs_le] at h
  exact ⟨by linarith, by linarith, roundDouble_nonneg x h0 hx⟩

/-- Two-sided bounds of the rounded value of a non-positive number. -/
theorem roundDouble_bounds_nonpos (x : ℚ) (h0 : x ≤ 0) (hx : -x < overflowBound) :
    x + x / 2 ^ 53 - halfUnit ≤ roundDouble x ∧ roundDouble x ≤ x - x / 2 ^ 53 + halfUnit ∧
      roundDouble x ≤ 0 := by
  have h := roundDouble_error x (by rw [abs_of_nonpos h0]; exact hx)
  rw [abs_of_nonpos h0, abs_le] at h
  exact ⟨by linarith, by linarith, roundDouble_nonpos x h0 hx⟩

theorem reward_range (R : ℚ) (hlo : 1 / 2 ^ 900 ≤ R) (hhi : R ≤ 2 ^ 1000) :
    0 < R ∧ halfUnit ≤ R / 2 ^ 100 ∧ R * 64 < overflowBound := by
  have hpos : (0 : ℚ) < 1 / 2 ^ 900 := one_div_pos.2 (pow_pos (by norm_num) _)
  refine ⟨lt_of_lt_of_le hpos hlo, ?_, ?_⟩
  · have h1 : halfUnit ≤ 1 / 2 ^ 900 / 2 ^ 100 := by
      unfold halfUnit unitsPerOne
      rw [div_div, ← pow_add, ← pow_succ']
      exact one_div_le_one_div_of_le (pow_pos (by norm_num) _)
        (pow_le_pow_right₀ (by norm_num : (1 : ℚ) ≤ 2) (by norm_num : 900 + 100 ≤ 1074 + 1))
    exact le_trans h1 (div_le_div_of_nonneg_right hlo (le_of_lt (pow_pos (by norm_num) _)))
  · have h1 : (2 : ℚ) ^ 1000 * 64 < overflowBound := by
      unfold overflowBound
      have h64 : (64 : ℚ) = 2 ^ 6 := by norm_num
      rw [h64, ← pow_add]
      exact pow_lt_pow_right₀ (by norm_num : (1 : ℚ) < 2) (by norm_num : 1000 + 6 < 1024)
    have h2 : R * 64 ≤ 2 ^ 1000 * 64 := mul_le_mul_of_nonneg_right hhi (by norm_num)
    exact lt_of_le_of_lt h2 h1

/-- One update on doubles: the new value of a triple is not below the stored
one, positive, below 20 R and a double. -/
theorem newQDouble_bounds (R Q M : ℚ) (hlo : 1 / 2 ^ 900 ≤ R) (hhi : R ≤ 2 ^ 1000)
    (hQ : IsDouble Q) (hQ0 : 0 ≤ Q) (hQM : Q ≤ M) (hM : M < 20 * R) :
    Q ≤ newQDouble R Q M ∧ 0 < newQDouble R Q M ∧ newQDouble R Q M < 20 * R ∧
      IsDouble (newQDouble R Q M) := by
  obtain ⟨hR, hη, hO⟩ := reward_range R hlo hhi
  clear hlo hhi
  unfold newQDouble
  rw [roundDouble_learningRate, roundDouble_discountFactor]
  have hM0 : 0 ≤ M := le_trans hQ0 hQM
  obtain ⟨hG1, hG2, hG0⟩ := roundDouble_bounds_nonneg
    (4278419646001971 / 4503599627370496 * M) (by positivity) (by linarith)
  generalize roundDouble (4278419646001971 / 4503599627370496 * M) = G at hG1 hG2 hG0 ⊢
  obtain ⟨hT1, hT2, hT0⟩ := roundDouble_bounds_nonneg (R + G) (by linarith) (by linarith)
  generalize roundDouble (R + G) = T at hT1 hT2 hT0 ⊢
  rcases le_or_lt Q T with hQT | hTQ
  · obtain ⟨hE1, hE2, hE0⟩ := roundDouble_bounds_nonneg (T - Q) (by linarith) (by linarith)
    generalize roundDouble (T - Q) = E at hE1 hE2 hE0 ⊢
    obtain ⟨hP1, hP2, hP0⟩ := roundDouble_bounds_nonneg
      (3602879701896397 / 36028797018963968 * E) (by positivity) (by linarith)
    generalize roundDouble (3602879701896397 / 36028797018963968 * E) = P at hP1 hP2 hP0 ⊢
    obtain ⟨hN1, hN2, hN0⟩ := roundDouble_bounds_nonneg (Q + P) (by linarith) (by linarith)
    have hND : Q ≤ roundDouble (Q + P) :=
      roundDouble_ge (Q + P) Q hQ hQ0 (by linarith) (by linarith)
    have hID : IsDouble (roundDouble (Q + P)) :=
      isDouble_roundDouble (Q + P) (by linarith) (by linarith)
    refine ⟨hND, by linarith, ?_, hID⟩
    rcases le_or_lt (Q + P) (20 * R - 22 * R / 2 ^ 53) with hA | hB
    · linarith
    · have hnear : roundDouble (Q + P) = Q := by
        refine roundDouble_near (Q + P) Q hQ (by linarith) (by linarith) ?_
        rw [add_sub_cancel_left, abs_of_nonneg hP0]
        linarith
      rw [hnear]
      linarith
  · obtain ⟨hE1, hE2, hE0⟩ := roundDouble_bounds_nonpos (T - Q) (by linarith) (by linarith)
    generalize roundDouble (T - Q) = E at hE1 hE2 hE0 ⊢
    obtain ⟨hP1, hP2, hP0⟩ := roundDouble_bounds_nonpos
      (3602879701896397 / 36028797018963968 * E) (by linarith) (by linarith)
    generalize roundDouble (3602879701896397 / 36028797018963968 * E) = P at hP1 hP2 hP0 ⊢
    have hnear : roundDouble (Q + P) = Q := by
      refine roundDouble_near (Q + P) Q hQ (by linarith) (by linarith) ?_
      rw [add_sub_cancel_left, abs_of_nonpos hP0]
      linarith
    rw [hnear]
    exact ⟨le_rfl, by linarith, by linarith, hQ⟩

/-- One update on doubles of a triple that holds the best value of its state:
the new value differs from 0.995 v + 0.1 R by at most 26 R / 2^53. -/
theorem newQDouble_error (R v : ℚ) (hlo : 1 / 2 ^ 900 ≤ R) (hhi : R ≤ 2 ^ 1000)
    (h0 : 0 ≤ v) (hv : v < 20 * R) :
    |newQDouble R v v - (0.995 * v + 0.1 * R)| ≤ 26 * R / 2 ^ 53 := by
  obtain ⟨hR, hη, hO⟩ := reward_range R hlo hhi
  clear hlo hhi
  unfold newQDouble
  rw [roundDouble_learningRate, roundDouble_discountFactor]
  obtain ⟨hG1, hG2, hG0⟩ := roundDouble_bounds_nonneg
    (4278419646001971 / 4503599627370496 * v) (by positivity) (by linarith)
  generalize roundDouble (4278419646001971 / 4503599627370496 * v) = G at hG1 hG2 hG0 ⊢
  obtain ⟨hT1, hT2, hT0⟩ := roundDouble_bounds_nonneg (R + G) (by linarith) (by linarith)
  generalize roundDouble (R + G) = T at hT1 hT2 hT0 ⊢
  rcases le_or_lt v T with hQT | hTQ
  · obtain ⟨hE1, hE2, hE0⟩ := roundDouble_bounds_nonneg (T - v) (by linarith) (by linarith)
    generalize roundDouble (T - v) = E at hE1 hE2 hE0 ⊢
    obtain ⟨hP1, hP2, hP0⟩ := roundDouble_bounds_nonneg
      (3602879701896397 / 36028797018963968 * E) (by positivity) (by linarith)
    generalize roundDouble (3602879701896397 / 36028797018963968 * E) = P at hP1 hP2 hP0 ⊢
    obtain ⟨hN1, hN2, hN0⟩ := roundDouble_bounds_nonneg (v + P) (by linarith) (by linarith)
    rw [abs_le]
    constructor <;> linarith
  · obtain ⟨hE1, hE2, hE0⟩ := roundDouble_bounds_nonpos (T - v) (by linarith) (by linarith)
    generalize roundDouble (T - v) = E at hE1 hE2 hE0 ⊢
    obtain ⟨hP1, hP2, hP0⟩ := roundDouble_bounds_nonpos
      (3602879701896397 / 36028797018963968 * E) (by linarith) (by linarith)
    generalize roundDouble (3602879701896397 / 36028797018963968 * E) = P at hP1 hP2 hP0 ⊢
    obtain ⟨hN1, hN2, hN0⟩ := roundDouble_bounds_nonneg (v + P) (by linarith) (by linarith)
    rw [abs_le]
    constructor <;> linarith

/-! ## Theorems: repeated updates of one triple on doubles -/

/-- The new value written by `updateQValue` on doubles, from the stored value
and the best stored value of the state. -/
theorem updateQValueDouble_newQ (t : QTable) (u s : String) (m : Int) (r : ℚ) :
    (updateQValueDouble t u s m r).1.newQ =
      newQDouble r (storedValue t u s m) (maxFutureQ t u s) := by
  have h00 : (0.0 : ℚ) = 0 := by norm_num
  simp only [updateQValueDouble, storedValue, maxFutureQ, newQDouble, h00]

/-- The store written by `updateQValue` on doubles when the triple has no row yet. -/
theorem updateQValueDouble_store_absent (t : QTable) (u s : String) (m : Int) (r : ℚ)
    (hget : stmts.getQValue t u s m = none) :
    (updateQValueDouble t u s m r).2 =
      t ++ [{ user_uid := u, state_key := s, movie_id := m,
              q_value := (updateQValueDouble t u s m r).1.newQ, visit_count := 1,
              last_reward := r }] := by
  have hno := (getQValue_eq_none t u s m).1 hget
  have hany : t.any (fun e => decide (e.hasKey u s m)) = false := by
    rw [List.any_eq_false]; intro e he; simpa using hno e he
  simp [updateQValueDouble, stmts.upsertQValue, hget, hany]

/-- The store written by `updateQValue` on doubles when the triple already has a row. -/
theorem updateQValueDouble_store_present (t : QTable) (u s : String) (m : Int) (r : ℚ)
    (e0 : QRow) (hget : stmts.getQValue t u s m = some e0) :
    (updateQValueDouble t u s m r).2 =
      t.map (fun e =>
        if e.hasKey u s m then
          { e with q_value := (updateQValueDouble t u s m r).1.newQ,
                   visit_count := e0.visit_count + 1, last_reward := r }
        else e) := by
  obtain ⟨he0, hk0⟩ := getQValue_eq_some t u s m e0 hget
  have hany : t.any (fun e => decide (e.hasKey u s m)) = true := by
    rw [List.any_eq_true]; exact ⟨e0, he0, by simpa using hk0⟩
  simp [updateQValueDouble, stmts.upsertQValue, hget, hany]

/-- After `updateQValue` on doubles the stored value of the triple is the new value. -/
theorem storedValue_updateQValueDouble (t : QTable) (u s : String) (m : Int) (r : ℚ) :
    storedValue (updateQValueDouble t u s m r).2 u s m =
      (updateQValueDouble t u s m r).1.newQ := by
  cases hget : stmts.getQValue t u s m with
  | none =>
    rw [updateQValueDouble_store_absent t u s m r hget]
    unfold storedValue stmts.getQValue
    have hnone : t.find? (fun e => decide (e.hasKey u s m)) = none := hget
    rw [List.find?_append, hnone]
    simp [QRow.hasKey]
  | some e0 =>
    rw [updateQValueDouble_store_present t u s m r e0 hget]
    generalize (updateQValueDouble t u s m r).1.newQ = q
    unfold storedValue stmts.getQValue
    have hsome : t.find? (fun e => decide (e.hasKey u s m)) = some e0 := hget
    have hk0 := (getQValue_eq_some t u s m e0 hget).2
    rw [List.find?_map]
    have hcomp : ((fun e => decide (e.hasKey u s m)) ∘ fun e : QRow =>
        if e.hasKey u s m then
          ({ e with q_value := q, visit_count := e0.visit_count + 1, last_reward := r } : QRow)
        else e) = fun e => decide (e.hasKey u s m) := by
      funext e
      rw [Function.comp_apply]
      by_cases hk : e.hasKey u s m
      · rw [if_pos hk]
        exact decide_eq_decide.2 ⟨fun _ => hk, fun _ => hk⟩
      · rw [if_neg hk]
    rw [hcomp, hsome]
    simp only [Option.map_some', if_pos hk0]

/-- A row of the store after `updateQValue` on doubles is an untouched row of
another triple, or the row of the triple with the new value and one more visit. -/
theorem mem_updateQValueDouble_key (t : QTable) (u s : String) (m : Int) (r : ℚ) (e : QRow)
    (he : e ∈ (updateQValueDouble t u s m r).2) :
    (e ∈ t ∧ ¬ e.hasKey u s m) ∨
      (e.hasKey u s m ∧ e.q_value = (updateQValueDouble t u s m r).1.newQ ∧
        e.visit_count = storedVisits t u s m + 1) := by
  unfold storedVisits
  cases hget : stmts.getQValue t u s m with
  | none =>
    have hno := (getQValue_eq_none t u s m).1 hget
    rw [updateQValueDouble_store_absent t u s m r hget] at he
    rcases List.mem_append.1 he with h | h
    · exact Or.inl ⟨h, hno e h⟩
    · rw [List.mem_singleton.1 h]
      exact Or.inr ⟨⟨rfl, rfl, rfl⟩, rfl, rfl⟩
  | some e0 =>
    rw [updateQValueDouble_store_present t u s m r e0 hget] at he
    obtain ⟨a, ha, rfl⟩ := List.mem_map.1 he
    by_cases hk : a.hasKey u s m
    · rw [if_pos hk]
      exact Or.inr ⟨hk, rfl, rfl⟩
    · rw [if_neg hk]
      exact Or.inl ⟨ha, hk⟩

/-- After `updateQValue` on doubles the triple has a row. -/
theorem exists_key_updateQValueDouble (t : QTable) (u s : String) (m : Int) (r : ℚ) :
    ∃ e ∈ (updateQValueDouble t u s m r).2, e.hasKey u s m := by
  cases hget : stmts.getQValue t u s m with
  | none =>
    rw [updateQValueDouble_store_absent t u s m r hget]
    exact ⟨_, List.mem_append_right _ (List.mem_singleton_self _), rfl, rfl, rfl⟩
  | some e0 =>
    obtain ⟨he0, hk0⟩ := getQValue_eq_some t u s m e0 hget
    rw [updateQValueDouble_store_present t u s m r e0 hget]
    refine ⟨_, List.mem_map.2 ⟨e0, he0, rfl⟩, ?_⟩
    rw [if_pos hk0]
    exact hk0

/-- One update on doubles keeps every value of the state in `[0, 20 R)`, does
not lower the value of the triple, and leaves it a positive double. -/
theorem updateQValueDouble_step_bounds (t : QTable) (u s : String) (m : Int) (R : ℚ)
    (hlo : 1 / 2 ^ 900 ≤ R) (hhi : R ≤ 2 ^ 1000)
    (hinv : ∀ e ∈ t, e.inState u s → 0 ≤ e.q_value ∧ e.q_value < 20 * R)
    (hdbl : IsDouble (storedValue t u s m)) :
    (∀ e ∈ (updateQValueDouble t u s m R).2, e.inState u s →
      0 ≤ e.q_value ∧ e.q_value < 20 * R) ∧
    IsDouble (storedValue (updateQValueDouble t u s m R).2 u s m) ∧
    storedValue t u s m ≤ storedValue (updateQValueDouble t u s m R).2 u s m ∧
    0 < storedValue (updateQValueDouble t u s m R).2 u s m ∧
    storedValue (updateQValueDouble t u s m R).2 u s m < 20 * R := by
  have hR : 0 < R := (reward_range R hlo hhi).1
  have hM : 0 ≤ maxFutureQ t u s ∧ maxFutureQ t u s < 20 * R := by
    rcases maxFutureQ_cases t u s with ⟨_, h0⟩ | ⟨⟨e, he, hin, hq⟩, _⟩
    · rw [h0]; exact ⟨le_refl _, by linarith⟩
    · rw [← hq]; exact hinv e he hin
  have hv : 0 ≤ storedValue t u s m ∧ storedValue t u s m ≤ maxFutureQ t u s := by
    rcases storedValue_cases t u s m with ⟨_, h0⟩ | ⟨e, he, hk, hq⟩
    · rw [h0]; exact ⟨le_refl _, hM.1⟩
    · have hin : e.inState u s := ⟨hk.1, hk.2.1⟩
      refine ⟨hq ▸ (hinv e he hin).1, ?_⟩
      rcases maxFutureQ_cases t u s with ⟨hnost, _⟩ | ⟨_, hmax⟩
      · exact absurd hin (hnost e he)
      · rw [hq]; exact hmax e he hin
  obtain ⟨hb1, hb2, hb3, hb4⟩ := newQDouble_bounds R (storedValue t u s m) (maxFutureQ t u s)
    hlo hhi hdbl hv.1 hv.2 hM.2
  rw [storedValue_updateQValueDouble, updateQValueDouble_newQ]
  refine ⟨?_, hb4, hb1, hb2, hb3⟩
  intro e he hin
  rcases mem_updateQValueDouble_key t u s m R e he with ⟨het, _⟩ | ⟨_, hq, _⟩
  · exact hinv e het hin
  · rw [hq, updateQValueDouble_newQ]; exact ⟨le_of_lt hb2, hb3⟩

theorem updateQValueDoubleTimes_inv (t : QTable) (u s : String) (m : Int) (R : ℚ)
    (hlo : 1 / 2 ^ 900 ≤ R) (hhi : R ≤ 2 ^ 1000)
    (hinv : ∀ e ∈ t, e.inState u s → 0 ≤ e.q_value ∧ e.q_value < 20 * R)
    (hdbl : IsDouble (storedValue t u s m)) (n : Nat) :
    (∀ e ∈ updateQValueDoubleTimes t u s m R n, e.inState u s →
      0 ≤ e.q_value ∧ e.q_value < 20 * R) ∧
    IsDouble (storedValue (updateQValueDoubleTimes t u s m R n) u s m) := by
  induction n with
  | zero => exact ⟨hinv, hdbl⟩
  | succ k ih =>
    have h := updateQValueDouble_step_bounds _ u s m R hlo hhi ih.1 ih.2
    exact ⟨h.1, h.2.1⟩

/-- C13, as stated, fails, on the doubles the program computes with.  The
triple (u1, s, 1) has no entry and the reward is 1.  When another item of the
same state holds the value 1000, respectively -1000, one update gives the
triple a value near 95.1, which is not below 20, respectively near -94.9, which
is neither positive nor greater than the value 0 before.  When another item of
the state holds the largest double below 20, the value of the triple after 329
updates is the value after 328 updates, not a greater one.  And with the
smallest positive double as the reward, in an empty store, the value after one
update is 0, which is not positive. -/
theorem updateQValueTimes_counterexample :
    (∀ e ∈ exOther 1000, ¬ e.hasKey "u1" "s" 1) ∧
    storedValue (updateQValueDoubleTimes (exOther 1000) "u1" "s" 1 1 1) "u1" "s" 1 =
      6692067571295847 / 70368744177664 ∧
    ((1 : ℚ) / (1 - 0.95) = 20) ∧
    (∀ e ∈ exOther (-1000), ¬ e.hasKey "u1" "s" 1) ∧
    storedValue (updateQValueDoubleTimes (exOther (-1000)) "u1" "s" 1 1 1) "u1" "s" 1 =
      -3338996911230157 / 35184372088832 ∧
    (∀ e ∈ exOther (5629499534213119 / 281474976710656), ¬ e.hasKey "u1" "s" 1) ∧
    IsDouble (5629499534213119 / 281474976710656) ∧
    (5629499534213119 / 281474976710656 : ℚ) < 20 ∧
    storedValue (updateQValueDoubleTimes (exOther (5629499534213119 / 281474976710656))
      "u1" "s" 1 1 329) "u1" "s" 1 =
      storedValue (updateQValueDoubleTimes (exOther (5629499534213119 / 281474976710656))
        "u1" "s" 1 1 328) "u1" "s" 1 ∧
    IsDouble (1 / 2 ^ 1074) ∧
    storedValue (updateQValueDoubleTimes [] "u1" "s" 1 (1 / 2 ^ 1074) 1) "u1" "s" 1 = 0 := by
  decide!

/-- C13, amended: for every value store in which the (user, state, item)
triple has no entry yet and every entry of that (user, state) for another item
has a value in [0, 20R), every constant reward R with 2^-900 ≤ R ≤ 2^1000 and
every n ≥ 1: the value of the triple after n successive `updateQValue` calls
with reward R, computed on doubles as the program computes it, is not smaller
than its value after n-1 calls (0 before the first), is positive, and is
strictly below R / (1 - 0.95) = 20R. -/
theorem updateQValueDoubleTimes_bounds (t : QTable) (u s : String) (m : Int) (R : ℚ)
    (hnone : ∀ e ∈ t, ¬ e.hasKey u s m)
    (hother : ∀ e ∈ t, e.inState u s → 0 ≤ e.q_value ∧ e.q_value < 20 * R)
    (hlo : 1 / 2 ^ 900 ≤ R) (hhi : R ≤ 2 ^ 1000) (n : Nat) (hn : 1 ≤ n) :
    storedValue (updateQValueDoubleTimes t u s m R 0) u s m = 0 ∧
    storedValue (updateQValueDoubleTimes t u s m R (n - 1)) u s m ≤
      storedValue (updateQValueDoubleTimes t u s m R n) u s m ∧
    0 < storedValue (updateQValueDoubleTimes t u s m R n) u s m ∧
    storedValue (updateQValueDoubleTimes t u s m R n) u s m < R / (1 - 0.95) ∧
    R / (1 - 0.95) = 20 * R := by
  have h20 : R / (1 - 0.95) = 20 * R := by norm_num; ring
  have hzero : storedValue t u s m = 0 := by
    rcases storedValue_cases t u s m with ⟨_, h0⟩ | ⟨e, he, hk, _⟩
    · exact h0
    · exact absurd hk (hnone e he)
  have hdbl : IsDouble (storedValue t u s m) := by
    rw [hzero]
    exact roundDouble_zero
  obtain ⟨k, rfl⟩ : ∃ k, n = k + 1 := ⟨n - 1, by omega⟩
  have hinv := updateQValueDoubleTimes_inv t u s m R hlo hhi hother hdbl k
  have hstep := updateQValueDouble_step_bounds (updateQValueDoubleTimes t u s m R k) u s m R
    hlo hhi hinv.1 hinv.2
  refine ⟨hzero, hstep.2.2.1, hstep.2.2.2.1, ?_, h20⟩
  rw [h20]
  exact hstep.2.2.2.2

/-- C13, at a concrete store: a second item of the state holds the value 3,
the reward is 1, and the second update does not lower the value of the triple,
which stays below 20. -/
theorem updateQValueDoubleTimes_bounds_witness :
    storedValue (updateQValueDoubleTimes (exOther 3) "u1" "s" 1 1 1) "u1" "s" 1 ≤
      storedValue (updateQValueDoubleTimes (exOther 3) "u1" "s" 1 1 2) "u1" "s" 1 ∧
    storedValue (updateQValueDoubleTimes (exOther 3) "u1" "s" 1 1 2) "u1" "s" 1 <
      1 / (1 - 0.95) :=
  have h := updateQValueDoubleTimes_bounds (exOther 3) "u1" "s" 1 1 (by decide)
    (by
      intro e he _
      have he2 := List.mem_singleton.1 he
      rw [he2]
      norm_num [exOther])
    (by decide!) (by decide!) 2 (by norm_num)
  ⟨h.2.1, h.2.2.2.1⟩


/-- C14: for every reward R, one update of a triple that has no prior entry in
a state whose best stored value is 0 (the state has no entry, or its largest
value is 0) produces the new value 0.1 * R exactly, which is then the stored
value of the triple; R = 1.0 gives 0.1. -/
theorem updateQValue_first (t : QTable) (u s : String) (m : Int) (R : ℚ)
    (hnone : ∀ e ∈ t, ¬ e.hasKey u s m)
    (hbest : ∀ e ∈ t, e.inState u s → e.q_value ≤ 0)
    (hzero : (∀ e ∈ t, ¬ e.inState u s) ∨ ∃ e ∈ t, e.inState u s ∧ e.q_value = 0) :
    (updateQValue t u s m R).1.oldQ = 0 ∧
    (updateQValue t u s m R).1.newQ = 0.1 * R ∧
    storedValue (updateQValue t u s m R).2 u s m = 0.1 * R ∧
    (R = 1.0 → (updateQValue t u s m R).1.newQ = 0.1) := by
  have hget := (getQValue_eq_none t u s m).2 hnone
  have hsv : storedValue t u s m = 0 := by unfold storedValue; rw [hget]
  have hM : maxFutureQ t u s = 0 := by
    rcases maxFutureQ_cases t u s with ⟨_, h0⟩ | ⟨⟨e, he, hin, hq⟩, hmax⟩
    · exact h0
    · apply le_antisymm
      · rw [← hq]; exact hbest e he hin
      · rcases hzero with hno | ⟨e0, he0, hin0, hq0⟩
        · exact absurd hin (hno e he)
        · rw [← hq0]; exact hmax e0 he0 hin0
  have hnew : (updateQValue t u s m R).1.newQ = 0.1 * R := by
    rw [updateQValue_newQ, hsv, hM]; norm_num
  refine ⟨?_, hnew, ?_, ?_⟩
  · norm_num [updateQValue, hget]
  · rw [storedValue_updateQValue, hnew]
  · intro hR
    rw [hnew, hR]; norm_num

/-- C14, at the empty store with reward 1. -/
theorem updateQValue_first_witness :
    (updateQValue [] "u1" "s" 1 1.0).1.newQ = 0.1 :=
  (updateQValue_first [] "u1" "s" 1 1.0 (fun _ he => absurd he (List.not_mem_nil _))
    (fun _ he => absurd he (List.not_mem_nil _))
    (Or.inl (fun _ he => absurd he (List.not_mem_nil _)))).2.2.2 rfl


/-! ## Theorems: malformed rating values -/

/-- Without a digit after the white space and the sign, `parseInt` gives `NaN`. -/
theorem parseInt_no_digit (v : String)
    (h : (parseSign (v.toList.dropWhile isStrWhiteSpaceChar)).2 = [] ∨
      ∃ c rest, (parseSign (v.toList.dropWhile isStrWhiteSpaceChar)).2 = c :: rest ∧
        c.isDigit = false) :
    parseInt v = none := by
  unfold parseInt
  dsimp only
  rcases h with h | ⟨c, rest, h, hc⟩
  · rw [h]
    simp [parseRadix, readDigits]
  · rw [h]
    have hrad : parseRadix (c :: rest) = (10, c :: rest) := by
      unfold parseRadix
      split
      · rename_i heq; injection heq with h1 _; subst h1; exact absurd hc (by decide)
      · rename_i heq; injection heq with h1 _; subst h1; exact absurd hc (by decide)
      · rfl
    rw [hrad]
    simp [readDigits, digitValue, hc]

/-- C15, as stated, fails: `5 stars` and `4.9` are not integer numerals, yet
`parseInt` reads their leading digits and the reward is 2.0, not -1.0. -/
theorem calculateReward_malformed_counterexample :
    parseInt "5 stars" = some 5 ∧ calculateReward "rating" "5 stars" = 2.0 ∧
    parseInt "4.9" = some 4 ∧ calculateReward "rating" "4.9" = 2.0 := by
  decide!

theorem white_iff (c : Char) : isStrWhiteSpaceChar c = true ↔ c.toNat ∈ whiteSpaceCodes := by
  unfold isStrWhiteSpaceChar whiteSpaceCodes
  simp only [Bool.or_eq_true, Bool.and_eq_true, decide_eq_true_eq, List.mem_cons,
    List.mem_singleton, List.not_mem_nil, or_false]
  omega

/-- Leading white space is dropped up to the first character that is none. -/
theorem dropWhile_white (ws tail : List Char) (hws : ∀ c ∈ ws, c.toNat ∈ whiteSpaceCodes)
    (htail : ∀ c ∈ tail.head?, c.toNat ∉ whiteSpaceCodes) :
    (ws ++ tail).dropWhile isStrWhiteSpaceChar = tail := by
  induction ws with
  | nil =>
    cases tail with
    | nil => rfl
    | cons c cs =>
      have hc : isStrWhiteSpaceChar c = false := by
        have := htail c (by simp)
        rw [← white_iff] at this
        simpa using this
      rw [List.nil_append, List.dropWhile_cons, hc]
      rfl
  | cons w ws ih =>
    have hw : isStrWhiteSpaceChar w = true := (white_iff w).2 (hws w (List.mem_cons_self _ _))
    rw [List.cons_append, List.dropWhile_cons, hw]
    exact ih (fun c hc => hws c (List.mem_cons_of_mem _ hc))

/-- Reading digits stops at a character that is no digit of the radix. -/
theorem readDigits_stop (radix : Nat) (rest : List Char) (acc : Option Nat)
    (h : ∀ c ∈ rest.head?, digitValue radix c = none) : readDigits radix rest acc = acc := by
  cases rest with
  | nil => rfl
  | cons c cs => rw [readDigits, h c (by simp)]

/-- The number denoted by a run of digits of a radix, whatever follows it. -/
theorem readDigits_run (radix : Nat) (val : Char → Nat) (ds rest : List Char)
    (hd : ∀ c ∈ ds, digitValue radix c = some (val c))
    (hrest : ∀ c ∈ rest.head?, digitValue radix c = none) (a : Nat) :
    readDigits radix (ds ++ rest) (some a) =
      some (a * radix ^ ds.length + Nat.ofDigits radix (ds.reverse.map val)) := by
  induction ds generalizing a with
  | nil =>
    rw [List.nil_append, readDigits_stop radix rest _ hrest]
    simp
  | cons c cs ih =>
    have hc := hd c (List.mem_cons_self _ _)
    have hcs : ∀ x ∈ cs, digitValue radix x = some (val x) :=
      fun x hx => hd x (List.mem_cons_of_mem _ hx)
    rw [List.cons_append, readDigits, hc]
    simp only [Option.getD_some]
    rw [ih hcs]
    simp only [List.reverse_cons, List.map_append, List.map_cons, List.map_nil,
      Nat.ofDigits_append, Nat.ofDigits_singleton, List.length_map, List.length_reverse,
      List.length_cons]
    congr 1
    ring

/-- The same for a non-empty run read from the start. -/
theorem readDigits_run_none (radix : Nat) (val : Char → Nat) (ds rest : List Char)
    (hne : ds ≠ []) (hd : ∀ c ∈ ds, digitValue radix c = some (val c))
    (hrest : ∀ c ∈ rest.head?, digitValue radix c = none) :
    readDigits radix (ds ++ rest) none =
      some (Nat.ofDigits radix (ds.reverse.map val)) := by
  obtain ⟨c, cs, rfl⟩ := List.exists_cons_of_ne_nil hne
  have hc := hd c (List.mem_cons_self _ _)
  have hcs : ∀ x ∈ cs, digitValue radix x = some (val x) :=
    fun x hx => hd x (List.mem_cons_of_mem _ hx)
  rw [List.cons_append, readDigits, hc]
  simp only [Option.getD_none]
  rw [readDigits_run radix val cs rest hcs hrest]
  simp only [List.reverse_cons, List.map_append, List.map_cons, List.map_nil,
    Nat.ofDigits_append, Nat.ofDigits_singleton, List.length_map, List.length_reverse]
  congr 1
  ring

theorem digitValue_hex (c : Char) (h : IsHexDigit c) : digitValue 16 c = some (hexValue c) := by
  unfold digitValue hexValue
  by_cases hd : c.isDigit = true
  · simp [hd]
  · have hd2 : c.isDigit = false := by simpa using hd
    rcases h with h | h | h
    · exact absurd h hd
    · simp [hd2, h.1, h.2]
    · have h3 : ¬ (97 ≤ c.toNat) := by omega
      simp [hd2, h.1, h.2, h3]

theorem digitValue_not_hex (c : Char) (h : ¬ IsHexDigit c) : digitValue 16 c = none := by
  unfold IsHexDigit at h
  simp only [not_or] at h
  obtain ⟨h1, h2, h3⟩ := h
  unfold digitValue
  simp [h1, h2, h3]

theorem digitValue_not_digit (c : Char) (h : c.isDigit = false) : digitValue 10 c = none := by
  unfold digitValue
  simp [h]

/-- What `parseInt` does after the white space and the sign of a string. -/
theorem parseInt_body (ws sign body : List Char) (hws : ∀ c ∈ ws, c.toNat ∈ whiteSpaceCodes)
    (hs : sign = [] ∨ sign = ['+'] ∨ sign = ['-'])
    (hbody : sign = [] → ∀ c ∈ body.head?, c.toNat ∉ whiteSpaceCodes ∧ c ≠ '+' ∧ c ≠ '-') :
    parseInt (String.mk (ws ++ sign ++ body)) =
      match readDigits (parseRadix body).1 (parseRadix body).2 none with
      | some n => some (signValue sign * (n : Int))
      | none => none := by
  have htl : (String.mk (ws ++ sign ++ body)).toList = ws ++ (sign ++ body) := by
    show ws ++ sign ++ body = _
    rw [List.append_assoc]
  unfold parseInt
  dsimp only
  rw [htl]
  rcases hs with rfl | rfl | rfl
  · have hb := hbody rfl
    rw [List.nil_append, dropWhile_white ws body hws (fun c hc => (hb c hc).1)]
    have hsign : parseSign body = (1, body) := by
      unfold parseSign
      split
      · exact absurd rfl (hb '-' (by simp)).2.2
      · exact absurd rfl (hb '+' (by simp)).2.1
      · rfl
    rw [hsign]
    simp [signValue]
  · rw [dropWhile_white ws (['+'] ++ body) hws (by intro c hc; simp at hc; subst hc; decide)]
    simp [parseSign, signValue]
  · rw [dropWhile_white ws (['-'] ++ body) hws (by intro c hc; simp at hc; subst hc; decide)]
    simp [parseSign, signValue]

theorem calculateReward_bucket (v : String) (n : Int) (h : parseInt v = some n) :
    calculateReward "rating" v = ratingBucket n := by
  rw [calculateReward_rating, h]
  unfold ratingBucket
  dsimp only
  by_cases h4 : n ≥ 4
  · rw [if_pos h4, if_pos h4]; norm_num
  · rw [if_neg h4, if_neg h4]
    by_cases h3 : n = 3
    · rw [if_pos h3, if_pos h3]; norm_num
    · rw [if_neg h3, if_neg h3]; norm_num

theorem calculateReward_nan (v : String) (h : parseInt v = none) :
    calculateReward "rating" v = -1.0 := by
  rw [calculateReward_rating, h]; norm_num

/-- C15, amended: for every event value string in which no digit follows the
optional leading white space and the optional sign (for example '' or 'abc'),
`calculateReward('rating', value)` returns -1.0, the negative bucket; a string
that starts, after them, with a decimal numeral (for example '5 stars' or
'4.9') is rated by the integer that numeral denotes, whatever follows it, a
numeral that starts with `0x` or `0X` being read as hexadecimal; the function
returns a reward for every string. -/
theorem calculateReward_malformed :
    (∀ ws sign rest : List Char, (∀ c ∈ ws, c.toNat ∈ whiteSpaceCodes) →
      (sign = [] ∨ sign = ['+'] ∨ sign = ['-']) →
      (∀ c ∈ rest.head?, c.isDigit = false ∧
        (sign = [] → c.toNat ∉ whiteSpaceCodes ∧ c ≠ '+' ∧ c ≠ '-')) →
      calculateReward "rating" (String.mk (ws ++ sign ++ rest)) = -1.0) ∧
    (∀ ws sign ds rest : List Char, (∀ c ∈ ws, c.toNat ∈ whiteSpaceCodes) →
      (sign = [] ∨ sign = ['+'] ∨ sign = ['-']) →
      ds ≠ [] → (∀ c ∈ ds, c.isDigit = true) → (∀ c ∈ rest.head?, c.isDigit = false) →
      ¬ (ds = ['0'] ∧ (rest.head? = some 'x' ∨ rest.head? = some 'X')) →
      calculateReward "rating" (String.mk (ws ++ sign ++ (ds ++ rest))) =
        ratingBucket (signValue sign *
          ((Nat.ofDigits 10 (ds.reverse.map (fun c => c.toNat - 48)) : Nat) : Int))) ∧
    (∀ (ws sign : List Char) (x : Char) (hs rest : List Char),
      (∀ c ∈ ws, c.toNat ∈ whiteSpaceCodes) →
      (sign = [] ∨ sign = ['+'] ∨ sign = ['-']) → (x = 'x' ∨ x = 'X') →
      (∀ c ∈ hs, IsHexDigit c) → (∀ c ∈ rest.head?, ¬ IsHexDigit c) →
      calculateReward "rating" (String.mk (ws ++ sign ++ ('0' :: x :: (hs ++ rest)))) =
        if hs = [] then -1.0
        else ratingBucket (signValue sign *
          ((Nat.ofDigits 16 (hs.reverse.map hexValue) : Nat) : Int))) ∧
    calculateReward "rating" "" = -1.0 ∧ calculateReward "rating" "abc" = -1.0 ∧
    calculateReward "rating" "5 stars" = 2.0 ∧ calculateReward "rating" "4.9" = 2.0 ∧
    calculateReward "rating" " \t\n3rd" = 0.5 ∧ calculateReward "rating" "-5" = -1.0 ∧
    calculateReward "rating" "0x10" = 2.0 ∧ calculateReward "rating" "0x" = -1.0 := by
  refine ⟨?_, ?_, ?_, by decide!, by decide!, by decide!, by decide!, by decide!, by decide!,
    by decide!, by decide!⟩
  · intro ws sign rest hws hs hrest
    apply calculateReward_nan
    rw [parseInt_body ws sign rest hws hs (fun h c hc => (hrest c hc).2 h)]
    have hrad : parseRadix rest = (10, rest) := by
      unfold parseRadix
      split
      · exact absurd (hrest '0' (by simp)).1 (by decide)
      · exact absurd (hrest '0' (by simp)).1 (by decide)
      · rfl
    rw [hrad]
    dsimp only
    rw [readDigits_stop 10 rest none
      (fun c hc => digitValue_not_digit c (hrest c hc).1)]
  · intro ws sign ds rest hws hs hne hd hrest hhex
    apply calculateReward_bucket
    obtain ⟨d, ds2, rfl⟩ := List.exists_cons_of_ne_nil hne
    have hdd := hd d (List.mem_cons_self _ _)
    have hbody : sign = [] → ∀ c ∈ ((d :: ds2) ++ rest).head?,
        c.toNat ∉ whiteSpaceCodes ∧ c ≠ '+' ∧ c ≠ '-' := by
      intro _ c hc
      have hcd : c = d := by simpa using hc.symm
      subst hcd
      refine ⟨?_, ?_, ?_⟩
      · rw [← white_iff, not_white_of_isDigit c hdd]; simp
      · intro h; rw [h] at hdd; exact absurd hdd (by decide)
      · intro h; rw [h] at hdd; exact absurd hdd (by decide)
    rw [parseInt_body ws sign _ hws hs hbody]
    have hrad : parseRadix ((d :: ds2) ++ rest) = (10, (d :: ds2) ++ rest) := by
      unfold parseRadix
      split
      · rename_i r heq
        rw [List.cons_append] at heq
        injection heq with h1 h2
        cases ds2 with
        | nil =>
          rw [List.nil_append] at h2
          exact absurd ⟨by rw [h1], Or.inl (by rw [h2]; rfl)⟩ hhex
        | cons e es =>
          rw [List.cons_append] at h2
          injection h2 with h3 _
          have := hd e (by simp)
          rw [h3] at this
          exact absurd this (by decide)
      · rename_i r heq
        rw [List.cons_append] at heq
        injection heq with h1 h2
        cases ds2 with
        | nil =>
          rw [List.nil_append] at h2
          exact absurd ⟨by rw [h1], Or.inr (by rw [h2]; rfl)⟩ hhex
        | cons e es =>
          rw [List.cons_append] at h2
          injection h2 with h3 _
          have := hd e (by simp)
          rw [h3] at this
          exact absurd this (by decide)
      · rfl
    rw [hrad]
    dsimp only
    rw [readDigits_run_none 10 (fun c => c.toNat - 48) (d :: ds2) rest (List.cons_ne_nil _ _)
      (fun c hc => digitValue_of_isDigit c (hd c hc))
      (fun c hc => digitValue_not_digit c (hrest c hc))]
  · intro ws sign x hs rest hws hsg hx hhs hrest
    have hbody : sign = [] → ∀ c ∈ ('0' :: x :: (hs ++ rest)).head?,
        c.toNat ∉ whiteSpaceCodes ∧ c ≠ '+' ∧ c ≠ '-' := by
      intro _ c hc
      have hcd : c = '0' := by simpa using hc.symm
      subst hcd
      decide
    have hrad : parseRadix ('0' :: x :: (hs ++ rest)) = (16, hs ++ rest) := by
      rcases hx with rfl | rfl <;> rfl
    have hp := parseInt_body ws sign ('0' :: x :: (hs ++ rest)) hws hsg hbody
    rw [hrad] at hp
    dsimp only at hp
    by_cases hnil : hs = []
    · rw [if_pos hnil]
      apply calculateReward_nan
      rw [hp, hnil, List.nil_append, readDigits_stop 16 rest none
        (fun c hc => digitValue_not_hex c (hrest c hc))]
    · rw [if_neg hnil]
      apply calculateReward_bucket
      rw [hp, readDigits_run_none 16 hexValue hs rest hnil
        (fun c hc => digitValue_hex c (hhs c hc))
        (fun c hc => digitValue_not_hex c (hrest c hc))]

theorem getUserByUid_eq_none (db : Db) (uid : String) :
    stmts.getUserByUid db uid = none ↔ ∀ u ∈ db.users, u.user_uid ≠ uid := by
  unfold stmts.getUserByUid
  simp [List.find?_eq_none]

/-- C16: when no profile exists for the user id, `learn` returns `null`
without raising and leaves the database, hence the event log and the value
store, unchanged, and `getRecommendations` called without a profile returns
the empty list. -/
theorem learn_unknown_user (db : Db) (now hour : Nat) (fault : Option Stmt) (userUid : String)
    (movieId : Int) (eventType eventValue : String) (context : Context)
    (hno : ∀ u ∈ db.users, u.user_uid ≠ userUid) (hf : fault ≠ some Stmt.getUserByUid) :
    learn db now hour fault userUid movieId eventType eventValue context
      = (LearnOutcome.null, db) ∧
    (∀ (rand : Nat → ℚ) (allMovies : List Movie) (count : Nat),
      getRecommendations db hour rand userUid allMovies count none = []) := by
  have hget := (getUserByUid_eq_none db userUid).2 hno
  constructor
  · unfold learn
    rw [if_neg hf, hget]
  · intro rand allMovies count
    unfold getRecommendations getRecommendations.profile
    rw [hget]

/-- C16, at a database without users. -/
theorem learn_unknown_user_witness :
    (learn exDb 0 0 none "u1" 1 "click" "" {}).1 = LearnOutcome.null ∧
    getRecommendations exDb 0 (fun _ => 0) "u1" [exMovie 1 0 1] 8 none = [] :=
  have h := learn_unknown_user exDb 0 0 none "u1" 1 "click" "" {}
    (fun _ hu => absurd hu (List.not_mem_nil _)) (by decide)
  ⟨by rw [h.1], h.2 _ _ _⟩


/-- An event appended to a log is among the `k` most recent events when fewer
than `k` events of the log are at least as recent. -/
theorem mem_take_recent (l : List Interaction) (x : Interaction) (k : Nat)
    (h : (l.filter (fun i => decide (x.created_at ≤ i.created_at))).length < k) :
    x ∈ ((l ++ [x]).insertionSort createdDesc).take k := by
  have hmem : x ∈ (l ++ [x]).insertionSort createdDesc :=
    (List.mem_insertionSort createdDesc).2 (List.mem_append_right _ (List.mem_singleton_self _))
  obtain ⟨A, B, hAB⟩ := List.append_of_mem hmem
  have hsorted : (A ++ x :: B).Sorted createdDesc :=
    hAB ▸ List.sorted_insertionSort createdDesc (l ++ [x])
  have hA : ∀ a ∈ A, decide (x.created_at ≤ a.created_at) = true := by
    intro a ha
    have := (List.pairwise_append.1 hsorted).2.2 a ha x (List.mem_cons_self _ _)
    simpa [createdDesc] using this
  have hcount : List.countP (fun i => decide (x.created_at ≤ i.created_at)) (A ++ x :: B) =
      List.countP (fun i => decide (x.created_at ≤ i.created_at)) (l ++ [x]) :=
    (hAB ▸ List.perm_insertionSort createdDesc (l ++ [x])).countP_eq _
  have hcA : List.countP (fun i => decide (x.created_at ≤ i.created_at)) A = A.length :=
    List.countP_eq_length.2 hA
  have hlen : A.length < k := by
    have h1 : List.countP (fun i => decide (x.created_at ≤ i.created_at)) (x :: B) =
        List.countP (fun i => decide (x.created_at ≤ i.created_at)) B + 1 :=
      by simp [List.countP_cons]
    have h2 : List.countP (fun i => decide (x.created_at ≤ i.created_at)) [x] = 1 := by simp
    rw [List.countP_append, List.countP_append, hcA, h1, h2] at hcount
    rw [← List.countP_eq_length_filter] at h
    omega
  rw [hAB, List.take_append_eq_append_take]
  apply List.mem_append_right
  obtain ⟨j, hj⟩ : ∃ j, k - A.length = j + 1 := ⟨k - A.length - 1, by omega⟩
  rw [hj, List.take_succ_cons]
  exact List.mem_cons_self _ _


/-- C17, as stated, fails.  For the known user `u1` the kind `ignore`, for
which the engine holds a reward weight, is refused by the `CHECK` constraint of
the event log: `learn` raises and appends nothing.  And after 50 events tagged
`Drama` created in the same second as the call (time 100), or with a later time
stamp (time 200), the new event tagged `Action` is not among the 50 most recent
events, and the state key keeps the genre `Drama`. -/
theorem learn_known_user_counterexample :
    (learn exDbUser 100 0 none "u1" 1 "ignore" "" {}).1 = LearnOutcome.raised ∧
    (learn exDbUser 100 0 none "u1" 1 "ignore" "" {}).2.interactions = [] ∧
    ((learn (exDbBurst 100) 100 0 none "u1" 99 "view" "" { genre := some "Action" }).2.interactions.length
        = 51 ∧
      (stmts.getUserInteractions
        (learn (exDbBurst 100) 100 0 none "u1" 99 "view" "" { genre := some "Action" }).2
        "u1" 50).all (fun i => decide (i.context_genre = "Drama")) = true ∧
      (learn (exDbBurst 100) 100 0 none "u1" 99 "view" "" { genre := some "Action" }).1 =
        LearnOutcome.result
          { stateKey := "Drama|any|night", movieId := 99, reward := 0.5, oldQ := 0,
            newQ := 0.05, tdError := 0.5 }) ∧
    ((stmts.getUserInteractions
        (learn (exDbBurst 200) 100 0 none "u1" 99 "view" "" { genre := some "Action" }).2
        "u1" 50).all (fun i => decide (i.context_genre = "Drama")) = true ∧
      (learn (exDbBurst 200) 100 0 none "u1" 99 "view" "" { genre := some "Action" }).1 =
        LearnOutcome.result
          { stateKey := "Drama|any|night", movieId := 99, reward := 0.5, oldQ := 0,
            newQ := 0.05, tdError := 0.5 }) := by
  decide!


theorem logInteraction_valid (db : Db) (now : Nat) (userUid : String) (movieId : Int)
    (eventType eventValue : String) (context : Context) (hk : eventType ∈ eventTypes) :
    stmts.logInteraction db now userUid movieId eventType eventValue (context.genre.getD "")
      (context.experience.getD "") (context.source.getD "") (context.duration.getD 0) =
      some { db with
        interactions := db.interactions ++
          [learnEvent now userUid movieId eventType eventValue context] } := by
  unfold stmts.logInteraction learnEvent
  rw [if_pos hk]

theorem logInteraction_invalid (db : Db) (now : Nat) (userUid : String) (movieId : Int)
    (eventType eventValue : String) (context : Context) (hk : eventType ∉ eventTypes) :
    stmts.logInteraction db now userUid movieId eventType eventValue (context.genre.getD "")
      (context.experience.getD "") (context.source.getD "") (context.duration.getD 0) =
      none := by
  unfold stmts.logInteraction
  rw [if_neg hk]

/-- What `learn` returns and writes when no statement fails, for a known user
and an admitted event kind. -/
theorem learn_success (db : Db) (now hour : Nat) (userUid : String) (movieId : Int)
    (eventType eventValue : String) (context : Context) (p : User)
    (hp : stmts.getUserByUid db userUid = some p) (hk : eventType ∈ eventTypes) :
      learn db now hour none userUid movieId eventType eventValue context =
        (LearnOutcome.result
          { stateKey := encodeState p
              (stmts.getUserInteractions
                { db with interactions := db.interactions ++
                    [learnEvent now userUid movieId eventType eventValue context] }
                userUid 50) hour,
            movieId := movieId,
            reward := calculateReward eventType eventValue,
            oldQ := (updateQValue db.rl_qtable userUid
              (encodeState p
                (stmts.getUserInteractions
                  { db with interactions := db.interactions ++
                      [learnEvent now userUid movieId eventType eventValue context] }
                  userUid 50) hour) movieId (calculateReward eventType eventValue)).1.oldQ,
            newQ := (updateQValue db.rl_qtable userUid
              (encodeState p
                (stmts.getUserInteractions
                  { db with interactions := db.interactions ++
                      [learnEvent now userUid movieId eventType eventValue context] }
                  userUid 50) hour) movieId (calculateReward eventType eventValue)).1.newQ,
            tdError := (updateQValue db.rl_qtable userUid
              (encodeState p
                (stmts.getUserInteractions
                  { db with interactions := db.interactions ++
                      [learnEvent now userUid movieId eventType eventValue context] }
                  userUid 50) hour) movieId (calculateReward eventType eventValue)).1.tdError },
         { db with
           interactions := db.interactions ++
             [learnEvent now userUid movieId eventType eventValue context],
           rl_qtable := (updateQValue db.rl_qtable userUid
              (encodeState p
                (stmts.getUserInteractions
                  { db with interactions := db.interactions ++
                      [learnEvent now userUid movieId eventType eventValue context] }
                  userUid 50) hour) movieId (calculateReward eventType eventValue)).2 }) := by
  unfold learn
  rw [if_neg (by decide), hp]
  dsimp only
  rw [if_neg (by decide), logInteraction_valid db now userUid movieId eventType eventValue
    context hk]
  dsimp only
  rw [if_neg (by decide), if_neg (by decide)]
  simp [updateQValue]

/-- C17, amended: for a known user and an event kind among the six kinds the
event log admits, `learn` appends exactly one event carrying the given item,
kind, value and context tags (missing tags stored as '' and missing duration as
0), and the state key it returns and updates is `encodeState(profile, W)` where
`W` is the 50 most recent events of the user in the log after that append; the
new event is one of them, so that its own tags take part in the state, whenever
fewer than 50 earlier events of the user carry a time stamp at or after its
own; the returned reward is `calculateReward(kind, value)` and
oldQ/newQ/tdError are those of `updateQValue` on that state key.  For a kind
outside the six, the append is refused, `learn` raises and writes nothing. -/
theorem learn_known_user (db : Db) (now hour : Nat) (userUid : String) (movieId : Int)
    (eventType eventValue : String) (context : Context) (p : User)
    (hp : stmts.getUserByUid db userUid = some p) :
    (eventType ∈ eventTypes →
      learn db now hour none userUid movieId eventType eventValue context =
        (LearnOutcome.result
          { stateKey := encodeState p
              (stmts.getUserInteractions
                { db with interactions := db.interactions ++
                    [learnEvent now userUid movieId eventType eventValue context] }
                userUid 50) hour,
            movieId := movieId,
            reward := calculateReward eventType eventValue,
            oldQ := (updateQValue db.rl_qtable userUid
              (encodeState p
                (stmts.getUserInteractions
                  { db with interactions := db.interactions ++
                      [learnEvent now userUid movieId eventType eventValue context] }
                  userUid 50) hour) movieId (calculateReward eventType eventValue)).1.oldQ,
            newQ := (updateQValue db.rl_qtable userUid
              (encodeState p
                (stmts.getUserInteractions
                  { db with interactions := db.interactions ++
                      [learnEvent now userUid movieId eventType eventValue context] }
                  userUid 50) hour) movieId (calculateReward eventType eventValue)).1.newQ,
            tdError := (updateQValue db.rl_qtable userUid
              (encodeState p
                (stmts.getUserInteractions
                  { db with interactions := db.interactions ++
                      [learnEvent now userUid movieId eventType eventValue context] }
                  userUid 50) hour) movieId (calculateReward eventType eventValue)).1.tdError },
         { db with
           interactions := db.interactions ++
             [learnEvent now userUid movieId eventType eventValue context],
           rl_qtable := (updateQValue db.rl_qtable userUid
              (encodeState p
                (stmts.getUserInteractions
                  { db with interactions := db.interactions ++
                      [learnEvent now userUid movieId eventType eventValue context] }
                  userUid 50) hour) movieId (calculateReward eventType eventValue)).2 })) ∧
    ((db.interactions.filter
        (fun i => decide (i.user_uid = userUid ∧ now ≤ i.created_at))).length < 50 →
      learnEvent now userUid movieId eventType eventValue context ∈
        stmts.getUserInteractions
          { db with interactions := db.interactions ++
              [learnEvent now userUid movieId eventType eventValue context] }
          userUid 50) ∧
    (eventType ∉ eventTypes →
      learn db now hour none userUid movieId eventType eventValue context =
        (LearnOutcome.raised, db)) := by
  refine ⟨?_, ?_, ?_⟩
  · exact learn_success db now hour userUid movieId eventType eventValue context p hp
  · intro hlt
    unfold stmts.getUserInteractions
    dsimp only
    have hfilter : (db.interactions ++
        [learnEvent now userUid movieId eventType eventValue context]).filter
          (fun i => decide (i.user_uid = userUid)) =
        db.interactions.filter (fun i => decide (i.user_uid = userUid)) ++
          [learnEvent now userUid movieId eventType eventValue context] := by
      rw [List.filter_append]
      simp [learnEvent]
    rw [hfilter]
    apply mem_take_recent
    have hff : (db.interactions.filter (fun i => decide (i.user_uid = userUid))).filter
        (fun i => decide ((learnEvent now userUid movieId eventType eventValue
          context).created_at ≤ i.created_at)) =
        db.interactions.filter
          (fun i => decide (i.user_uid = userUid ∧ now ≤ i.created_at)) := by
      rw [List.filter_filter]
      congr 1
      funext i
      simp [learnEvent, Bool.and_comm]
    rw [hff]
    exact hlt
  · intro hk
    unfold learn
    rw [if_neg (by decide), hp]
    dsimp only
    rw [if_neg (by decide), logInteraction_invalid db now userUid movieId eventType eventValue
      context hk]

/-- C17, at a concrete call: the user `u1` clicks movie 5 under the genre tag
`Action`. -/
theorem learn_known_user_witness :
    (learn exDbUser 100 10 none "u1" 5 "click" "" { genre := some "Action" }).2.interactions =
      [{ user_uid := "u1", movie_id := 5, event_type := "click", event_value := "",
         context_genre := "Action", context_experience := "", context_source := "",
         duration_ms := 0, created_at := 100 }] := by
  rw [(learn_known_user exDbUser 100 10 "u1" 5 "click" "" { genre := some "Action" }
    (exUser (some 20)) rfl).1 (by decide)]
  rfl


/-- C18, as stated, fails.  The statements of `learn` run one after another
outside any transaction: for the known user `u1`, when the value-store write
fails, `learn` raises, the event log, empty before the call, holds the new
event, and the value store is as before the call. -/
theorem learn_partial_commit_counterexample :
    (learn exDbUser 100 10 (some Stmt.upsertQValue) "u1" 5 "click" "" {}).1 =
      LearnOutcome.raised ∧
    exDbUser.interactions = [] ∧
    (learn exDbUser 100 10 (some Stmt.upsertQValue) "u1" 5 "click" "" {}).2.interactions =
      [{ user_uid := "u1", movie_id := 5, event_type := "click", event_value := "",
         context_genre := "", context_experience := "", context_source := "",
         duration_ms := 0, created_at := 100 }] ∧
    (learn exDbUser 100 10 (some Stmt.upsertQValue) "u1" 5 "click" "" {}).2.rl_qtable =
      exDbUser.rl_qtable := by
  decide!

/-- C18, amended: `learn` rolls nothing back.  For a known user: if the profile
lookup or the event append fails, or the event kind is refused by the log,
`learn` fails and the database is as before the call; if, for an admitted kind,
a step after the event append fails (the read of the recent events, or the
value-store read or write), `learn` fails, the event log keeps the appended
event and the value store is as before the call; if no step fails, `learn`
returns a result, the event is recorded and the value entry is updated. -/
theorem learn_fault (db : Db) (now hour : Nat) (fault : Option Stmt) (userUid : String)
    (movieId : Int) (eventType eventValue : String) (context : Context) (p : User)
    (hp : stmts.getUserByUid db userUid = some p) :
    ((fault = some Stmt.getUserByUid ∨ fault = some Stmt.logInteraction ∨
        eventType ∉ eventTypes) →
      learn db now hour fault userUid movieId eventType eventValue context =
        (LearnOutcome.raised, db)) ∧
    (eventType ∈ eventTypes →
      (fault = some Stmt.getUserInteractions ∨ fault = some Stmt.getQValue ∨
        fault = some Stmt.getTopQValues ∨ fault = some Stmt.upsertQValue) →
      learn db now hour fault userUid movieId eventType eventValue context =
        (LearnOutcome.raised,
          { db with interactions := db.interactions ++
              [learnEvent now userUid movieId eventType eventValue context] })) ∧
    (eventType ∈ eventTypes → fault = none →
      ∃ r : LearnResult,
        learn db now hour fault userUid movieId eventType eventValue context =
          (LearnOutcome.result r,
            { db with
              interactions := db.interactions ++
                [learnEvent now userUid movieId eventType eventValue context],
              rl_qtable := (updateQValue db.rl_qtable userUid r.stateKey movieId
                (calculateReward eventType eventValue)).2 })) := by
  refine ⟨?_, ?_, ?_⟩
  · intro h
    unfold learn
    by_cases h1 : fault = some Stmt.getUserByUid
    · rw [if_pos h1]
    · rw [if_neg h1, hp]
      dsimp only
      by_cases h2 : fault = some Stmt.logInteraction
      · rw [if_pos h2]
      · rw [if_neg h2]
        have hk : eventType ∉ eventTypes := by
          rcases h with h | h | h
          · exact absurd h h1
          · exact absurd h h2
          · exact h
        rw [logInteraction_invalid db now userUid movieId eventType eventValue context hk]
  · intro hk h
    have h1 : fault ≠ some Stmt.getUserByUid := by
      rcases h with h | h | h | h <;> rw [h] <;> decide
    have h2 : fault ≠ some Stmt.logInteraction := by
      rcases h with h | h | h | h <;> rw [h] <;> decide
    unfold learn
    rw [if_neg h1, hp]
    dsimp only
    rw [if_neg h2, logInteraction_valid db now userUid movieId eventType eventValue context hk]
    dsimp only
    by_cases h3 : fault = some Stmt.getUserInteractions
    · rw [if_pos h3]
    · rw [if_neg h3]
      have h4 : fault = some Stmt.getQValue ∨ fault = some Stmt.getTopQValues ∨
          fault = some Stmt.upsertQValue := by
        rcases h with h | h
        · exact absurd h h3
        · exact h
      rw [if_pos h4]
  · intro hk h
    rw [h]
    exact ⟨_, learn_success db now hour userUid movieId eventType eventValue context p hp hk⟩

/-- C18, at a concrete call: the value-store write fails for the click of the
user `u1` on movie 5. -/
theorem learn_fault_witness :
    learn exDbUser 100 10 (some Stmt.upsertQValue) "u1" 5 "click" "" {} =
      (LearnOutcome.raised,
        { exDbUser with interactions := exDbUser.interactions ++
            [learnEvent 100 "u1" 5 "click" "" {}] }) :=
  (learn_fault exDbUser 100 10 (some Stmt.upsertQValue) "u1" 5 "click" "" {}
    (exUser (some 20)) rfl).2.1 (by decide) (Or.inr (Or.inr (Or.inr rfl)))


/-! ## Theorems: the dominant tags of `encodeState` -/

theorem topEntry_nil : topEntry [] = none := rfl

theorem genreCounts_untagged (recentInteractions : List Interaction)
    (h : ∀ e ∈ recentInteractions, e.context_genre = "") :
    encodeState.genreCounts recentInteractions = [] := by
  unfold encodeState.genreCounts
  generalize ([] : List (String × TallyVal)) = acc
  induction recentInteractions generalizing acc with
  | nil => rfl
  | cons e es ih =>
    rw [List.foldl_cons, if_neg (not_not.2 (h e (List.mem_cons_self _ _)))]
    exact ih (fun x hx => h x (List.mem_cons_of_mem _ hx)) acc

theorem expCounts_untagged (recentInteractions : List Interaction)
    (h : ∀ e ∈ recentInteractions, e.context_experience = "") :
    encodeState.expCounts recentInteractions = [] := by
  unfold encodeState.expCounts
  generalize ([] : List (String × TallyVal)) = acc
  induction recentInteractions generalizing acc with
  | nil => rfl
  | cons e es ih =>
    rw [List.foldl_cons, if_neg (not_not.2 (h e (List.mem_cons_self _ _)))]
    exact ih (fun x hx => h x (List.mem_cons_of_mem _ hx)) acc

/-- The fallback of `encodeState` to the stored preferred-genre value takes its
first entry, where it has one. -/
theorem genreFallback (userProfile : User) (recentInteractions : List Interaction)
    (d : String)
    (hd : (if recentInteractions.length > 0 then
        match topEntry (encodeState.genreCounts recentInteractions) with
        | some topGenre => topGenre.1
        | none => "general"
      else "general") = d) :
    encodeState.dominantGenre userProfile recentInteractions =
      if d = "general" then (firstPreferred userProfile).getD d else d := by
  unfold encodeState.dominantGenre
  dsimp only
  rw [hd]
  by_cases hg : d = "general"
  · rw [if_pos hg, if_pos hg]
    unfold firstPreferred
    cases userProfile.preferred_genres with
    | absent => rfl
    | malformed => rfl
    | scalar => rfl
    | list gs =>
      cases gs with
      | nil => rfl
      | cons g gs => rfl
    | array items =>
      cases items with
      | nil => rfl
      | cons x xs => rfl
    | text t =>
      dsimp only
      cases t.toList with
      | nil => rfl
      | cons c cs => rfl
    | object l z =>
      cases l with
      | false => rfl
      | true =>
        cases z with
        | none => rfl
        | some x => rfl
  · rw [if_neg hg, if_neg hg]

/-- C20, as stated, fails: with no event at all, a profile whose stored
preferred-genre text is the JSON string `Drama`, which is no list, gets the
genre component `D`, not the sentinel; a stored object whose `length` is above
0 and that has no property `0` gives `undefined`. -/
theorem encodeState_fallback_counterexample :
    encodeState.dominantGenre (exUserStored (PrefGenres.text "Drama")) [] = "D" ∧
    encodeState (exUserStored (PrefGenres.text "Drama")) [] 10 = "D|any|morning" ∧
    encodeState.dominantGenre (exUserStored (PrefGenres.object true none)) [] = "undefined" := by
  decide!

/-- C20, amended: when no recent event carries a genre tag, the genre
component of the key of `encodeState` is the first entry of the profile's
stored preferred-genre value, as a text, where that value has one (the first
entry of a stored non-empty array, the first character of a stored non-empty
string, the property `0` of a stored object whose `length` compares greater
than 0; the entry is taken to have a text), and the sentinel `general`
otherwise (also when the stored text is missing or cannot be parsed); when no recent event carries an experience tag,
the experience component is the profile's preferred experience tag if present,
and the sentinel `any` otherwise; the key is the genre component, the
experience component and the time slot joined by `|`. -/
theorem encodeState_fallback (userProfile : User) (recentInteractions : List Interaction)
    (hour : Nat) :
    ((∀ e ∈ recentInteractions, e.context_genre = "") →
      encodeState.dominantGenre userProfile recentInteractions =
        match firstPreferred userProfile with
        | some g => g
        | none => "general") ∧
    (∀ gs, userProfile.preferred_genres = PrefGenres.list gs →
      firstPreferred userProfile = gs.head?) ∧
    ((userProfile.preferred_genres = PrefGenres.absent ∨
        userProfile.preferred_genres = PrefGenres.malformed) →
      firstPreferred userProfile = none) ∧
    ((∀ e ∈ recentInteractions, e.context_experience = "") →
      encodeState.dominantExperience userProfile recentInteractions =
        if userProfile.preferred_experience ≠ "" then userProfile.preferred_experience
        else "any") ∧
    encodeState userProfile recentInteractions hour =
      encodeState.dominantGenre userProfile recentInteractions ++ "|" ++
        encodeState.dominantExperience userProfile recentInteractions ++ "|" ++
        timeSlot hour := by
  refine ⟨?_, ?_, ?_, ?_, rfl⟩
  · intro h
    rw [genreFallback userProfile recentInteractions "general"
      (by rw [genreCounts_untagged recentInteractions h, topEntry_nil]; simp), if_pos rfl]
    cases firstPreferred userProfile <;> rfl
  · intro gs hgs
    unfold firstPreferred
    rw [hgs]
  · intro h
    unfold firstPreferred
    rcases h with h | h <;> rw [h]
  · intro h
    unfold encodeState.dominantExperience
    rw [expCounts_untagged recentInteractions h, topEntry_nil]
    by_cases hx : userProfile.preferred_experience = ""
    · simp [hx]
    · simp [hx]

/-- C20, at concrete inputs: an untagged event, for a profile with preferences
and for one without. -/
theorem encodeState_fallback_witness :
    encodeState exUserPrefs [exTagged "" ""] 10 = "Comedy|calm|morning" ∧
    encodeState (exUser (some 20)) [exTagged "" ""] 10 = "general|any|morning" := by
  have h1 := encodeState_fallback exUserPrefs [exTagged "" ""] 10
  have h2 := encodeState_fallback (exUser (some 20)) [exTagged "" ""] 10
  constructor
  · rw [h1.2.2.2.2, h1.1 (by decide), h1.2.2.2.1 (by decide)]
    decide
  · rw [h2.2.2.2.2, h2.1 (by decide), h2.2.2.2.1 (by decide)]
    decide

theorem genreCounts_eq_tally (recentInteractions : List Interaction) :
    encodeState.genreCounts recentInteractions =
      (genreTags recentInteractions).foldl tallyAdd [] := by
  unfold encodeState.genreCounts genreTags
  generalize ([] : List (String × TallyVal)) = acc
  induction recentInteractions generalizing acc with
  | nil => rfl
  | cons e es ih =>
    rw [List.foldl_cons, List.map_cons]
    by_cases he : e.context_genre = ""
    · rw [if_neg (not_not.2 he), List.filter_cons_of_neg (by simp [he])]
      exact ih acc
    · rw [if_pos he, List.filter_cons_of_pos (by simp [he]), List.foldl_cons]
      exact ih _

theorem expCounts_eq_tally (recentInteractions : List Interaction) :
    encodeState.expCounts recentInteractions =
      (experienceTags recentInteractions).foldl tallyAdd [] := by
  unfold encodeState.expCounts experienceTags
  generalize ([] : List (String × TallyVal)) = acc
  induction recentInteractions generalizing acc with
  | nil => rfl
  | cons e es ih =>
    rw [List.foldl_cons, List.map_cons]
    by_cases he : e.context_experience = ""
    · rw [if_neg (not_not.2 he), List.filter_cons_of_neg (by simp [he])]
      exact ih acc
    · rw [if_pos he, List.filter_cons_of_pos (by simp [he]), List.foldl_cons]
      exact ih _

/-- A key of the tally after one more tag is that tag or a key it had. -/
theorem mem_tallyAdd (counts : List (String × TallyVal)) (key : String) (p : String × TallyVal)
    (hp : p ∈ tallyAdd counts key) : p.1 = key ∨ ∃ q ∈ counts, q.1 = p.1 := by
  unfold tallyAdd at hp
  split_ifs at hp with h1 h2 h3
  · obtain ⟨q, hq, rfl⟩ := List.mem_map.1 hp
    refine Or.inr ⟨q, hq, ?_⟩
    split_ifs <;> rfl
  · exact Or.inr ⟨p, hp, rfl⟩
  · rcases List.mem_append.1 hp with h | h
    · exact Or.inr ⟨p, h, rfl⟩
    · rw [List.mem_singleton.1 h]; exact Or.inl rfl
  · rcases List.mem_append.1 hp with h | h
    · exact Or.inr ⟨p, h, rfl⟩
    · rw [List.mem_singleton.1 h]; exact Or.inl rfl

/-- Every key of the tally object is one of the tags. -/
theorem tally_keys (tags : List String) : ∀ p ∈ tags.foldl tallyAdd [], p.1 ∈ tags := by
  induction tags using List.reverseRecOn with
  | nil => intro p hp; exact absurd hp (List.not_mem_nil _)
  | append_singleton l t ih =>
    intro p hp
    rw [List.foldl_append, List.foldl_cons, List.foldl_nil] at hp
    rcases mem_tallyAdd _ _ p hp with h | ⟨q, hq, hqp⟩
    · rw [h]; exact List.mem_append_right _ (List.mem_singleton_self _)
    · rw [← hqp]; exact List.mem_append_left _ (ih q hq)

/-- For a tag that names nothing inherited, the tally object counts as a
counter does. -/
theorem tallyAdd_num (c : List (String × Nat)) (t : String) (ht : t ∉ objectPrototypeNames) :
    tallyAdd (c.map numEntry) t = (countAdd c t).map numEntry := by
  have h1 : t ≠ "__proto__" := fun h => ht (by rw [h]; exact List.mem_cons_self _ _)
  have h2 : t ∉ inheritedFunctions := fun h => ht (List.mem_cons_of_mem _ h)
  have hany : (c.map numEntry).any (fun p => decide (p.1 = t)) =
      c.any (fun p => decide (p.1 = t)) := by
    induction c with
    | nil => rfl
    | cons x xs ih =>
      rw [List.map_cons, List.any_cons, List.any_cons, ih]
      rfl
  unfold tallyAdd countAdd
  rw [hany]
  by_cases ha : c.any (fun p => decide (p.1 = t)) = true
  · rw [if_pos ha, if_pos ha, List.map_map, List.map_map]
    apply List.map_congr_left
    intro p _
    simp only [Function.comp_apply]
    by_cases hk : p.1 = t
    · have hk2 : (numEntry p).1 = t := hk
      rw [if_pos hk, if_pos hk2]
      rfl
    · have hk2 : ¬ (numEntry p).1 = t := hk
      rw [if_neg hk, if_neg hk2]
  · rw [if_neg ha, if_neg ha, if_neg h1, if_neg h2, List.map_append]
    rfl

theorem tally_eq_count (tags : List String) (h : ∀ t ∈ tags, t ∉ objectPrototypeNames) :
    tags.foldl tallyAdd [] = (tags.foldl countAdd []).map numEntry := by
  have hgen : ∀ acc : List (String × Nat),
      tags.foldl tallyAdd (acc.map numEntry) = (tags.foldl countAdd acc).map numEntry := by
    induction tags with
    | nil => intro acc; rfl
    | cons t ts ih =>
      intro acc
      rw [List.foldl_cons, List.foldl_cons, tallyAdd_num acc t (h t (List.mem_cons_self _ _))]
      exact ih (fun x hx => h x (List.mem_cons_of_mem _ hx)) _
  exact hgen []

/-- The counting tally after a pass over `tags`: its keys stand in the order of
their first occurrence, and each key carries the number of its occurrences. -/
theorem tally_spec (tags : List String) :
    (tags.foldl countAdd []).Pairwise
        (fun a b => tags.indexOf a.1 < tags.indexOf b.1) ∧
      (∀ p ∈ tags.foldl countAdd [], p.1 ∈ tags ∧ p.2 = tags.count p.1) ∧
      (∀ t ∈ tags, (t, tags.count t) ∈ tags.foldl countAdd []) := by
  induction tags using List.reverseRecOn with
  | nil => simp
  | append_singleton l t ih =>
    obtain ⟨ih1, ih2, ih3⟩ := ih
    rw [List.foldl_append, List.foldl_cons, List.foldl_nil]
    generalize hc : l.foldl countAdd [] = c at ih1 ih2 ih3
    have hidx : ∀ p ∈ c, (l ++ [t]).indexOf p.1 = l.indexOf p.1 := fun p hp =>
      List.indexOf_append_of_mem (ih2 p hp).1
    by_cases ht : t ∈ l
    · have hany : c.any (fun p => decide (p.1 = t)) = true :=
        List.any_eq_true.2 ⟨(t, l.count t), ih3 t ht, by simp⟩
      unfold countAdd
      rw [if_pos hany]
      refine ⟨?_, ?_, ?_⟩
      · rw [List.pairwise_map]
        refine List.Pairwise.imp_of_mem ?_ ih1
        intro a b ha hb hab
        have h1 : (if a.1 = t then (a.1, a.2 + 1) else a).1 = a.1 := by split_ifs <;> rfl
        have h2 : (if b.1 = t then (b.1, b.2 + 1) else b).1 = b.1 := by split_ifs <;> rfl
        rw [h1, h2, hidx a ha, hidx b hb]
        exact hab
      · intro p hp
        obtain ⟨q, hq, hqp⟩ := List.mem_map.1 hp
        obtain ⟨hq1, hq2⟩ := ih2 q hq
        by_cases hqt : q.1 = t
        · rw [if_pos hqt] at hqp
          subst hqp
          refine ⟨List.mem_append_left _ hq1, ?_⟩
          show q.2 + 1 = (l ++ [t]).count q.1
          rw [List.count_append, hqt, List.count_singleton, hq2, hqt]
          simp
        · rw [if_neg hqt] at hqp
          subst hqp
          refine ⟨List.mem_append_left _ hq1, ?_⟩
          rw [List.count_append, List.count_singleton, hq2]
          have : ¬ (t == q.1) = true := by simpa using (fun h => hqt h.symm)
          rw [if_neg this]
          rfl
      · intro x hx
        have hxl : x ∈ l := by
          rcases List.mem_append.1 hx with h | h
          · exact h
          · rw [List.mem_singleton.1 h]
            exact ht
        refine List.mem_map.2 ⟨(x, l.count x), ih3 x hxl, ?_⟩
        by_cases hxt : x = t
        · rw [if_pos hxt, List.count_append, List.count_singleton, hxt]
          simp
        · rw [if_neg hxt, List.count_append, List.count_singleton]
          have : ¬ (t == x) = true := by simpa using (fun h => hxt h.symm)
          rw [if_neg this]
          rfl
    · have hany : ¬ c.any (fun p => decide (p.1 = t)) = true := by
        intro h
        obtain ⟨p, hp, hpt⟩ := List.any_eq_true.1 h
        have hpt2 : p.1 = t := by simpa using hpt
        exact ht (hpt2 ▸ (ih2 p hp).1)
      unfold countAdd
      rw [if_neg hany]
      have hcount : l.count t = 0 := List.count_eq_zero_of_not_mem ht
      refine ⟨?_, ?_, ?_⟩
      · rw [List.pairwise_append]
        refine ⟨?_, List.pairwise_singleton _ _, ?_⟩
        · refine List.Pairwise.imp_of_mem ?_ ih1
          intro a b ha hb hab
          rw [hidx a ha, hidx b hb]
          exact hab
        · intro a ha b hb
          rw [List.mem_singleton.1 hb, hidx a ha]
          show l.indexOf a.1 < (l ++ [t]).indexOf t
          rw [List.indexOf_append_of_not_mem ht]
          have := List.indexOf_lt_length.2 (ih2 a ha).1
          omega
      · intro p hp
        rcases List.mem_append.1 hp with h | h
        · obtain ⟨hq1, hq2⟩ := ih2 p h
          refine ⟨List.mem_append_left _ hq1, ?_⟩
          rw [List.count_append, List.count_singleton, hq2]
          have : ¬ (t == p.1) = true := by
            simpa using (fun h2 : t = p.1 => ht (h2 ▸ hq1))
          rw [if_neg this]
          rfl
        · rw [List.mem_singleton.1 h]
          refine ⟨List.mem_append_right _ (List.mem_singleton_self _), ?_⟩
          show 1 = (l ++ [t]).count t
          rw [List.count_append, List.count_singleton, hcount]
          simp
      · intro x hx
        rcases List.mem_append.1 hx with h | h
        · refine List.mem_append_left _ ?_
          have hxt : ¬ (t == x) = true := by
            simpa using (fun h2 : t = x => ht (h2 ▸ h))
          rw [List.count_append, List.count_singleton, if_neg hxt]
          exact ih3 x h
        · rw [List.mem_singleton.1 h]
          refine List.mem_append_right _ ?_
          rw [List.count_append, List.count_singleton, hcount]
          simp

theorem objectEntries_no_index {α : Type} (counts : List (String × α))
    (h : ∀ p ∈ counts, arrayIndex p.1 = none) : objectEntries counts = counts := by
  unfold objectEntries
  have h1 : counts.filter (fun p => (arrayIndex p.1).isSome) = [] :=
    List.filter_eq_nil_iff.2 (fun p hp => by rw [h p hp]; simp)
  have h2 : counts.filter (fun p => !(arrayIndex p.1).isSome) = counts :=
    List.filter_eq_self.2 (fun p hp => by rw [h p hp]; rfl)
  rw [h1, h2]
  rfl

/-- The first entry after the stable sort by descending count is an entry of
maximal count that stands before every other entry of that count. -/
theorem head_insertionSort_byCountDesc (R : String × Nat → String × Nat → Prop)
    (l : List (String × Nat)) (hl : l ≠ []) (hR : l.Pairwise R) :
    ∃ h, (l.insertionSort byCountDesc).head? = some h ∧ h ∈ l ∧ (∀ x ∈ l, x.2 ≤ h.2) ∧
      (∀ x ∈ l, x.2 = h.2 → x = h ∨ R h x) := by
  induction l with
  | nil => exact absurd rfl hl
  | cons a l ih =>
    rw [List.pairwise_cons] at hR
    obtain ⟨hRa, hRl⟩ := hR
    by_cases hnil : l = []
    · subst hnil
      refine ⟨a, rfl, List.mem_singleton_self _, ?_, ?_⟩
      · intro x hx
        rw [List.mem_singleton.1 hx]
      · intro x hx _
        exact Or.inl (List.mem_singleton.1 hx)
    · obtain ⟨h, hh, hmem, hmax, htie⟩ := ih hnil hRl
      rw [List.insertionSort_cons_eq_take_drop]
      cases hs : l.insertionSort byCountDesc with
      | nil => rw [hs] at hh; exact absurd hh (by simp)
      | cons b s =>
        rw [hs] at hh
        have hb : b = h := by simpa using hh
        subst hb
        by_cases hab : byCountDesc a b
        · refine ⟨a, ?_, List.mem_cons_self _ _, ?_, ?_⟩
          · simp [List.takeWhile, List.dropWhile, hab]
          · intro x hx
            rcases List.mem_cons.1 hx with h1 | h1
            · rw [h1]
            · exact le_trans (hmax x h1) hab
          · intro x hx _
            rcases List.mem_cons.1 hx with h1 | h1
            · exact Or.inl h1
            · exact Or.inr (hRa x h1)
        · have hlt : a.2 < b.2 := by
            unfold byCountDesc at hab
            omega
          refine ⟨b, ?_, List.mem_cons_of_mem _ hmem, ?_, ?_⟩
          · simp [List.takeWhile, hab]
          · intro x hx
            rcases List.mem_cons.1 hx with h1 | h1
            · rw [h1]; omega
            · exact hmax x h1
          · intro x hx hxe
            rcases List.mem_cons.1 hx with h1 | h1
            · rw [h1] at hxe; omega
            · exact htie x h1 hxe

/-- The top entry of the tally of `tags`, none of which is an array index or
names something inherited, is the winner the specification names. -/
theorem topEntry_tally (tags : List String) (hne : tags ≠ [])
    (hidx : ∀ t ∈ tags, arrayIndex t = none)
    (hproto : ∀ t ∈ tags, t ∉ objectPrototypeNames) :
    ∃ h, topEntry (tags.foldl tallyAdd []) = some h ∧ WinsTally tags h.1 := by
  obtain ⟨h1, h2, h3⟩ := tally_spec tags
  have hcne : tags.foldl countAdd [] ≠ [] := by
    obtain ⟨t, ts, hts⟩ := List.exists_cons_of_ne_nil hne
    exact List.ne_nil_of_mem (h3 t (by rw [hts]; exact List.mem_cons_self _ _))
  obtain ⟨h, hh, hmem, hmax, htie⟩ := head_insertionSort_byCountDesc _ _ hcne h1
  refine ⟨numEntry h, ?_, (h2 h hmem).1, ?_, ?_⟩
  · unfold topEntry
    rw [tally_eq_count tags hproto, objectEntries_no_index _ (fun p hp => by
      obtain ⟨q, hq, rfl⟩ := List.mem_map.1 hp
      exact hidx q.1 (h2 q hq).1)]
    rw [← List.map_insertionSort (r := byCountDesc) (s := countDesc) numEntry _
      (fun a _ b _ => Iff.rfl), List.head?_map, hh]
    rfl
  · intro t ht
    have := hmax _ (h3 t ht)
    rw [(h2 h hmem).2] at this
    exact this
  · intro t ht hteq
    have := htie _ (h3 t ht) (by rw [(h2 h hmem).2]; exact hteq)
    rcases this with h4 | h4
    · show tags.indexOf h.1 ≤ tags.indexOf t
      rw [← h4]
    · exact le_of_lt h4

/-- C19, as stated, fails.  A winning tag equal to the sentinel is replaced by
the profile's preference: with the only genre tag `general` and the only
experience tag `any`, a profile preferring `Comedy` and `calm` gets the
components `Comedy` and `calm`, which are no tags of the list.  A tag that
reads as an array index is enumerated first: after the tags `Action`, `7` (one
occurrence each) the genre component is `7`, although `Action` occurs first.
And the tally is a plain object: after the tags `constructor`, `Action`,
`Action` the value kept under `constructor` is a text, no count, and the genre
component is `constructor`, although `Action` has the maximal tally; the only
tag `__proto__` is never stored, and the genre component is the sentinel. -/
theorem encodeState_dominant_counterexample :
    (encodeState.dominantGenre exUserPrefs [exTagged "general" "any"] = "Comedy" ∧
      encodeState.dominantExperience exUserPrefs [exTagged "general" "any"] = "calm" ∧
      encodeState exUserPrefs [exTagged "general" "any"] 10 = "Comedy|calm|morning" ∧
      genreTags [exTagged "general" "any"] = ["general"] ∧
      experienceTags [exTagged "general" "any"] = ["any"] ∧
      ¬ WinsTally (genreTags [exTagged "general" "any"])
        (encodeState.dominantGenre exUserPrefs [exTagged "general" "any"]) ∧
      ¬ WinsTally (experienceTags [exTagged "general" "any"])
        (encodeState.dominantExperience exUserPrefs [exTagged "general" "any"])) ∧
    (encodeState.dominantGenre (exUser (some 20))
        [exTagged "Action" "fun", exTagged "7" "fun"] = "7" ∧
      genreTags [exTagged "Action" "fun", exTagged "7" "fun"] = ["Action", "7"] ∧
      WinsTally (genreTags [exTagged "Action" "fun", exTagged "7" "fun"]) "Action" ∧
      ¬ WinsTally (genreTags [exTagged "Action" "fun", exTagged "7" "fun"])
        (encodeState.dominantGenre (exUser (some 20))
          [exTagged "Action" "fun", exTagged "7" "fun"])) ∧
    (encodeState (exUser (some 20))
        [exTagged "constructor" "", exTagged "Action" "", exTagged "Action" ""] 10 =
        "constructor|any|morning" ∧
      WinsTally
        (genreTags [exTagged "constructor" "", exTagged "Action" "", exTagged "Action" ""])
        "Action" ∧
      ¬ WinsTally
        (genreTags [exTagged "constructor" "", exTagged "Action" "", exTagged "Action" ""])
        (encodeState.dominantGenre (exUser (some 20))
          [exTagged "constructor" "", exTagged "Action" "", exTagged "Action" ""])) ∧
    (encodeState.dominantGenre (exUser (some 20)) [exTagged "__proto__" ""] = "general" ∧
      genreTags [exTagged "__proto__" ""] = ["__proto__"]) := by
  decide!

/-- C19, amended: for every profile and every recent-event list in which at
least one event has a non-empty genre tag and no genre tag reads as an array
index (a canonical decimal numeral such as `7`) or names a property that a
plain object inherits (such as `constructor` or `__proto__`), let `T` be the
genre tag of maximal tally in the list that, among the tags tied at that tally,
occurs first: the genre component of the key of `encodeState` is `T`, except
that when `T` is the sentinel `general` and the stored preferred-genre value of
the profile has a first entry, it is that entry.  The same holds for the
experience component and experience tags, with the sentinel `any` and the
profile's preferred experience tag. -/
theorem encodeState_dominant (userProfile : User) (recentInteractions : List Interaction) :
    (genreTags recentInteractions ≠ [] →
      (∀ t ∈ genreTags recentInteractions,
        arrayIndex t = none ∧ t ∉ objectPrototypeNames) →
      ∃ T, WinsTally (genreTags recentInteractions) T ∧
        encodeState.dominantGenre userProfile recentInteractions =
          if T = "general" then
            match firstPreferred userProfile with
            | some g => g
            | none => T
          else T) ∧
    (experienceTags recentInteractions ≠ [] →
      (∀ t ∈ experienceTags recentInteractions,
        arrayIndex t = none ∧ t ∉ objectPrototypeNames) →
      ∃ T, WinsTally (experienceTags recentInteractions) T ∧
        encodeState.dominantExperience userProfile recentInteractions =
          if T = "any" ∧ userProfile.preferred_experience ≠ "" then
            userProfile.preferred_experience
          else T) := by
  constructor
  · intro hne hidx
    obtain ⟨h, hh, hw⟩ := topEntry_tally _ hne (fun t ht => (hidx t ht).1)
      (fun t ht => (hidx t ht).2)
    refine ⟨h.1, hw, ?_⟩
    have hlen : recentInteractions.length > 0 := by
      cases recentInteractions with
      | nil => exact absurd rfl hne
      | cons e es => simp
    rw [genreFallback userProfile recentInteractions h.1
      (by rw [if_pos hlen, genreCounts_eq_tally, hh])]
    by_cases hg : h.1 = "general"
    · rw [if_pos hg, if_pos hg]
      cases firstPreferred userProfile <;> rfl
    · rw [if_neg hg, if_neg hg]
  · intro hne hidx
    obtain ⟨h, hh, hw⟩ := topEntry_tally _ hne (fun t ht => (hidx t ht).1)
      (fun t ht => (hidx t ht).2)
    refine ⟨h.1, hw, ?_⟩
    have hlen : recentInteractions.length > 0 := by
      cases recentInteractions with
      | nil => exact absurd rfl hne
      | cons e es => simp
    unfold encodeState.dominantExperience
    rw [expCounts_eq_tally, hh]
    dsimp only
    rw [if_pos hlen]

/-- C19, at a concrete list: of the genre tags `Action`, `Drama`, `Drama`,
`Action` the first of the two tied tags wins. -/
theorem encodeState_dominant_witness :
    ∃ T, WinsTally ["Action", "Drama", "Drama", "Action"] T ∧
      encodeState.dominantGenre exUserPrefs
        [exTagged "Action" "", exTagged "Drama" "", exTagged "Drama" "",
          exTagged "Action" ""] =
        if T = "general" then
          match firstPreferred exUserPrefs with
          | some g => g
          | none => T
        else T :=
  (encodeState_dominant exUserPrefs
    [exTagged "Action" "", exTagged "Drama" "", exTagged "Drama" "",
      exTagged "Action" ""]).1 (by decide!) (by decide!)


/-! ## Theorems: the time slot -/

theorem timeSlot_cases (h : Nat) :
    (5 ≤ h ∧ h < 12 ∧ timeSlot h = "morning") ∨ (12 ≤ h ∧ h < 17 ∧ timeSlot h = "afternoon") ∨
      (17 ≤ h ∧ h < 21 ∧ timeSlot h = "evening") ∨ ((h < 5 ∨ 21 ≤ h) ∧ timeSlot h = "night") := by
  unfold timeSlot
  by_cases h1 : h ≥ 5 ∧ h < 12
  · rw [if_pos h1]; exact Or.inl ⟨h1.1, h1.2, rfl⟩
  · rw [if_neg h1]
    by_cases h2 : h ≥ 12 ∧ h < 17
    · rw [if_pos h2]; exact Or.inr (Or.inl ⟨h2.1, h2.2, rfl⟩)
    · rw [if_neg h2]
      by_cases h3 : h ≥ 17 ∧ h < 21
      · rw [if_pos h3]; exact Or.inr (Or.inr (Or.inl ⟨h3.1, h3.2, rfl⟩))
      · rw [if_neg h3]
        refine Or.inr (Or.inr (Or.inr ⟨?_, rfl⟩))
        omega

/-- C21: for every hour h of the current time (in particular every h in
0..23), the time-of-day component of the key of `encodeState` is `morning` iff
5 ≤ h < 12, `afternoon` iff 12 ≤ h < 17, `evening` iff 17 ≤ h < 21, and `night`
iff h < 5 or h ≥ 21; it is the last of the three parts the key is joined from. -/
theorem timeSlot_spec (userProfile : User) (recentInteractions : List Interaction) (h : Nat) :
    (timeSlot h = "morning" ↔ 5 ≤ h ∧ h < 12) ∧
    (timeSlot h = "afternoon" ↔ 12 ≤ h ∧ h < 17) ∧
    (timeSlot h = "evening" ↔ 17 ≤ h ∧ h < 21) ∧
    (timeSlot h = "night" ↔ h < 5 ∨ h ≥ 21) ∧
    encodeState userProfile recentInteractions h =
      encodeState.dominantGenre userProfile recentInteractions ++ "|" ++
        encodeState.dominantExperience userProfile recentInteractions ++ "|" ++ timeSlot h := by
  have hma : ¬ ("morning" = "afternoon") := by decide
  have hme : ¬ ("morning" = "evening") := by decide
  have hmn : ¬ ("morning" = "night") := by decide
  have hae : ¬ ("afternoon" = "evening") := by decide
  have han : ¬ ("afternoon" = "night") := by decide
  have hen : ¬ ("evening" = "night") := by decide
  refine ⟨?_, ?_, ?_, ?_, rfl⟩
  · rcases timeSlot_cases h with ⟨a, b, c⟩ | ⟨a, b, c⟩ | ⟨a, b, c⟩ | ⟨a, c⟩ <;> rw [c]
    · exact ⟨fun _ => ⟨a, b⟩, fun _ => rfl⟩
    · exact ⟨fun e => absurd e.symm hma, fun e => by omega⟩
    · exact ⟨fun e => absurd e.symm hme, fun e => by omega⟩
    · exact ⟨fun e => absurd e.symm hmn, fun e => by omega⟩
  · rcases timeSlot_cases h with ⟨a, b, c⟩ | ⟨a, b, c⟩ | ⟨a, b, c⟩ | ⟨a, c⟩ <;> rw [c]
    · exact ⟨fun e => absurd e hma, fun e => by omega⟩
    · exact ⟨fun _ => ⟨a, b⟩, fun _ => rfl⟩
    · exact ⟨fun e => absurd e.symm hae, fun e => by omega⟩
    · exact ⟨fun e => absurd e.symm han, fun e => by omega⟩
  · rcases timeSlot_cases h with ⟨a, b, c⟩ | ⟨a, b, c⟩ | ⟨a, b, c⟩ | ⟨a, c⟩ <;> rw [c]
    · exact ⟨fun e => absurd e hme, fun e => by omega⟩
    · exact ⟨fun e => absurd e hae, fun e => by omega⟩
    · exact ⟨fun _ => ⟨a, b⟩, fun _ => rfl⟩
    · exact ⟨fun e => absurd e.symm hen, fun e => by omega⟩
  · rcases timeSlot_cases h with ⟨a, b, c⟩ | ⟨a, b, c⟩ | ⟨a, b, c⟩ | ⟨a, c⟩ <;> rw [c]
    · exact ⟨fun e => absurd e hmn, fun e => by omega⟩
    · exact ⟨fun e => absurd e han, fun e => by omega⟩
    · exact ⟨fun e => absurd e hen, fun e => by omega⟩
    · exact ⟨fun _ => a, fun _ => rfl⟩

/-! ## Theorems: the exploration floor -/

theorem decay_pow_gt (n : Nat) (hn : 3 * 999 ^ n > 1000 ^ n) : (1 : ℚ) / 3 < 0.999 ^ n := by
  have h : (3 : ℚ) * 999 ^ n > 1000 ^ n := by exact_mod_cast hn
  have e : (0.999 : ℚ) = 999 / 1000 := by norm_num
  rw [e, div_pow, lt_div_iff₀ (by positivity)]
  linarith

theorem decay_pow_lt (n : Nat) (hn : 3 * 999 ^ n < 1000 ^ n) : (0.999 : ℚ) ^ n < 1 / 3 := by
  have h : (3 : ℚ) * 999 ^ n < 1000 ^ n := by exact_mod_cast hn
  have e : (0.999 : ℚ) = 999 / 1000 := by norm_num
  rw [e, div_pow, div_lt_iff₀ (by positivity)]
  linarith

theorem decay_pow_1098 : (1 : ℚ) / 3 < 0.999 ^ 1098 := decay_pow_gt 1098 (by decide!)

theorem decay_pow_1099 : (0.999 : ℚ) ^ 1099 < 1 / 3 := decay_pow_lt 1099 (by decide!)

/-- C30: the exploration floor is reached at exactly 1099 visits: with V the
total visit count of the fetched value entries, the adaptive epsilon
max(0.05, 0.15 * 0.999^V) is strictly greater than 0.05 when V ≤ 1098 and
equals 0.05 when V ≥ 1099. -/
theorem adaptiveEpsilon_floor (learnedValues : List QRow) :
    adaptiveEpsilon learnedValues =
      max 0.05 (0.15 * 0.999 ^ (learnedValues.map (fun e => e.visit_count)).sum) ∧
    ((learnedValues.map (fun e => e.visit_count)).sum ≤ 1098 →
      adaptiveEpsilon learnedValues > 0.05) ∧
    ((learnedValues.map (fun e => e.visit_count)).sum ≥ 1099 →
      adaptiveEpsilon learnedValues = 0.05) := by
  refine ⟨adaptiveEpsilon_eq learnedValues, ?_, ?_⟩
  · intro hV
    rw [adaptiveEpsilon_eq]
    have hmono : (0.999 : ℚ) ^ 1098 ≤
        0.999 ^ (learnedValues.map (fun e => e.visit_count)).sum :=
      pow_le_pow_of_le_one (by norm_num) (by norm_num) hV
    have := decay_pow_1098
    apply lt_max_of_lt_right
    linarith
  · intro hV
    rw [adaptiveEpsilon_eq]
    have hmono : (0.999 : ℚ) ^ (learnedValues.map (fun e => e.visit_count)).sum ≤
        0.999 ^ 1099 :=
      pow_le_pow_of_le_one (by norm_num) (by norm_num) hV
    have := decay_pow_1099
    apply max_eq_left
    linarith

/-! ## Theorems: the reward of the header comment -/

/-- C24, as stated, fails: the ratings 4, 3 and 1 give 2.0, 0.5 and -1.0,
where the header's `rating - 3` is 1, 0 and -2. -/
theorem calculateReward_header_counterexample :
    (parseInt "4" = some 4 ∧ calculateReward "rating" "4" = 2.0 ∧
      calculateReward "rating" "4" ≠ 4 - 3) ∧
    (parseInt "3" = some 3 ∧ calculateReward "rating" "3" = 0.5 ∧
      calculateReward "rating" "3" ≠ 3 - 3) ∧
    (parseInt "1" = some 1 ∧ calculateReward "rating" "1" = -1.0 ∧
      calculateReward "rating" "1" ≠ 1 - 3) := by
  decide!

/-- The kind `ignore` has a configured weight but no case of its own in
`calculateReward`. -/
theorem calculateReward_ignore :
    calculateReward "ignore" = 0 ∧ CONFIG.rewardWeights.ignore = -0.2 := by
  decide!

/-- C24, amended: the reward computed by `calculateReward` is the one of the
engine's header for clicks (+1) and views (+0.5); a rating event with rating r
in 1..5 gives the configured bucket weight, 2.0 when r ≥ 4, 0.5 when r = 3 and
-1.0 when r ≤ 2, which is the header's r - 3 exactly for r = 5 and r = 2. -/
theorem calculateReward_header :
    (∀ v : String, calculateReward "click" v = 1 ∧ calculateReward "view" v = 0.5) ∧
    (∀ (v : String) (r : Int), parseInt v = some r → 1 ≤ r → r ≤ 5 →
      calculateReward "rating" v =
          (if r ≥ 4 then CONFIG.rewardWeights.rating_positive
            else if r = 3 then CONFIG.rewardWeights.rating_neutral
            else CONFIG.rewardWeights.rating_negative) ∧
        calculateReward "rating" v = (if r ≥ 4 then 2.0 else if r = 3 then 0.5 else -1.0) ∧
        (calculateReward "rating" v = (r : ℚ) - 3 ↔ r = 5 ∨ r = 2)) ∧
    calculateReward "rating" "5" = 2.0 ∧ calculateReward "rating" "4" = 2.0 ∧
    calculateReward "rating" "3" = 0.5 ∧ calculateReward "rating" "2" = -1.0 ∧
    calculateReward "rating" "1" = -1.0 := by
  refine ⟨fun v => ⟨?_, ?_⟩, ?_, by decide!, by decide!, by decide!, by decide!, by decide!⟩
  · rw [calculateReward, if_pos rfl]; norm_num [CONFIG.rewardWeights.click]
  · rw [calculateReward, if_neg (by decide), if_pos rfl]; norm_num [CONFIG.rewardWeights.view]
  · intro v r hv h1 h5
    rw [calculateReward_rating, hv]
    dsimp only
    have hr : r = 1 ∨ r = 2 ∨ r = 3 ∨ r = 4 ∨ r = 5 := by omega
    rcases hr with h | h | h | h | h <;> subst h <;>
      norm_num [CONFIG.rewardWeights.rating_positive, CONFIG.rewardWeights.rating_neutral,
        CONFIG.rewardWeights.rating_negative]

/-! ## Theorems: the learning statistics -/

theorem foldl_cnt (l : List ActivityStat) (a : Nat) :
    l.foldl (fun sum s => sum + s.cnt) a = a + (l.map (fun s => s.cnt)).sum := by
  induction l generalizing a with
  | nil => simp
  | cons x xs ih => simp [List.foldl_cons, ih, Nat.add_assoc]

/-- The counts of the groups of `getUserActivityStats` add up to the number of
events of the user. -/
theorem getUserActivityStats_sum (db : Db) (uid : String) :
    ((stmts.getUserActivityStats db uid).map (fun s => s.cnt)).sum =
      (db.interactions.filter (fun i => decide (i.user_uid = uid))).length := by
  unfold stmts.getUserActivityStats
  generalize db.interactions.filter (fun i => decide (i.user_uid = uid)) = rows
  simp only [List.map_map]
  have hcnt : ∀ g : String, rows.countP (fun i => decide (i.event_type = g)) =
      (rows.map (fun i => i.event_type)).count g := by
    intro g
    rw [List.count, List.countP_map]
    congr 1
  have hfun : ((fun s : ActivityStat => s.cnt) ∘ fun g =>
      ({ event_type := g, cnt := rows.countP (fun i => decide (i.event_type = g)) } :
        ActivityStat)) = fun g => (rows.map (fun i => i.event_type)).count g := by
    funext g
    rw [Function.comp_apply]
    exact hcnt g
  rw [hfun]
  rw [List.sum_map_count_dedup_eq_length, List.length_map]

/-- C23: for every user, the `modelMaturity` reported by
`getUserLearningStats` is determined by the total interaction count n, the sum
of the per-kind event counts (which is the number of events of the user):
`cold_start` iff n < 5, `learning` iff 5 ≤ n < 20, `improving` iff 20 ≤ n < 50,
and `mature` iff n ≥ 50. -/
theorem getUserLearningStats_maturity (db : Db) (userUid : String) :
    (getUserLearningStats db userUid).totalInteractions =
      ((stmts.getUserActivityStats db userUid).map (fun s => s.cnt)).sum ∧
    (getUserLearningStats db userUid).totalInteractions =
      (db.interactions.filter (fun i => decide (i.user_uid = userUid))).length ∧
    ((getUserLearningStats db userUid).modelMaturity = "cold_start" ↔
      (getUserLearningStats db userUid).totalInteractions < 5) ∧
    ((getUserLearningStats db userUid).modelMaturity = "learning" ↔
      5 ≤ (getUserLearningStats db userUid).totalInteractions ∧
        (getUserLearningStats db userUid).totalInteractions < 20) ∧
    ((getUserLearningStats db userUid).modelMaturity = "improving" ↔
      20 ≤ (getUserLearningStats db userUid).totalInteractions ∧
        (getUserLearningStats db userUid).totalInteractions < 50) ∧
    ((getUserLearningStats db userUid).modelMaturity = "mature" ↔
      (getUserLearningStats db userUid).totalInteractions ≥ 50) := by
  have htot : (getUserLearningStats db userUid).totalInteractions =
      ((stmts.getUserActivityStats db userUid).map (fun s => s.cnt)).sum := by
    unfold getUserLearningStats
    simp only [foldl_cnt, Nat.zero_add]
  have hmat : (getUserLearningStats db userUid).modelMaturity =
      if (getUserLearningStats db userUid).totalInteractions < 5 then "cold_start"
      else if (getUserLearningStats db userUid).totalInteractions < 20 then "learning"
      else if (getUserLearningStats db userUid).totalInteractions < 50 then "improving"
      else "mature" := rfl
  refine ⟨htot, by rw [htot, getUserActivityStats_sum], ?_, ?_, ?_, ?_⟩
  all_goals
    rw [hmat]
    generalize (getUserLearningStats db userUid).totalInteractions = n
    by_cases h5 : n < 5
    · rw [if_pos h5]
      first
        | exact ⟨fun _ => by omega, fun _ => rfl⟩
        | exact ⟨fun e => absurd e (by decide), fun e => by omega⟩
    · rw [if_neg h5]
      by_cases h20 : n < 20
      · rw [if_pos h20]
        first
          | exact ⟨fun _ => by omega, fun _ => rfl⟩
          | exact ⟨fun e => absurd e (by decide), fun e => by omega⟩
      · rw [if_neg h20]
        by_cases h50 : n < 50
        · rw [if_pos h50]
          first
            | exact ⟨fun _ => by omega, fun _ => rfl⟩
            | exact ⟨fun e => absurd e (by decide), fun e => by omega⟩
        · rw [if_neg h50]
          first
            | exact ⟨fun _ => by omega, fun _ => rfl⟩
            | exact ⟨fun e => absurd e (by decide), fun e => by omega⟩

/-! ## Theorems: the content-based engine of the pages -/

/-- C25, the code at the failing input: the docstring of `applyAgeFilter` says
that movies with an age limit greater than the user age are excluded, but for
the user age 0 the guard `!userAge` returns the list unchanged, with the movie
of age limit 18; the guard `userAge >= 120` does the same for a movie of age
limit 121 at the user age 120. -/
theorem applyAgeFilter_unfiltered :
    recommendationEngine.applyAgeFilter [exMovie 1 18 1, exMovie 2 0 1] 0 =
      [exMovie 1 18 1, exMovie 2 0 1] ∧
    (exMovie 1 18 1).age_limit > 0 ∧
    recommendationEngine.applyAgeFilter [exMovie 1 121 1] 120 = [exMovie 1 121 1] ∧
    (exMovie 1 121 1).age_limit > 120 := by
  decide!

/-- Where the guard of `applyAgeFilter` does not apply, for a user age from 1
to 119, the result is exactly the movies with age_limit ≤ userAge, in their
original order; for the user age 0 and for a user age of 120 or more the list
is returned unchanged. -/
theorem applyAgeFilter_cases (movies : List Movie) (userAge : Nat) :
    ((1 ≤ userAge ∧ userAge < 120) →
      recommendationEngine.applyAgeFilter movies userAge =
          movies.filter (fun m => decide (m.age_limit ≤ userAge)) ∧
        ∀ m ∈ movies, m ∈ recommendationEngine.applyAgeFilter movies userAge ↔
          m.age_limit ≤ userAge) ∧
    ((userAge = 0 ∨ userAge ≥ 120) →
      recommendationEngine.applyAgeFilter movies userAge = movies) := by
  constructor
  · intro h
    have hg : ¬ (userAge = 0 ∨ userAge ≥ 120) := by omega
    have heq : recommendationEngine.applyAgeFilter movies userAge =
        movies.filter (fun m => decide (m.age_limit ≤ userAge)) := by
      unfold recommendationEngine.applyAgeFilter
      rw [if_neg hg]
    refine ⟨heq, ?_⟩
    intro m hm
    rw [heq, List.mem_filter]
    simp [hm]
  · intro h
    unfold recommendationEngine.applyAgeFilter
    rw [if_pos h]

theorem similarityScore_same (a b : Movie) (hid : a.movie_id = b.movie_id) :
    recommendationEngine.similarityScore a b =
      { total := -1, genreScore := 0, experienceScore := 0, ratingScore := 0,
        popularityScore := 0, reasons := [] } := by
  unfold recommendationEngine.similarityScore
  rw [if_pos hid]

theorem similarityScore_fields (a b : Movie) (hid : a.movie_id ≠ b.movie_id) :
    (recommendationEngine.similarityScore a b).genreScore =
      (if (a.genre.filter (fun g => decide (g ∈ b.genre))).length > 0 then 2 else 0) ∧
    (recommendationEngine.similarityScore a b).experienceScore =
      (if a.experience_type = b.experience_type then 1 else 0) ∧
    (recommendationEngine.similarityScore a b).ratingScore =
      1 - |a.rating_percent - b.rating_percent| / 100 ∧
    (recommendationEngine.similarityScore a b).popularityScore =
      1 - |a.popularity_score - b.popularity_score| ∧
    (recommendationEngine.similarityScore a b).total =
      (recommendationEngine.similarityScore a b).genreScore +
        (recommendationEngine.similarityScore a b).experienceScore +
        (recommendationEngine.similarityScore a b).ratingScore +
        (recommendationEngine.similarityScore a b).popularityScore := by
  unfold recommendationEngine.similarityScore
  rw [if_neg hid]
  exact ⟨rfl, rfl, rfl, rfl, rfl⟩

theorem sharedGenres_pos (a b : Movie) :
    (a.genre.filter (fun g => decide (g ∈ b.genre))).length > 0 ↔ ∃ g ∈ a.genre, g ∈ b.genre := by
  rw [gt_iff_lt, List.length_pos, Ne, List.filter_eq_nil_iff]
  simp

/-- C26: for any two movies with different ids, rating_percent in 0..100 and
popularity_score in 0..1, `similarityScore` returns total = genreScore +
experienceScore + ratingScore + popularityScore with genreScore = 2 if they
share a genre else 0, experienceScore = 1 if they have the same experience type
else 0, ratingScore = 1 - |ratingA - ratingB| / 100 and popularityScore =
1 - |popularityA - popularityB|; hence 0 ≤ total ≤ 5, the maximum 5 being
reached exactly when they share a genre and have equal experience type, rating
and popularity; for two movies with the same id it returns total -1. -/
theorem similarityScore_spec (a b : Movie) :
    (a.movie_id ≠ b.movie_id →
      0 ≤ a.rating_percent ∧ a.rating_percent ≤ 100 →
      0 ≤ b.rating_percent ∧ b.rating_percent ≤ 100 →
      0 ≤ a.popularity_score ∧ a.popularity_score ≤ 1 →
      0 ≤ b.popularity_score ∧ b.popularity_score ≤ 1 →
      (recommendationEngine.similarityScore a b).total =
          (recommendationEngine.similarityScore a b).genreScore +
            (recommendationEngine.similarityScore a b).experienceScore +
            (recommendationEngine.similarityScore a b).ratingScore +
            (recommendationEngine.similarityScore a b).popularityScore ∧
        (recommendationEngine.similarityScore a b).genreScore =
          (if ∃ g ∈ a.genre, g ∈ b.genre then 2 else 0) ∧
        (recommendationEngine.similarityScore a b).experienceScore =
          (if a.experience_type = b.experience_type then 1 else 0) ∧
        (recommendationEngine.similarityScore a b).ratingScore =
          1 - |a.rating_percent - b.rating_percent| / 100 ∧
        (recommendationEngine.similarityScore a b).popularityScore =
          1 - |a.popularity_score - b.popularity_score| ∧
        0 ≤ (recommendationEngine.similarityScore a b).total ∧
        (recommendationEngine.similarityScore a b).total ≤ 5 ∧
        ((recommendationEngine.similarityScore a b).total = 5 ↔
          (∃ g ∈ a.genre, g ∈ b.genre) ∧ a.experience_type = b.experience_type ∧
            a.rating_percent = b.rating_percent ∧
            a.popularity_score = b.popularity_score)) ∧
    (a.movie_id = b.movie_id → (recommendationEngine.similarityScore a b).total = -1) := by
  constructor
  · intro hid hra hrb hpa hpb
    obtain ⟨hg, he, hr, hp, ht⟩ := similarityScore_fields a b hid
    have hg2 : (recommendationEngine.similarityScore a b).genreScore =
        (if ∃ g ∈ a.genre, g ∈ b.genre then 2 else 0) := by
      rw [hg]
      by_cases hs : ∃ g ∈ a.genre, g ∈ b.genre
      · rw [if_pos hs, if_pos ((sharedGenres_pos a b).2 hs)]
      · rw [if_neg hs, if_neg (fun h => hs ((sharedGenres_pos a b).1 h))]
    have hrd0 : 0 ≤ |a.rating_percent - b.rating_percent| := abs_nonneg _
    have hrd1 : |a.rating_percent - b.rating_percent| ≤ 100 :=
      abs_le.2 ⟨by linarith [hra.1, hrb.2], by linarith [hra.2, hrb.1]⟩
    have hpd0 : 0 ≤ |a.popularity_score - b.popularity_score| := abs_nonneg _
    have hpd1 : |a.popularity_score - b.popularity_score| ≤ 1 :=
      abs_le.2 ⟨by linarith [hpa.1, hpb.2], by linarith [hpa.2, hpb.1]⟩
    refine ⟨ht, hg2, he, hr, hp, ?_, ?_, ?_⟩
    · rw [ht, hg2, he, hr, hp]
      have h1 : (0 : ℚ) ≤ if ∃ g ∈ a.genre, g ∈ b.genre then 2 else 0 := by
        split_ifs <;> norm_num
      have h2 : (0 : ℚ) ≤ if a.experience_type = b.experience_type then 1 else 0 := by
        split_ifs <;> norm_num
      linarith
    · rw [ht, hg2, he, hr, hp]
      have h1 : (if ∃ g ∈ a.genre, g ∈ b.genre then 2 else 0 : ℚ) ≤ 2 := by
        split_ifs <;> norm_num
      have h2 : (if a.experience_type = b.experience_type then 1 else 0 : ℚ) ≤ 1 := by
        split_ifs <;> norm_num
      linarith
    · rw [ht, hg2, he, hr, hp]
      constructor
      · intro h5
        by_cases hs : ∃ g ∈ a.genre, g ∈ b.genre
        · by_cases hx : a.experience_type = b.experience_type
          · rw [if_pos hs, if_pos hx] at h5
            have hr0 : |a.rating_percent - b.rating_percent| = 0 := by linarith
            have hp0 : |a.popularity_score - b.popularity_score| = 0 := by linarith
            exact ⟨hs, hx, sub_eq_zero.1 (abs_eq_zero.1 hr0),
              sub_eq_zero.1 (abs_eq_zero.1 hp0)⟩
          · rw [if_pos hs, if_neg hx] at h5
            linarith
        · by_cases hx : a.experience_type = b.experience_type
          · rw [if_neg hs, if_pos hx] at h5
            linarith
          · rw [if_neg hs, if_neg hx] at h5
            linarith
      · rintro ⟨hs, hx, hre, hpe⟩
        rw [if_pos hs, if_pos hx, hre, hpe]
        norm_num
  · intro hid
    rw [similarityScore_same a b hid]

/-- C26, at two concrete movies: same genre and experience type, ratings 80
and 70, popularities 1 and 0.5, total 4.4. -/
theorem similarityScore_spec_witness :
    (recommendationEngine.similarityScore (exMovie 1 0 1)
      { exMovie 2 0 (1 / 2) with rating_percent := 70 }).total = 22 / 5 ∧
    (recommendationEngine.similarityScore (exMovie 1 0 1)
      { exMovie 2 0 (1 / 2) with rating_percent := 70 }).total ≤ 5 := by
  have h := (similarityScore_spec (exMovie 1 0 1)
    { exMovie 2 0 (1 / 2) with rating_percent := 70 }).1 (by decide) (by decide!) (by decide!)
    (by decide!) (by decide!)
  exact ⟨by decide!, h.2.2.2.2.2.2.1⟩

/-- Filtering commutes with the insertion into a sorted list. -/
theorem filter_orderedInsert {α : Type} (r : α → α → Prop) [DecidableRel r] [IsTrans α r]
    (p : α → Bool) (a : α) (s : List α) (hs : s.Sorted r) :
    (s.orderedInsert r a).filter p =
      if p a = true then (s.filter p).orderedInsert r a else s.filter p := by
  induction s with
  | nil =>
    by_cases hpa : p a = true
    · simp [hpa]
    · simp [hpa]
  | cons b s ih =>
    have hb : ∀ x ∈ s, r b x := fun x hx => List.rel_of_sorted_cons hs x hx
    have ih2 := ih (List.Sorted.of_cons hs)
    by_cases hab : r a b
    · have hall : ∀ x ∈ (b :: s).filter p, r a x := by
        intro x hx
        rcases List.mem_cons.1 (List.mem_of_mem_filter hx) with h | h
        · rw [h]; exact hab
        · exact Trans.trans hab (hb x h)
      rw [List.orderedInsert, if_pos hab]
      by_cases hpa : p a = true
      · rw [if_pos hpa, List.filter_cons_of_pos hpa]
        cases hf : (b :: s).filter p with
        | nil => rfl
        | cons c cs =>
          have hac : r a c := hall c (by rw [hf]; exact List.mem_cons_self _ _)
          rw [List.orderedInsert, if_pos hac]
      · rw [if_neg hpa, List.filter_cons_of_neg hpa]
    · rw [List.orderedInsert, if_neg hab]
      by_cases hpb : p b = true
      · rw [List.filter_cons_of_pos hpb, List.filter_cons_of_pos hpb, ih2]
        by_cases hpa : p a = true
        · rw [if_pos hpa, if_pos hpa, List.orderedInsert, if_neg hab]
        · rw [if_neg hpa, if_neg hpa]
      · rw [List.filter_cons_of_neg hpb, List.filter_cons_of_neg hpb, ih2]

/-- Filtering commutes with the stable sort. -/
theorem filter_insertionSort {α : Type} (r : α → α → Prop) [DecidableRel r] [IsTrans α r]
    [IsTotal α r] (p : α → Bool) (l : List α) :
    (l.insertionSort r).filter p = (l.filter p).insertionSort r := by
  induction l with
  | nil => rfl
  | cons a l ih =>
    rw [List.insertionSort, filter_orderedInsert r p a _ (List.sorted_insertionSort r l), ih]
    by_cases hpa : p a = true
    · rw [if_pos hpa, List.filter_cons_of_pos hpa, List.insertionSort]
    · rw [if_neg hpa, List.filter_cons_of_neg hpa]

/-- The result of the content-based `getRecommendations` when the reference
movie is found: the first `count` entries of the descending-sorted list of
objects built for the catalogue movies that pass the age filter and have a
positive similarity. -/
theorem getRecommendations_content_eq (allMovies : List Movie) (movieId : Int) (userAge count : Nat)
    (target : Movie)
    (hfind : allMovies.find? (fun m => decide (m.movie_id = movieId)) = some target) :
    recommendationEngine.getRecommendations allMovies movieId userAge count =
      (((allMovies.filter (fun m => decide (m.age_limit ≤ userAge ∧
          (recommendationEngine.similarityScore target m).total > 0))).map
        (recommendationEngine.recommend target)).insertionSort
          recommendationEngine.byScoreDesc).take count := by
  unfold recommendationEngine.getRecommendations
  rw [hfind]
  dsimp only
  rw [filter_insertionSort, List.filter_filter, List.filter_map]
  congr 3
  apply List.filter_congr
  intro m _
  simp [recommendationEngine.recommend, Function.comp]

/-- The entries of the result of the content-based `getRecommendations`. -/
theorem mem_getRecommendations_content (allMovies : List Movie) (movieId : Int)
    (userAge count : Nat) (r : recommendationEngine.Recommendation)
    (hr : r ∈ recommendationEngine.getRecommendations allMovies movieId userAge count) :
    ∃ target, allMovies.find? (fun m => decide (m.movie_id = movieId)) = some target ∧
      r = recommendationEngine.recommend target r.movie ∧ r.movie ∈ allMovies ∧
      r.movie.age_limit ≤ userAge ∧
      (recommendationEngine.similarityScore target r.movie).total > 0 := by
  cases hfind : allMovies.find? (fun m => decide (m.movie_id = movieId)) with
  | none =>
    unfold recommendationEngine.getRecommendations at hr
    rw [hfind] at hr
    exact absurd hr (List.not_mem_nil _)
  | some target =>
    rw [getRecommendations_content_eq allMovies movieId userAge count target hfind] at hr
    have h1 := (List.mem_insertionSort _).1 (List.mem_of_mem_take hr)
    obtain ⟨m, hm, rfl⟩ := List.mem_map.1 h1
    obtain ⟨hmem, hp⟩ := List.mem_filter.1 hm
    have hp2 : m.age_limit ≤ userAge ∧
        (recommendationEngine.similarityScore target m).total > 0 := by simpa using hp
    exact ⟨target, rfl, rfl, hmem, hp2.1, hp2.2⟩

/-- C27: for every catalogue, reference movie id, user age and count ≥ 0, the
content-based `getRecommendations` returns at most `count` results ordered by
non-increasing similarity total, none of which is the reference movie and none
of which has an age limit greater than the user age: it is the first `count`
entries of the age-filtered, descending-sorted list of catalogue movies with
positive similarity to the reference; it returns the empty list when the
reference id is not in the catalogue. -/
theorem getRecommendations_content (allMovies : List Movie) (movieId : Int)
    (userAge count : Nat) :
    (recommendationEngine.getRecommendations allMovies movieId userAge count).length ≤ count ∧
    (recommendationEngine.getRecommendations allMovies movieId userAge count).Sorted
      (fun a b => a.score ≥ b.score) ∧
    (∀ r ∈ recommendationEngine.getRecommendations allMovies movieId userAge count,
      r.movie ∈ allMovies ∧ r.movie.movie_id ≠ movieId ∧ r.movie.age_limit ≤ userAge ∧
        r.score > 0) ∧
    (∀ target, allMovies.find? (fun m => decide (m.movie_id = movieId)) = some target →
      target ∈ allMovies ∧ target.movie_id = movieId ∧
      (∀ r ∈ recommendationEngine.getRecommendations allMovies movieId userAge count,
        r.score = (recommendationEngine.similarityScore target r.movie).total) ∧
      recommendationEngine.getRecommendations allMovies movieId userAge count =
        (((allMovies.filter (fun m => decide (m.age_limit ≤ userAge ∧
            (recommendationEngine.similarityScore target m).total > 0))).map
          (recommendationEngine.recommend target)).insertionSort
            recommendationEngine.byScoreDesc).take count) ∧
    ((∀ m ∈ allMovies, m.movie_id ≠ movieId) →
      recommendationEngine.getRecommendations allMovies movieId userAge count = []) := by
  refine ⟨?_, ?_, ?_, ?_, ?_⟩
  · cases hfind : allMovies.find? (fun m => decide (m.movie_id = movieId)) with
    | none =>
      unfold recommendationEngine.getRecommendations
      rw [hfind]
      exact Nat.zero_le _
    | some target =>
      rw [getRecommendations_content_eq allMovies movieId userAge count target hfind]
      exact List.length_take_le _ _
  · cases hfind : allMovies.find? (fun m => decide (m.movie_id = movieId)) with
    | none =>
      unfold recommendationEngine.getRecommendations
      rw [hfind]
      exact List.sorted_nil
    | some target =>
      rw [getRecommendations_content_eq allMovies movieId userAge count target hfind]
      exact List.Pairwise.sublist (List.take_sublist _ _)
        (List.sorted_insertionSort recommendationEngine.byScoreDesc _)
  · intro r hr
    obtain ⟨target, hfind, hrec, hmem, hage, hpos⟩ :=
      mem_getRecommendations_content allMovies movieId userAge count r hr
    have htid : target.movie_id = movieId := by simpa using List.find?_some hfind
    have hscore : r.score = (recommendationEngine.similarityScore target r.movie).total := by
      rw [hrec]
      rfl
    refine ⟨hmem, ?_, hage, by rw [hscore]; exact hpos⟩
    intro hid
    rw [similarityScore_same target r.movie (by rw [htid, hid])] at hpos
    norm_num at hpos
  · intro target hfind
    refine ⟨List.mem_of_find?_eq_some hfind, by simpa using List.find?_some hfind, ?_,
      getRecommendations_content_eq allMovies movieId userAge count target hfind⟩
    intro r hr
    obtain ⟨target2, hfind2, hrec, _, _, _⟩ :=
      mem_getRecommendations_content allMovies movieId userAge count r hr
    rw [hfind] at hfind2
    have ht : target = target2 := Option.some.inj hfind2
    rw [ht, hrec]
    rfl
  · intro hno
    have hfind : allMovies.find? (fun m => decide (m.movie_id = movieId)) = none := by
      rw [List.find?_eq_none]
      intro m hm
      simpa using hno m hm
    unfold recommendationEngine.getRecommendations
    rw [hfind]

/-- C27, at a concrete catalogue: reference movie 1, user age 13, count 1.  Of
the two other movies that may be shown, the one of higher similarity is
returned; the movie of age limit 18 and the reference itself are not. -/
theorem getRecommendations_content_witness :
    (recommendationEngine.getRecommendations
      [exMovie 1 0 1, exMovie 2 18 1, exMovie 3 0 (1 / 2), exMovie 4 13 (9 / 10)] 1 13 1).map
        (fun r => (r.movie.movie_id, r.score)) = [(4, 49 / 10)] := by
  rw [((getRecommendations_content
    [exMovie 1 0 1, exMovie 2 18 1, exMovie 3 0 (1 / 2), exMovie 4 13 (9 / 10)] 1 13 1).2.2.2.1
    (exMovie 1 0 1) (by decide!)).2.2.2]
  decide!

/-! ## Theorems: bounded value estimates -/

/-- Every reward that `calculateReward` returns lies in [-1, 2]. -/
theorem calculateReward_range (eventType eventValue : String) :
    -1 ≤ calculateReward eventType eventValue ∧ calculateReward eventType eventValue ≤ 2 := by
  by_cases hr : eventType = "rating"
  · rw [hr, calculateReward_rating]
    cases parseInt eventValue with
    | none => constructor <;> norm_num
    | some n =>
      dsimp only
      split_ifs <;> constructor <;> norm_num
  · unfold calculateReward
    simp only [CONFIG.rewardWeights.click, CONFIG.rewardWeights.view,
      CONFIG.rewardWeights.search, CONFIG.rewardWeights.recommend_click,
      CONFIG.rewardWeights.dwell, if_neg hr]
    split_ifs <;> constructor <;> norm_num

/-- A row of the store after `updateQValue` is a row of the store before, or
carries the new value. -/
theorem mem_updateQValue (t : QTable) (u s : String) (m : Int) (r : ℚ) (e : QRow)
    (he : e ∈ (updateQValue t u s m r).2) :
    e ∈ t ∨ e.q_value = (updateQValue t u s m r).1.newQ := by
  cases hget : stmts.getQValue t u s m with
  | none =>
    rw [updateQValue_store_absent t u s m r hget] at he
    rcases List.mem_append.1 he with h | h
    · exact Or.inl h
    · rw [List.mem_singleton.1 h]; exact Or.inr rfl
  | some e0 =>
    rw [updateQValue_store_present t u s m r e0 hget] at he
    obtain ⟨a, ha, rfl⟩ := List.mem_map.1 he
    by_cases hk : a.hasKey u s m
    · rw [if_pos hk]; exact Or.inr rfl
    · rw [if_neg hk]; exact Or.inl ha

/-- One update with a reward in [-1, 2] keeps every stored value in [-20, 40]. -/
theorem updateQValue_range (t : QTable) (u s : String) (m : Int) (r : ℚ)
    (hr : -1 ≤ r ∧ r ≤ 2) (hinv : ∀ e ∈ t, -20 ≤ e.q_value ∧ e.q_value ≤ 40) :
    ∀ e ∈ (updateQValue t u s m r).2, -20 ≤ e.q_value ∧ e.q_value ≤ 40 := by
  have hv : -20 ≤ storedValue t u s m ∧ storedValue t u s m ≤ 40 := by
    rcases storedValue_cases t u s m with ⟨_, h0⟩ | ⟨e, he, _, hq⟩
    · rw [h0]; constructor <;> norm_num
    · rw [hq]; exact hinv e he
  have hM : -20 ≤ maxFutureQ t u s ∧ maxFutureQ t u s ≤ 40 := by
    rcases maxFutureQ_cases t u s with ⟨_, h0⟩ | ⟨⟨e, he, _, hq⟩, _⟩
    · rw [h0]; constructor <;> norm_num
    · rw [← hq]; exact hinv e he
  have hnew : -20 ≤ (updateQValue t u s m r).1.newQ ∧ (updateQValue t u s m r).1.newQ ≤ 40 := by
    rw [updateQValue_newQ]
    constructor <;> linarith [hv.1, hv.2, hM.1, hM.2, hr.1, hr.2]
  intro e he
  rcases mem_updateQValue t u s m r e he with h | h
  · exact hinv e h
  · rw [h]; exact hnew

theorem updateQValues_range (calls : List UpdateCall) (t : QTable)
    (hr : ∀ c ∈ calls, -1 ≤ c.reward ∧ c.reward ≤ 2)
    (hinv : ∀ e ∈ t, -20 ≤ e.q_value ∧ e.q_value ≤ 40) :
    ∀ e ∈ updateQValues t calls, -20 ≤ e.q_value ∧ e.q_value ≤ 40 := by
  induction calls generalizing t with
  | nil => exact hinv
  | cons c cs ih =>
    unfold updateQValues
    rw [List.foldl_cons]
    exact ih _ (fun x hx => hr x (List.mem_cons_of_mem _ hx))
      (updateQValue_range t c.userUid c.stateKey c.movieId c.reward
        (hr c (List.mem_cons_self _ _)) hinv)

/-- C28: value estimates never diverge: in every value store reached from the
empty store by a sequence of `updateQValue` calls whose rewards are outputs of
`calculateReward` (which lie in [-1.0, 2.0]), every stored value v satisfies
-20 ≤ v ≤ 40, that is, stays within [-1.0/(1-0.95), 2.0/(1-0.95)], whatever the
interleaving of users, states and items. -/
theorem updateQValues_bounded (calls : List UpdateCall)
    (hcalls : ∀ c ∈ calls, ∃ eventType eventValue : String,
      c.reward = calculateReward eventType eventValue) :
    (∀ e ∈ updateQValues [] calls, -20 ≤ e.q_value ∧ e.q_value ≤ 40) ∧
    (∀ eventType eventValue : String,
      -1.0 ≤ calculateReward eventType eventValue ∧
        calculateReward eventType eventValue ≤ 2.0) ∧
    (-1.0 : ℚ) / (1 - 0.95) = -20 ∧ (2.0 : ℚ) / (1 - 0.95) = 40 := by
  refine ⟨?_, ?_, by norm_num, by norm_num⟩
  · apply updateQValues_range calls []
    · intro c hc
      obtain ⟨k, v, hkv⟩ := hcalls c hc
      rw [hkv]
      exact calculateReward_range k v
    · intro e he
      exact absurd he (List.not_mem_nil _)
  · intro k v
    have := calculateReward_range k v
    constructor
    · norm_num; exact this.1
    · norm_num; exact this.2

/-- C28, at a concrete sequence: three ratings of 5 and a click for two items
of one state, then a rating of 1 in another state. -/
theorem updateQValues_bounded_witness :
    (updateQValues []
      [{ userUid := "u1", stateKey := "s", movieId := 1, reward := calculateReward "rating" "5" },
       { userUid := "u1", stateKey := "s", movieId := 2, reward := calculateReward "click" "" },
       { userUid := "u1", stateKey := "s", movieId := 1, reward := calculateReward "rating" "5" },
       { userUid := "u2", stateKey := "t", movieId := 1,
         reward := calculateReward "rating" "1" }]).all
      (fun e => decide (-20 ≤ e.q_value ∧ e.q_value ≤ 40)) = true :=
  List.all_eq_true.2 (fun e he => decide_eq_true ((updateQValues_bounded _ (by
    intro c hc
    simp only [List.mem_cons, List.mem_singleton, List.not_mem_nil, or_false] at hc
    rcases hc with h | h | h | h <;> rw [h]
    · exact ⟨"rating", "5", rfl⟩
    · exact ⟨"click", "", rfl⟩
    · exact ⟨"rating", "5", rfl⟩
    · exact ⟨"rating", "1", rfl⟩)).1 e he))

/-! ## Theorems: the closed form of repeated updates -/

/-- A row of the store after `updateQValue` is an untouched row of another
triple, or the row of the triple with the new value and one more visit. -/
theorem mem_updateQValue_key (t : QTable) (u s : String) (m : Int) (r : ℚ) (e : QRow)
    (he : e ∈ (updateQValue t u s m r).2) :
    (e ∈ t ∧ ¬ e.hasKey u s m) ∨
      (e.hasKey u s m ∧ e.q_value = (updateQValue t u s m r).1.newQ ∧
        e.visit_count = storedVisits t u s m + 1) := by
  unfold storedVisits
  cases hget : stmts.getQValue t u s m with
  | none =>
    have hno := (getQValue_eq_none t u s m).1 hget
    rw [updateQValue_store_absent t u s m r hget] at he
    rcases List.mem_append.1 he with h | h
    · exact Or.inl ⟨h, hno e h⟩
    · rw [List.mem_singleton.1 h]
      exact Or.inr ⟨⟨rfl, rfl, rfl⟩, rfl, rfl⟩
  | some e0 =>
    rw [updateQValue_store_present t u s m r e0 hget] at he
    obtain ⟨a, ha, rfl⟩ := List.mem_map.1 he
    by_cases hk : a.hasKey u s m
    · rw [if_pos hk]
      exact Or.inr ⟨hk, rfl, rfl⟩
    · rw [if_neg hk]
      exact Or.inl ⟨ha, hk⟩

/-- After `updateQValue` the triple has a row. -/
theorem exists_key_updateQValue (t : QTable) (u s : String) (m : Int) (r : ℚ) :
    ∃ e ∈ (updateQValue t u s m r).2, e.hasKey u s m := by
  cases hget : stmts.getQValue t u s m with
  | none =>
    rw [updateQValue_store_absent t u s m r hget]
    exact ⟨_, List.mem_append_right _ (List.mem_singleton_self _), rfl, rfl, rfl⟩
  | some e0 =>
    obtain ⟨he0, hk0⟩ := getQValue_eq_some t u s m e0 hget
    rw [updateQValue_store_present t u s m r e0 hget]
    refine ⟨_, List.mem_map.2 ⟨e0, he0, rfl⟩, ?_⟩
    rw [if_pos hk0]
    exact hk0

/-- While the triple owns every row of its state, its stored value, the best
value of the state and its visit count evolve by the recurrence
v' = 0.995 v + 0.1 R. -/
theorem updateQValueTimes_closed (t : QTable) (u s : String) (m : Int) (R : ℚ)
    (hno : ∀ e ∈ t, ¬ e.inState u s) (n : Nat) :
    (∀ e ∈ updateQValueTimes t u s m R n, e.inState u s → e.hasKey u s m) ∧
    storedValue (updateQValueTimes t u s m R n) u s m = 20 * R * (1 - 0.995 ^ n) ∧
    maxFutureQ (updateQValueTimes t u s m R n) u s = 20 * R * (1 - 0.995 ^ n) ∧
    storedVisits (updateQValueTimes t u s m R n) u s m = n := by
  induction n with
  | zero =>
    have hkey : ∀ e ∈ t, ¬ e.hasKey u s m := fun e he hk => hno e he ⟨hk.1, hk.2.1⟩
    have hget := (getQValue_eq_none t u s m).2 hkey
    refine ⟨fun e he hin => absurd hin (hno e he), ?_, ?_, ?_⟩
    · show storedValue t u s m = _
      unfold storedValue
      rw [hget]
      norm_num
    · show maxFutureQ t u s = _
      rcases maxFutureQ_cases t u s with ⟨_, h0⟩ | ⟨⟨e, he, hin, _⟩, _⟩
      · rw [h0]; norm_num
      · exact absurd hin (hno e he)
    · show storedVisits t u s m = 0
      unfold storedVisits
      rw [hget]
  | succ k ih =>
    obtain ⟨hA, hv, hM, hc⟩ := ih
    generalize hT : updateQValueTimes t u s m R k = T at hA hv hM hc
    have hstep : updateQValueTimes t u s m R (k + 1) = (updateQValue T u s m R).2 := by
      rw [← hT]; rfl
    rw [hstep]
    have hnew : (updateQValue T u s m R).1.newQ = 20 * R * (1 - 0.995 ^ (k + 1)) := by
      rw [updateQValue_newQ, hv, hM, pow_succ]
      ring
    have hA2 : ∀ e ∈ (updateQValue T u s m R).2, e.inState u s →
        e.hasKey u s m ∧ e.q_value = (updateQValue T u s m R).1.newQ ∧
          e.visit_count = k + 1 := by
      intro e he hin
      rcases mem_updateQValue_key T u s m R e he with ⟨h1, h2⟩ | ⟨h1, h2, h3⟩
      · exact absurd (hA e h1 hin) h2
      · exact ⟨h1, h2, by rw [h3, hc]⟩
    refine ⟨fun e he hin => (hA2 e he hin).1, ?_, ?_, ?_⟩
    · rw [storedValue_updateQValue, hnew]
    · rcases maxFutureQ_cases (updateQValue T u s m R).2 u s with ⟨hnone, _⟩ | ⟨⟨e, he, hin, hq⟩, _⟩
      · obtain ⟨e, he, hk⟩ := exists_key_updateQValue T u s m R
        exact absurd ⟨hk.1, hk.2.1⟩ (hnone e he)
      · rw [← hq, (hA2 e he hin).2.1, hnew]
    · unfold storedVisits
      cases hget : stmts.getQValue (updateQValue T u s m R).2 u s m with
      | none =>
        obtain ⟨e, he, hk⟩ := exists_key_updateQValue T u s m R
        exact absurd hk ((getQValue_eq_none _ u s m).1 hget e he)
      | some e1 =>
        obtain ⟨he1, hk1⟩ := getQValue_eq_some _ u s m e1 hget
        exact (hA2 e1 he1 ⟨hk1.1, hk1.2.1⟩).2.2

/-- In exact arithmetic: starting from a store with no entries for (user,
state), after n successive updates of one triple with a constant reward R the
stored value is 20R * (1 - 0.995^n) and the visit count is n; the value obeys
v' = 0.995 * v + 0.1 * R, with fixed point R / (1 - 0.95). -/
theorem updateQValueTimes_exact_formula (t : QTable) (u s : String) (m : Int) (R : ℚ)
    (hno : ∀ e ∈ t, ¬ e.inState u s) (n : Nat) :
    storedValue (updateQValueTimes t u s m R n) u s m = 20 * R * (1 - 0.995 ^ n) ∧
    storedVisits (updateQValueTimes t u s m R n) u s m = n ∧
    maxFutureQ t u s = 0 ∧
    maxFutureQ (updateQValueTimes t u s m R n) u s =
      storedValue (updateQValueTimes t u s m R n) u s m ∧
    storedValue (updateQValueTimes t u s m R 1) u s m = 0.1 * R ∧
    storedValue (updateQValueTimes t u s m R (n + 1)) u s m =
      0.995 * storedValue (updateQValueTimes t u s m R n) u s m + 0.1 * R ∧
    0.995 * (R / (1 - 0.95)) + 0.1 * R = R / (1 - 0.95) := by
  have h0 := updateQValueTimes_closed t u s m R hno 0
  have h1 := updateQValueTimes_closed t u s m R hno 1
  have hk := updateQValueTimes_closed t u s m R hno n
  have hk1 := updateQValueTimes_closed t u s m R hno (n + 1)
  refine ⟨hk.2.1, hk.2.2.2, ?_, ?_, ?_, ?_, ?_⟩
  · have := h0.2.2.1
    rw [show updateQValueTimes t u s m R 0 = t from rfl] at this
    rw [this]; norm_num
  · rw [hk.2.2.1, hk.2.1]
  · rw [h1.2.1]; norm_num; ring
  · rw [hk1.2.1, hk.2.1, pow_succ]
    ring
  · norm_num
    ring

/-- While the triple owns every row of its state, on doubles too the best
value of the state is the stored value of the triple, and its visit count is
the number of updates. -/
theorem updateQValueDoubleTimes_closed (t : QTable) (u s : String) (m : Int) (R : ℚ)
    (hno : ∀ e ∈ t, ¬ e.inState u s) (n : Nat) :
    (∀ e ∈ updateQValueDoubleTimes t u s m R n, e.inState u s → e.hasKey u s m) ∧
    maxFutureQ (updateQValueDoubleTimes t u s m R n) u s =
      storedValue (updateQValueDoubleTimes t u s m R n) u s m ∧
    storedVisits (updateQValueDoubleTimes t u s m R n) u s m = n := by
  induction n with
  | zero =>
    have hkey : ∀ e ∈ t, ¬ e.hasKey u s m := fun e he hk => hno e he ⟨hk.1, hk.2.1⟩
    have hget := (getQValue_eq_none t u s m).2 hkey
    refine ⟨fun e he hin => absurd hin (hno e he), ?_, ?_⟩
    · show maxFutureQ t u s = storedValue t u s m
      have hv : storedValue t u s m = 0 := by
        unfold storedValue
        rw [hget]
      rw [hv]
      rcases maxFutureQ_cases t u s with ⟨_, h0⟩ | ⟨⟨e, he, hin, _⟩, _⟩
      · exact h0
      · exact absurd hin (hno e he)
    · show storedVisits t u s m = 0
      unfold storedVisits
      rw [hget]
  | succ k ih =>
    obtain ⟨hA, _, hc⟩ := ih
    generalize hT : updateQValueDoubleTimes t u s m R k = T at hA hc
    have hstep : updateQValueDoubleTimes t u s m R (k + 1) =
        (updateQValueDouble T u s m R).2 := by
      rw [← hT]; rfl
    rw [hstep]
    have hA2 : ∀ e ∈ (updateQValueDouble T u s m R).2, e.inState u s →
        e.hasKey u s m ∧ e.q_value = (updateQValueDouble T u s m R).1.newQ ∧
          e.visit_count = k + 1 := by
      intro e he hin
      rcases mem_updateQValueDouble_key T u s m R e he with ⟨h1, h2⟩ | ⟨h1, h2, h3⟩
      · exact absurd (hA e h1 hin) h2
      · exact ⟨h1, h2, by rw [h3, hc]⟩
    refine ⟨fun e he hin => (hA2 e he hin).1, ?_, ?_⟩
    · rw [storedValue_updateQValueDouble]
      rcases maxFutureQ_cases (updateQValueDouble T u s m R).2 u s with
        ⟨hnone, _⟩ | ⟨⟨e, he, hin, hq⟩, _⟩
      · obtain ⟨e, he, hk⟩ := exists_key_updateQValueDouble T u s m R
        exact absurd ⟨hk.1, hk.2.1⟩ (hnone e he)
      · rw [← hq, (hA2 e he hin).2.1]
    · unfold storedVisits
      cases hget : stmts.getQValue (updateQValueDouble T u s m R).2 u s m with
      | none =>
        obtain ⟨e, he, hk⟩ := exists_key_updateQValueDouble T u s m R
        exact absurd hk ((getQValue_eq_none _ u s m).1 hget e he)
      | some e1 =>
        obtain ⟨he1, hk1⟩ := getQValue_eq_some _ u s m e1 hget
        exact (hA2 e1 he1 ⟨hk1.1, hk1.2.1⟩).2.2

/-- While the triple owns every row of its state, every update on doubles
takes the stored value `v` to `newQDouble R v v`, within 26 R / 2^53 of
0.995 v + 0.1 R, and the stored value stays within R / 2^40 of the closed form. -/
theorem updateQValueDoubleTimes_error (t : QTable) (u s : String) (m : Int) (R : ℚ)
    (hno : ∀ e ∈ t, ¬ e.inState u s) (hlo : 1 / 2 ^ 900 ≤ R) (hhi : R ≤ 2 ^ 1000) (n : Nat) :
    storedValue (updateQValueDoubleTimes t u s m R (n + 1)) u s m =
      newQDouble R (storedValue (updateQValueDoubleTimes t u s m R n) u s m)
        (storedValue (updateQValueDoubleTimes t u s m R n) u s m) ∧
    |storedValue (updateQValueDoubleTimes t u s m R (n + 1)) u s m -
      (0.995 * storedValue (updateQValueDoubleTimes t u s m R n) u s m + 0.1 * R)| ≤
        26 * R / 2 ^ 53 ∧
    |storedValue (updateQValueDoubleTimes t u s m R n) u s m - 20 * R * (1 - 0.995 ^ n)| ≤
      R / 2 ^ 40 := by
  have hR : 0 < R := (reward_range R hlo hhi).1
  have hzero : storedValue t u s m = 0 := by
    rcases storedValue_cases t u s m with ⟨_, h0⟩ | ⟨e, he, hk, _⟩
    · exact h0
    · exact absurd ⟨hk.1, hk.2.1⟩ (hno e he)
  have hdbl : IsDouble (storedValue t u s m) := by
    rw [hzero]
    exact roundDouble_zero
  have hother : ∀ e ∈ t, e.inState u s → 0 ≤ e.q_value ∧ e.q_value < 20 * R :=
    fun e he hin => absurd hin (hno e he)
  have hrange : ∀ k, 0 ≤ storedValue (updateQValueDoubleTimes t u s m R k) u s m ∧
      storedValue (updateQValueDoubleTimes t u s m R k) u s m < 20 * R := by
    intro k
    cases k with
    | zero =>
      show 0 ≤ storedValue t u s m ∧ storedValue t u s m < 20 * R
      rw [hzero]
      exact ⟨le_refl _, by linarith⟩
    | succ j =>
      have hinv := updateQValueDoubleTimes_inv t u s m R hlo hhi hother hdbl j
      have hstep := updateQValueDouble_step_bounds (updateQValueDoubleTimes t u s m R j) u s m R
        hlo hhi hinv.1 hinv.2
      exact ⟨le_of_lt hstep.2.2.2.1, hstep.2.2.2.2⟩
  have hnext : ∀ k, storedValue (updateQValueDoubleTimes t u s m R (k + 1)) u s m =
      newQDouble R (storedValue (updateQValueDoubleTimes t u s m R k) u s m)
        (storedValue (updateQValueDoubleTimes t u s m R k) u s m) := by
    intro k
    show storedValue (updateQValueDouble (updateQValueDoubleTimes t u s m R k) u s m R).2 u s m
      = _
    rw [storedValue_updateQValueDouble, updateQValueDouble_newQ,
      (updateQValueDoubleTimes_closed t u s m R hno k).2.1]
  have hstepErr : ∀ k, |storedValue (updateQValueDoubleTimes t u s m R (k + 1)) u s m -
      (0.995 * storedValue (updateQValueDoubleTimes t u s m R k) u s m + 0.1 * R)| ≤
        26 * R / 2 ^ 53 := by
    intro k
    rw [hnext k]
    exact newQDouble_error R _ hlo hhi (hrange k).1 (hrange k).2
  refine ⟨hnext n, hstepErr n, ?_⟩
  clear hlo hhi
  induction n with
  | zero =>
    show |storedValue t u s m - 20 * R * (1 - 0.995 ^ 0)| ≤ R / 2 ^ 40
    rw [hzero, pow_zero, sub_self, mul_zero, sub_zero, abs_zero]
    positivity
  | succ k ih =>
    have h1 := abs_le.1 (hstepErr k)
    have h2 := abs_le.1 ih
    generalize storedValue (updateQValueDoubleTimes t u s m R (k + 1)) u s m = v2 at h1 ⊢
    generalize storedValue (updateQValueDoubleTimes t u s m R k) u s m = v1 at h1 h2
    have hw : 20 * R * (1 - (0.995 : ℚ) ^ (k + 1)) =
        0.995 * (20 * R * (1 - 0.995 ^ k)) + 0.1 * R := by
      rw [pow_succ]
      ring
    rw [hw]
    generalize 20 * R * (1 - (0.995 : ℚ) ^ k) = w at h2 ⊢
    rw [abs_le]
    constructor <;> linarith

/-- C29, as stated, fails, on the doubles the program computes with.  In the
empty store with reward 1, the stored value after one call is the double
nearest to 0.1, which is not 20 * (1 - 0.995); after eight calls it is not even
the double nearest to 20 * (1 - 0.995^8), but the next one above; and the value
after two calls is not 0.995 v + 0.1 for the value v after one call. -/
theorem updateQValueTimes_formula_counterexample :
    storedValue (updateQValueDoubleTimes [] "u1" "s" 1 1 1) "u1" "s" 1 =
      3602879701896397 / 36028797018963968 ∧
    storedValue (updateQValueDoubleTimes [] "u1" "s" 1 1 1) "u1" "s" 1 ≠
      20 * 1 * (1 - 0.995 ^ 1) ∧
    storedValue (updateQValueDoubleTimes [] "u1" "s" 1 1 8) "u1" "s" 1 =
      7080911772269233 / 9007199254740992 ∧
    roundDouble (20 * 1 * (1 - 0.995 ^ 8)) = 7080911772269232 / 9007199254740992 ∧
    storedValue (updateQValueDoubleTimes [] "u1" "s" 1 1 8) "u1" "s" 1 ≠
      roundDouble (20 * 1 * (1 - 0.995 ^ 8)) ∧
    storedValue (updateQValueDoubleTimes [] "u1" "s" 1 1 2) "u1" "s" 1 ≠
      0.995 * storedValue (updateQValueDoubleTimes [] "u1" "s" 1 1 1) "u1" "s" 1 + 0.1 * 1 := by
  decide!

/-- C29, amended: starting from a store with no entries for (user, state),
after n successive `updateQValue` calls on one (user, state, item) triple with
a constant reward R, 2^-900 ≤ R ≤ 2^1000, and no other update to that state,
the visit count is n and the stored value, computed on doubles as the program
computes it, differs from 20R * (1 - 0.995^n) by at most R / 2^40, for every
n ≥ 1 (and for n = 0, where both are 0): the first call bootstraps from 0 and
every later call bootstraps from the triple's own value, so the value after a
call is `newQDouble R v v` for the value v before it, which differs from
0.995 * v + 0.1 * R by at most 26 R / 2^53; the fixed point of
v' = 0.995 * v + 0.1 * R is R / (1 - 0.95). -/
theorem updateQValueDoubleTimes_formula (t : QTable) (u s : String) (m : Int) (R : ℚ)
    (hno : ∀ e ∈ t, ¬ e.inState u s) (hlo : 1 / 2 ^ 900 ≤ R) (hhi : R ≤ 2 ^ 1000) (n : Nat) :
    |storedValue (updateQValueDoubleTimes t u s m R n) u s m - 20 * R * (1 - 0.995 ^ n)| ≤
      R / 2 ^ 40 ∧
    storedVisits (updateQValueDoubleTimes t u s m R n) u s m = n ∧
    maxFutureQ t u s = 0 ∧
    storedValue (updateQValueDoubleTimes t u s m R 0) u s m = 0 ∧
    maxFutureQ (updateQValueDoubleTimes t u s m R n) u s =
      storedValue (updateQValueDoubleTimes t u s m R n) u s m ∧
    storedValue (updateQValueDoubleTimes t u s m R (n + 1)) u s m =
      newQDouble R (storedValue (updateQValueDoubleTimes t u s m R n) u s m)
        (storedValue (updateQValueDoubleTimes t u s m R n) u s m) ∧
    |storedValue (updateQValueDoubleTimes t u s m R (n + 1)) u s m -
      (0.995 * storedValue (updateQValueDoubleTimes t u s m R n) u s m + 0.1 * R)| ≤
        26 * R / 2 ^ 53 ∧
    0.995 * (R / (1 - 0.95)) + 0.1 * R = R / (1 - 0.95) := by
  have hc := updateQValueDoubleTimes_closed t u s m R hno n
  have he := updateQValueDoubleTimes_error t u s m R hno hlo hhi n
  have hzero : storedValue t u s m = 0 := by
    rcases storedValue_cases t u s m with ⟨_, h0⟩ | ⟨e, he, hk, _⟩
    · exact h0
    · exact absurd ⟨hk.1, hk.2.1⟩ (hno e he)
  refine ⟨he.2.2, hc.2.2, ?_, hzero, hc.2.1, he.1, he.2.1, ?_⟩
  · rcases maxFutureQ_cases t u s with ⟨_, h0⟩ | ⟨⟨e, he, hin, _⟩, _⟩
    · exact h0
    · exact absurd hin (hno e he)
  · norm_num
    ring

/-- C29, at the empty store with reward 1: after two calls the visit count is
2 and the value is within 2^-40 of 0.1995. -/
theorem updateQValueDoubleTimes_formula_witness :
    |storedValue (updateQValueDoubleTimes [] "u1" "s" 1 1 2) "u1" "s" 1 -
      20 * 1 * (1 - 0.995 ^ 2)| ≤ 1 / 2 ^ 40 ∧
    storedVisits (updateQValueDoubleTimes [] "u1" "s" 1 1 2) "u1" "s" 1 = 2 :=
  have h := updateQValueDoubleTimes_formula [] "u1" "s" 1 1
    (fun _ he => absurd he (List.not_mem_nil _)) (by decide!) (by decide!) 2
  ⟨h.1, h.2.1⟩

/-! ## Theorems: the shape of the key -/

theorem mem_objectEntries {α : Type} {counts : List (String × α)} {p : String × α}
    (h : p ∈ objectEntries counts) : p ∈ counts := by
  unfold objectEntries at h
  rcases List.mem_append.1 h with h1 | h1
  · exact List.mem_of_mem_filter ((List.mem_insertionSort _).1 h1)
  · exact List.mem_of_mem_filter h1

theorem topEntry_mem {counts : List (String × TallyVal)} {h : String × TallyVal}
    (hh : topEntry counts = some h) : h ∈ counts := by
  unfold topEntry at hh
  exact mem_objectEntries ((List.mem_insertionSort _).1 (List.mem_of_mem_head? hh))

theorem mem_genreTags {recentInteractions : List Interaction} {t : String}
    (h : t ∈ genreTags recentInteractions) : t ≠ "" := by
  unfold genreTags at h
  simpa using (List.mem_filter.1 h).2

theorem mem_experienceTags {recentInteractions : List Interaction} {t : String}
    (h : t ∈ experienceTags recentInteractions) : t ≠ "" := by
  unfold experienceTags at h
  simpa using (List.mem_filter.1 h).2

/-- Where the genre component comes from: a genre tag of the events, the
sentinel, or the first entry of the profile's stored preferred-genre value. -/
theorem dominantGenre_cases (userProfile : User) (recentInteractions : List Interaction) :
    encodeState.dominantGenre userProfile recentInteractions ∈ genreTags recentInteractions ∨
    encodeState.dominantGenre userProfile recentInteractions = "general" ∨
    firstPreferred userProfile =
      some (encodeState.dominantGenre userProfile recentInteractions) := by
  have hd : ∀ d : String, (d ∈ genreTags recentInteractions ∨ d = "general") →
      encodeState.dominantGenre userProfile recentInteractions =
        (if d = "general" then (firstPreferred userProfile).getD d else d) →
      encodeState.dominantGenre userProfile recentInteractions ∈ genreTags recentInteractions ∨
      encodeState.dominantGenre userProfile recentInteractions = "general" ∨
      firstPreferred userProfile =
        some (encodeState.dominantGenre userProfile recentInteractions) := by
    intro d hdc heq
    by_cases hg : d = "general"
    · rw [if_pos hg] at heq
      cases hf : firstPreferred userProfile with
      | none =>
        rw [hf] at heq
        exact Or.inr (Or.inl (heq.trans hg))
      | some g =>
        rw [hf] at heq
        exact Or.inr (Or.inr (by rw [heq]; rfl))
    · rw [if_neg hg] at heq
      rcases hdc with h | h
      · exact Or.inl (by rw [heq]; exact h)
      · exact absurd h hg
  refine hd _ ?_ (genreFallback userProfile recentInteractions _ rfl)
  by_cases hlen : recentInteractions.length > 0
  · rw [if_pos hlen]
    cases htop : topEntry (encodeState.genreCounts recentInteractions) with
    | none => exact Or.inr rfl
    | some top =>
      rw [genreCounts_eq_tally] at htop
      exact Or.inl (tally_keys _ top (topEntry_mem htop))
  · rw [if_neg hlen]
    exact Or.inr rfl

/-- Where the experience component comes from: an experience tag of the
events, the sentinel, or the profile's preferred experience. -/
theorem dominantExperience_cases (userProfile : User) (recentInteractions : List Interaction) :
    encodeState.dominantExperience userProfile recentInteractions ∈
      experienceTags recentInteractions ∨
    encodeState.dominantExperience userProfile recentInteractions = "any" ∨
    (userProfile.preferred_experience ≠ "" ∧
      encodeState.dominantExperience userProfile recentInteractions =
        userProfile.preferred_experience) := by
  have hfall : ∀ d : String,
      (if d = "any" ∧ userProfile.preferred_experience ≠ "" then
        userProfile.preferred_experience else d) = d ∨
      (userProfile.preferred_experience ≠ "" ∧
        (if d = "any" ∧ userProfile.preferred_experience ≠ "" then
          userProfile.preferred_experience else d) = userProfile.preferred_experience) := by
    intro d
    by_cases hd : d = "any" ∧ userProfile.preferred_experience ≠ ""
    · rw [if_pos hd]
      exact Or.inr ⟨hd.2, rfl⟩
    · rw [if_neg hd]
      exact Or.inl rfl
  unfold encodeState.dominantExperience
  dsimp only
  by_cases hlen : recentInteractions.length > 0
  · rw [if_pos hlen]
    cases htop : topEntry (encodeState.expCounts recentInteractions) with
    | none =>
      dsimp only
      rcases hfall "any" with h | h
      · rw [h]
        exact Or.inr (Or.inl rfl)
      · exact Or.inr (Or.inr h)
    | some top =>
      dsimp only
      have hmem : top.1 ∈ experienceTags recentInteractions := by
        rw [expCounts_eq_tally] at htop
        exact tally_keys _ top (topEntry_mem htop)
      rcases hfall top.1 with h | h
      · rw [h]
        exact Or.inl hmem
      · exact Or.inr (Or.inr h)
  · rw [if_neg hlen]
    rcases hfall "any" with h | h
    · rw [h]
      exact Or.inr (Or.inl rfl)
    · exact Or.inr (Or.inr h)

/-- A key joined from three parts, the first two free of `|` and the third a
time slot, splits into these parts. -/
theorem keyComponents_join (G E : String) (hour : Nat) (hG : '|' ∉ G.toList)
    (hE : '|' ∉ E.toList) :
    keyComponents (G ++ "|" ++ E ++ "|" ++ timeSlot hour) = [G, E, timeSlot hour] := by
  have hT : '|' ∉ (timeSlot hour).toList := by
    rcases timeSlot_cases hour with ⟨_, _, c⟩ | ⟨_, _, c⟩ | ⟨_, _, c⟩ | ⟨_, c⟩ <;> rw [c] <;> decide
  have hkey : (G ++ "|" ++ E ++ "|" ++ timeSlot hour).toList =
      ['|'].intercalate [G.toList, E.toList, (timeSlot hour).toList] := by
    show G.toList ++ ['|'] ++ E.toList ++ ['|'] ++ (timeSlot hour).toList = _
    simp [List.intercalate, List.intersperse]
  unfold keyComponents
  rw [hkey, List.splitOn_intercalate _ '|' _ (by simp)]
  · rfl
  · intro l hl
    simp only [List.mem_cons, List.mem_singleton, List.not_mem_nil, or_false] at hl
    rcases hl with h | h | h <;> rw [h]
    · exact hG
    · exact hE
    · exact hT

/-- C22, as stated, fails.  For a profile whose stored preferred-genre list is
`[""]` and no events, the key is `|any|morning`, whose first component is
empty, and so it is for the stored value `[[]]`, whose first entry, an empty
array, reads as the empty text; for a profile whose first preferred genre is
`Sci|Fi`, and for an event tagged `Sci|Fi`, the key splits into four
components. -/
theorem encodeState_wellFormed_counterexample :
    (encodeState (exUserGenre "") [] 10 = "|any|morning" ∧
      keyComponents (encodeState (exUserGenre "") [] 10) = ["", "any", "morning"]) ∧
    (encodeState (exUserStored (PrefGenres.array [JsonItem.other ""])) [] 10 =
        "|any|morning") ∧
    (encodeState (exUserGenre "Sci|Fi") [] 10 = "Sci|Fi|any|morning" ∧
      keyComponents (encodeState (exUserGenre "Sci|Fi") [] 10) =
        ["Sci", "Fi", "any", "morning"]) ∧
    (encodeState (exUser (some 20)) [exTagged "Sci|Fi" ""] 10 = "Sci|Fi|any|morning" ∧
      (keyComponents (encodeState (exUser (some 20)) [exTagged "Sci|Fi" ""] 10)).length = 4) := by
  decide!

/-- C22, amended: for every profile record (including one with no fields set,
and any stored preferred-genre text whose first entry, if it has one, has a
text) and every recent-event list, `encodeState` returns a key `G|E|T` joined from a genre part, an experience part and a time
bucket, the last being one of morning, afternoon, evening, night; the
experience part is never empty, and the genre part is non-empty unless the
first entry of the stored preferred-genre value reads as the empty text; the
key splits on the delimiter `|` into exactly the three components G, E, T
whenever no genre or experience tag of the events, nor the first entry of the
stored preferred-genre value or the profile's preferred experience, contains
`|`. -/
theorem encodeState_wellFormed (userProfile : User) (recentInteractions : List Interaction)
    (hour : Nat) :
    encodeState userProfile recentInteractions hour =
      encodeState.dominantGenre userProfile recentInteractions ++ "|" ++
        encodeState.dominantExperience userProfile recentInteractions ++ "|" ++
        timeSlot hour ∧
    timeSlot hour ∈ ["morning", "afternoon", "evening", "night"] ∧
    encodeState.dominantExperience userProfile recentInteractions ≠ "" ∧
    (firstPreferred userProfile ≠ some "" →
      encodeState.dominantGenre userProfile recentInteractions ≠ "") ∧
    ((∀ t ∈ genreTags recentInteractions, '|' ∉ t.toList) →
      (∀ t ∈ experienceTags recentInteractions, '|' ∉ t.toList) →
      (∀ g, firstPreferred userProfile = some g → '|' ∉ g.toList) →
      '|' ∉ userProfile.preferred_experience.toList →
      keyComponents (encodeState userProfile recentInteractions hour) =
        [encodeState.dominantGenre userProfile recentInteractions,
          encodeState.dominantExperience userProfile recentInteractions, timeSlot hour]) := by
  refine ⟨rfl, ?_, ?_, ?_, ?_⟩
  · rcases timeSlot_cases hour with ⟨_, _, c⟩ | ⟨_, _, c⟩ | ⟨_, _, c⟩ | ⟨_, c⟩ <;> rw [c] <;>
      decide
  · rcases dominantExperience_cases userProfile recentInteractions with h | h | ⟨h1, h2⟩
    · exact mem_experienceTags h
    · rw [h]; decide
    · rw [h2]; exact h1
  · intro hpref
    rcases dominantGenre_cases userProfile recentInteractions with h | h | h
    · exact mem_genreTags h
    · rw [h]; decide
    · intro h0
      rw [h0] at h
      exact hpref h
  · intro hgt het hpg hpe
    have hG : '|' ∉ (encodeState.dominantGenre userProfile recentInteractions).toList := by
      rcases dominantGenre_cases userProfile recentInteractions with h | h | h
      · exact hgt _ h
      · rw [h]; decide
      · exact hpg _ h
    have hE : '|' ∉ (encodeState.dominantExperience userProfile recentInteractions).toList := by
      rcases dominantExperience_cases userProfile recentInteractions with h | h | ⟨_, h2⟩
      · exact het _ h
      · rw [h]; decide
      · rw [h2]; exact hpe
    exact keyComponents_join _ _ hour hG hE

/-- C22, at concrete inputs: a profile with no field set and no events, a
profile with preferences and one tagged event, and a profile whose stored
preferred-genre value is the JSON string `Drama`. -/
theorem encodeState_wellFormed_witness :
    keyComponents (encodeState (exUser none) [] 22) = ["general", "any", "night"] ∧
    (keyComponents (encodeState exUserPrefs [exTagged "Drama" "fun"] 13)).length = 3 ∧
    encodeState.dominantGenre (exUserStored (PrefGenres.text "Drama")) [] ≠ "" := by
  have h1 := (encodeState_wellFormed (exUser none) [] 22).2.2.2.2
    (by decide) (by decide)
    (by
      intro g h
      have h0 : (none : Option String) = some g := h
      exact Option.noConfusion h0)
    (by decide)
  have h2 := (encodeState_wellFormed exUserPrefs [exTagged "Drama" "fun"] 13).2.2.2.2
    (by decide!) (by decide!)
    (by
      intro g h
      have h0 : some "Comedy" = some g := h
      rw [← Option.some.inj h0]; decide)
    (by decide)
  have h3 := (encodeState_wellFormed (exUserStored (PrefGenres.text "Drama")) [] 10).2.2.2.1
    (by decide!)
  refine ⟨?_, ?_, h3⟩
  · rw [h1]; decide!
  · rw [h2]; rfl


end UniVibe
